import Mathlib

/-!
A shallow embedding of `src/zstart/src/main/engine/file_handler.py`.

The embedding models:
  * Python values that the serialization layer handles (`PyVal`): `None`,
    booleans, integers, strings, lists, and string-keyed dicts.  Floating
    point numbers and arbitrary Python objects are outside the model.
  * the filesystem and the process state (`FileSys`, `PyState`): files,
    directories, a set of permission-denied paths, a heap of Python objects
    (attribute dictionaries addressed by an object id) and the stream of
    diagnostic messages printed by the code.
  * the `DataHandler` static methods (raw file I/O and the codecs; the
    third-party `ujson` / `yaml` / `tomllib` calls are modelled by executable
    encoder/decoder functions defined here),
  * the `BaseHandler` / `ConfigHandler` classes and their `save_file`,
    `load_file`, hook and `update_global` methods, with Python exceptions
    made explicit via `Except`.
-/

namespace FileHandler

/-- A Python value, as handled by the serialization layer: `None`, `bool`,
`int`, `str`, `list`, and string-keyed `dict` (attribute dictionaries and
decoded records).  `float` values and arbitrary objects are outside the
model. -/
inductive PyVal where
  | pyNone
  | pyBool (b : Bool)
  | pyInt (n : Int)
  | pyStr (s : String)
  | pyList (xs : List PyVal)
  | pyDict (kvs : List (String × PyVal))

/-! ### Python dict operations (insertion-ordered association lists) -/

/-- `d[k] = v` on an insertion-ordered dict: overwrites in place when the key
exists, appends otherwise (CPython dict semantics; Python dicts never hold a
key twice, so overwriting the first occurrence is exact). -/
def dictSet : List (String × PyVal) → String → PyVal → List (String × PyVal)
  | [], k, v => [(k, v)]
  | (k0, v0) :: rest, k, v =>
      if k0 == k then (k0, v) :: rest else (k0, v0) :: dictSet rest k v

/-- `d.update(kvs)`: write every entry of `kvs` into `d` in order. -/
def dictUpdate (d : List (String × PyVal)) (kvs : List (String × PyVal)) :
    List (String × PyVal) :=
  kvs.foldl (fun acc p => dictSet acc p.1 p.2) d

/-- `d[k]` lookup (first occurrence). -/
def dictGet (d : List (String × PyVal)) (k : String) : Option PyVal :=
  match d with
  | [] => none
  | (k', v) :: rest => if k' == k then some v else dictGet rest k

/-- `k in d`. -/
def dictHas (d : List (String × PyVal)) (k : String) : Bool :=
  d.any (fun p => p.1 == k)

/-! ### JSON codec

Model of the third-party `ujson` library as the source calls it:
`ujson.dumps(data, indent=4)` (ASCII output, forward slashes escaped, four
space indentation, no space after `:`), and `ujson.loads` restricted to the
value domain of the model (floating point literals are rejected rather than
parsed, since `float` is outside `PyVal`). -/

/-- `n` spaces. -/
def spaces (n : Nat) : List Char := List.replicate n ' '

/-- Lower-case hexadecimal digit for `n < 16`. -/
def toHexCh (n : Nat) : Char :=
  if n < 10 then Char.ofNat ('0'.toNat + n) else Char.ofNat ('a'.toNat + (n - 10))

/-- A `\uXXXX` escape for a code unit `n < 0x10000`. -/
def hexEsc4 (n : Nat) : List Char :=
  ['\\', 'u', toHexCh (n / 4096 % 16), toHexCh (n / 256 % 16),
   toHexCh (n / 16 % 16), toHexCh (n % 16)]

/-- JSON-escape one character the way `ujson.dumps` renders it: the two-letter
escapes, `\/` for forward slashes, `\uXXXX` for other control and non-ASCII
characters, and surrogate pairs above the basic plane. -/
def jsonEscChar (c : Char) : List Char :=
  if c = '"' then ['\\', '"']
  else if c = '\\' then ['\\', '\\']
  else if c = '/' then ['\\', '/']
  else if c = '\n' then ['\\', 'n']
  else if c = '\t' then ['\\', 't']
  else if c = '\r' then ['\\', 'r']
  else if c.toNat = 8 then ['\\', 'b']
  else if c.toNat = 12 then ['\\', 'f']
  else if c.toNat < 0x20 || c.toNat > 0x7e then
    if c.toNat < 0x10000 then hexEsc4 c.toNat
    else hexEsc4 (0xd800 + (c.toNat - 0x10000) / 0x400) ++
         hexEsc4 (0xdc00 + (c.toNat - 0x10000) % 0x400)
  else [c]

/-- Decimal digits of `n`, most significant first, prepended to `acc`. -/
def natDigs (n : Nat) (acc : List Char) : List Char :=
  let d := Char.ofNat ('0'.toNat + n % 10)
  if n < 10 then d :: acc else natDigs (n / 10) (d :: acc)
termination_by n
decreasing_by
  rename_i h
  exact Nat.div_lt_self (by omega) (by omega)

/-- Decimal rendering of an integer. -/
def intChars (i : Int) : List Char :=
  (if i < 0 then ['-'] else []) ++ natDigs i.natAbs []

/-- A JSON string literal: quote, escaped body, quote. -/
def jsonStrChars (s : String) : List Char :=
  '"' :: (s.data.flatMap jsonEscChar ++ ['"'])

mutual

/-- Pretty-printed JSON at indentation level `ind` (`ujson.dumps` with
`indent=4`: items on their own lines, closing bracket on the parent's level,
no space after the key colon). -/
def jsonRender : Nat → PyVal → List Char
  | _, .pyNone => ['n', 'u', 'l', 'l']
  | _, .pyBool true => ['t', 'r', 'u', 'e']
  | _, .pyBool false => ['f', 'a', 'l', 's', 'e']
  | _, .pyInt n => intChars n
  | _, .pyStr s => jsonStrChars s
  | _, .pyList [] => ['[', ']']
  | ind, .pyList (x :: xs) =>
      '[' :: '\n' :: (spaces (4 * (ind + 1)) ++ jsonRender (ind + 1) x ++
        jsonRenderItems (ind + 1) xs ++ '\n' :: (spaces (4 * ind) ++ [']']))
  | _, .pyDict [] => ['\x7b', '\x7d']
  | ind, .pyDict ((k, v) :: kvs) =>
      '\x7b' :: '\n' :: (spaces (4 * (ind + 1)) ++ jsonStrChars k ++
        ':' :: (jsonRender (ind + 1) v ++ jsonRenderPairs (ind + 1) kvs ++
          '\n' :: (spaces (4 * ind) ++ ['\x7d'])))

/-- The remaining list items, each preceded by `,\n` and indentation. -/
def jsonRenderItems : Nat → List PyVal → List Char
  | _, [] => []
  | ind, x :: xs =>
      ',' :: '\n' :: (spaces (4 * ind) ++ jsonRender ind x ++ jsonRenderItems ind xs)

/-- The remaining dict entries, each preceded by `,\n` and indentation. -/
def jsonRenderPairs : Nat → List (String × PyVal) → List Char
  | _, [] => []
  | ind, (k, v) :: kvs =>
      ',' :: '\n' :: (spaces (4 * ind) ++ jsonStrChars k ++
        ':' :: (jsonRender ind v ++ jsonRenderPairs ind kvs))

end

/-- `ujson.dumps(data, indent=4)` on the model domain. -/
def jsonDumps (v : PyVal) : String := ⟨jsonRender 0 v⟩

/-- JSON insignificant whitespace. -/
def isWsCh (c : Char) : Bool := c == ' ' || c == '\n' || c == '\t' || c == '\r'

/-- Drop leading whitespace. -/
def skipWs : List Char → List Char
  | c :: cs => if isWsCh c then skipWs cs else c :: cs
  | [] => []

/-- ASCII decimal digit test. -/
def isDigitCh (c : Char) : Bool := '0' ≤ c && c ≤ '9'

/-- Split off the longest leading run of decimal digits. -/
def digitRun : List Char → List Char × List Char
  | c :: cs =>
      if isDigitCh c then
        let (ds, rest) := digitRun cs
        (c :: ds, rest)
      else ([], c :: cs)
  | [] => ([], [])

/-- The number denoted by a digit run. -/
def digsToNat (ds : List Char) : Nat :=
  ds.foldl (fun a c => a * 10 + (c.toNat - '0'.toNat)) 0

/-- Hexadecimal digit value. -/
def hexValCh (c : Char) : Option Nat :=
  let n := c.toNat
  if 0x30 ≤ n && n ≤ 0x39 then some (n - 0x30)
  else if 0x61 ≤ n && n ≤ 0x66 then some (n - 0x57)
  else if 0x41 ≤ n && n ≤ 0x46 then some (n - 0x37)
  else none

/-- Value of four hexadecimal digits. -/
def hexQuad (a b c d : Char) : Option Nat :=
  match hexValCh a, hexValCh b, hexValCh c, hexValCh d with
  | some va, some vb, some vc, some vd => some (((va * 16 + vb) * 16 + vc) * 16 + vd)
  | _, _, _, _ => none

/-- The character named by a two-character escape. -/
def jsonUnescCh (c : Char) : Option Char :=
  if c = '"' then some '"'
  else if c = '\\' then some '\\'
  else if c = '/' then some '/'
  else if c = 'n' then some '\n'
  else if c = 't' then some '\t'
  else if c = 'r' then some '\r'
  else if c = 'b' then some (Char.ofNat 8)
  else if c = 'f' then some (Char.ofNat 12)
  else none

/-- Decode one escape after a backslash: `uXXXX` escapes (with a high
surrogate required to be followed by a low surrogate escape, the pair
yielding one character, and other surrogate uses rejected) or a two-letter
escape.  Returns the character and the remaining input. -/
def jparseEscCh : List Char → Option (Char × List Char)
  | 'u' :: a :: b :: c2 :: d :: rest2 =>
      (match hexQuad a b c2 d with
       | none => none
       | some n =>
           if 0xd800 ≤ n && n < 0xdc00 then
             match rest2 with
             | '\\' :: 'u' :: a' :: b' :: c' :: d' :: rest3 =>
                 (match hexQuad a' b' c' d' with
                  | none => none
                  | some m =>
                      if 0xdc00 ≤ m && m < 0xe000 then
                        some (Char.ofNat
                          (0x10000 + (n - 0xd800) * 0x400 + (m - 0xdc00)), rest3)
                      else none)
             | _ => none
           else if 0xdc00 ≤ n && n < 0xe000 then none
           else some (Char.ofNat n, rest2))
  | e :: rest2 =>
      (match jsonUnescCh e with
       | some ch => some (ch, rest2)
       | none => none)
  | [] => none

/-- Parse a JSON string body after the opening quote (recursion bounded by
`fuel`; callers pass the input length plus one). -/
def jparseStr (fuel : Nat) (acc : List Char) (cs : List Char) :
    Option (String × List Char) :=
  match fuel with
  | 0 => none
  | fuel + 1 =>
      match cs with
      | [] => none
      | c :: rest =>
          if c = '"' then some (⟨acc.reverse⟩, rest)
          else if c = '\\' then
            match jparseEscCh rest with
            | some (ch, rest2) => jparseStr fuel (ch :: acc) rest2
            | none => none
          else jparseStr fuel (c :: acc) rest

/-- Finish an integer literal: a following `.`, `e` or `E` would make it a
float literal, which is outside the model, so it is rejected. -/
def jparseIntTail (z : Int) (rest : List Char) : Option (Int × List Char) :=
  match rest with
  | '.' :: _ => none
  | 'e' :: _ => none
  | 'E' :: _ => none
  | _ => some (z, rest)

/-- Parse an integer literal: an optional minus sign and a digit run. -/
def jparseInt (cs : List Char) : Option (Int × List Char) :=
  match cs with
  | '-' :: r =>
      (match digitRun r with
       | ([], _) => none
       | (ds, rest) => jparseIntTail (-(digsToNat ds : Int)) rest)
  | _ =>
      match digitRun cs with
      | ([], _) => none
      | (ds, rest) => jparseIntTail ((digsToNat ds : Int)) rest

mutual

/-- Parse one JSON value (recursion bounded by `fuel`), dispatching on the
first non-whitespace character. -/
def jparseValue (fuel : Nat) (cs : List Char) : Option (PyVal × List Char) :=
  match fuel with
  | 0 => none
  | fuel + 1 =>
      match skipWs cs with
      | [] => none
      | c :: r =>
          if c = 'n' then
            match r with
            | 'u' :: 'l' :: 'l' :: r' => some (.pyNone, r')
            | _ => none
          else if c = 't' then
            match r with
            | 'r' :: 'u' :: 'e' :: r' => some (.pyBool true, r')
            | _ => none
          else if c = 'f' then
            match r with
            | 'a' :: 'l' :: 's' :: 'e' :: r' => some (.pyBool false, r')
            | _ => none
          else if c = '"' then
            match jparseStr (r.length + 1) [] r with
            | some (s, r') => some (.pyStr s, r')
            | none => none
          else if c = '[' then
            match skipWs r with
            | [] => none
            | d :: r' =>
                if d = ']' then some (.pyList [], r')
                else
                  match jparseItems fuel (d :: r') with
                  | some (xs, r'') => some (.pyList xs, r'')
                  | none => none
          else if c = '\x7b' then
            match skipWs r with
            | [] => none
            | d :: r' =>
                if d = '\x7d' then some (.pyDict [], r')
                else
                  match jparsePairs fuel (d :: r') with
                  | some (kvs, r'') => some (.pyDict kvs, r'')
                  | none => none
          else
            match jparseInt (c :: r) with
            | some (n, r') => some (.pyInt n, r')
            | none => none

/-- Parse one or more comma-separated values up to the closing `]`. -/
def jparseItems (fuel : Nat) (cs : List Char) : Option (List PyVal × List Char) :=
  match fuel with
  | 0 => none
  | fuel + 1 =>
      match jparseValue fuel cs with
      | none => none
      | some (v, r) =>
          match skipWs r with
          | ',' :: r' =>
              match jparseItems fuel r' with
              | some (vs, r'') => some (v :: vs, r'')
              | none => none
          | ']' :: r' => some ([v], r')
          | _ => none

/-- Parse one or more comma-separated `"key":value` entries up to `\x7d`. -/
def jparsePairs (fuel : Nat) (cs : List Char) :
    Option (List (String × PyVal) × List Char) :=
  match fuel with
  | 0 => none
  | fuel + 1 =>
      match skipWs cs with
      | '"' :: r =>
          match jparseStr (r.length + 1) [] r with
          | none => none
          | some (k, r1) =>
              match skipWs r1 with
              | ':' :: r2 =>
                  match jparseValue fuel r2 with
                  | none => none
                  | some (v, r3) =>
                      match skipWs r3 with
                      | ',' :: r4 =>
                          match jparsePairs fuel r4 with
                          | some (kvs, r5) => some ((k, v) :: kvs, r5)
                          | none => none
                      | '\x7d' :: r4 => some ([(k, v)], r4)
                      | _ => none
              | _ => none
      | _ => none

end

/-- `ujson.loads` on the model domain: a whole document is one value followed
only by whitespace. -/
def jsonLoads (s : String) : Option PyVal :=
  match jparseValue (s.data.length + 1) s.data with
  | some (v, rest) => if (skipWs rest).isEmpty then some v else none
  | none => none

/-! ### YAML codec

Model of the third-party `yaml` (PyYAML) library as the source calls it:
`yaml.dump(data, indent=4)` (block style, keys sorted, ASCII output, an
explicit `...` end marker after a plain top-level scalar) and
`yaml.safe_load` restricted to the documents that dump emits.

Model scope, beyond the `PyVal` domain itself: line folding is not modelled
(the emitter behaves as if `width` were unbounded), strings containing line
breaks are emitted double-quoted with escapes rather than in a folded style,
and of the resolver's implicit tags the null/bool/int/float families are
modelled while timestamps and sexagesimals are not.  Both directions of the
model share one resolver, which is the mechanism that makes ambiguous
strings round-trip: a string that would resolve to another type is never
emitted plain. -/

/-- Upper-case hexadecimal digit for `n < 16`. -/
def toHexU (n : Nat) : Char :=
  if n < 10 then Char.ofNat ('0'.toNat + n) else Char.ofNat ('A'.toNat + (n - 10))

/-- Strip one leading sign character. -/
def dropSign : List Char → List Char
  | '+' :: r => r
  | '-' :: r => r
  | cs => cs

/-- ASCII hexadecimal digit test. -/
def isHexDigitCh (c : Char) : Bool :=
  ('0' ≤ c && c ≤ '9') || ('a' ≤ c && c ≤ 'f') || ('A' ≤ c && c ≤ 'F')

/-- The scalar forms the resolver gives the `int` tag (decimal, hexadecimal,
binary; a leading-zero octal form is folded into the all-digits case). -/
def intLike (s : String) : Bool :=
  match dropSign s.data with
  | [] => false
  | cs =>
      cs.all isDigitCh ||
      (match cs with
       | '0' :: 'x' :: r => !r.isEmpty && r.all isHexDigitCh
       | '0' :: 'b' :: r => !r.isEmpty && r.all (fun c => c == '0' || c == '1')
       | _ => false)

/-- The scalar forms the resolver gives the `float` tag (approximated: a
digits-and-punctuation word containing a dot or exponent, or an
infinity/not-a-number word). -/
def floatLike (s : String) : Bool :=
  (match dropSign s.data with
   | [] => false
   | cs =>
       cs.any (fun c => c == '.' || c == 'e' || c == 'E') &&
       cs.all (fun c =>
         isDigitCh c || c == '.' || c == 'e' || c == 'E' || c == '+' ||
         c == '-' || c == '_')) ||
  ["inf", "Inf", "INF", "nan", "NaN", "NAN"].any
    (fun w => s == "." ++ w || s == "-." ++ w || s == "+." ++ w)

/-- The words the resolver reads as `None`. -/
def nullWords : List String := ["", "~", "null", "Null", "NULL"]

/-- The words the resolver reads as `True` (YAML 1.1 booleans). -/
def trueWords : List String :=
  ["yes", "Yes", "YES", "true", "True", "TRUE", "on", "On", "ON"]

/-- The words the resolver reads as `False`. -/
def falseWords : List String :=
  ["no", "No", "NO", "false", "False", "FALSE", "off", "Off", "OFF"]

/-- Resolve a plain (unquoted) scalar the way `SafeLoader` constructs it.
`none` marks a scalar whose constructed value lies outside the model (float
forms, non-decimal integer forms, the `=` and `<<` specials); everything
not implicitly typed is a string. -/
def resolvePlain (s : String) : Option PyVal :=
  if nullWords.contains s then some .pyNone
  else if trueWords.contains s then some (.pyBool true)
  else if falseWords.contains s then some (.pyBool false)
  else if !(dropSign s.data).isEmpty && (dropSign s.data).all isDigitCh then
    some (.pyInt (if s.data.head? == some '-' then
      -(digsToNat (dropSign s.data) : Int) else (digsToNat (dropSign s.data) : Int)))
  else if intLike s || floatLike s then none
  else if s == "=" || s == "<<" then none
  else some (.pyStr s)

/-- Characters acceptable in plain and single-quoted scalars of the model
(printable ASCII). -/
def plainChOk (c : Char) : Bool := 0x20 ≤ c.toNat && c.toNat ≤ 0x7e

/-- YAML indicator characters, which may not open a plain scalar. -/
def yamlIndicator (c : Char) : Bool :=
  c == '-' || c == '?' || c == ':' || c == ',' || c == '[' || c == ']' ||
  c == '\x7b' || c == '\x7d' || c == '#' || c == '&' || c == '*' || c == '!' ||
  c == '|' || c == '>' || c == '\'' || c == '"' || c == '%' || c == '@' ||
  c == Char.ofNat 96

/-- No `:` followed by a space or the end of the scalar. -/
def noColonSpace : List Char → Bool
  | [] => true
  | [c] => c ≠ ':'
  | c :: d :: r => !(c == ':' && d == ' ') && noColonSpace (d :: r)

/-- No space followed by `#`. -/
def noSpaceHash : List Char → Bool
  | [] => true
  | [_] => true
  | c :: d :: r => !(c == ' ' && d == '#') && noSpaceHash (d :: r)

/-- May the string be emitted as a plain scalar?  Model of the emitter's
scalar analysis plus its resolver check: printable ASCII, no leading
indicator, no boundary spaces, no `: `/` #` sequences, and resolving back
to the very same string. -/
def plainOk (s : String) : Bool :=
  match s.data with
  | [] => false
  | c :: _ =>
      !(yamlIndicator c) && c ≠ ' ' &&
      s.data.all plainChOk &&
      s.data.getLast? ≠ some ' ' &&
      noColonSpace s.data && noSpaceHash s.data &&
      (match resolvePlain s with
       | some (.pyStr t) => t == s
       | _ => false)

/-- Single-quoted body: quotes doubled. -/
def sqEscBody (cs : List Char) : List Char :=
  cs.flatMap (fun c => if c == '\'' then [c, c] else [c])

/-- Double-quote escape for one character, as the emitter writes it with
`allow_unicode=False`: named escapes, `\xXX`, `\uXXXX` or `\UXXXXXXXX`. -/
def yamlDqEscChar (c : Char) : List Char :=
  if c = '"' then ['\\', '"']
  else if c = '\\' then ['\\', '\\']
  else if 0x20 ≤ c.toNat && c.toNat ≤ 0x7e then [c]
  else if c = '\n' then ['\\', 'n']
  else if c = '\t' then ['\\', 't']
  else if c.toNat = 0x0 then ['\\', '0']
  else if c.toNat = 0x7 then ['\\', 'a']
  else if c.toNat = 0x8 then ['\\', 'b']
  else if c.toNat = 0xb then ['\\', 'v']
  else if c.toNat = 0xc then ['\\', 'f']
  else if c.toNat = 0xd then ['\\', 'r']
  else if c.toNat = 0x1b then ['\\', 'e']
  else if c.toNat = 0x85 then ['\\', 'N']
  else if c.toNat = 0xa0 then ['\\', '_']
  else if c.toNat = 0x2028 then ['\\', 'L']
  else if c.toNat = 0x2029 then ['\\', 'P']
  else if c.toNat < 0x100 then ['\\', 'x', toHexU (c.toNat / 16), toHexU (c.toNat % 16)]
  else if c.toNat < 0x10000 then
    ['\\', 'u', toHexU (c.toNat / 4096 % 16), toHexU (c.toNat / 256 % 16),
     toHexU (c.toNat / 16 % 16), toHexU (c.toNat % 16)]
  else
    ['\\', 'U', toHexU (c.toNat / 0x10000000 % 16), toHexU (c.toNat / 0x1000000 % 16),
     toHexU (c.toNat / 0x100000 % 16), toHexU (c.toNat / 0x10000 % 16),
     toHexU (c.toNat / 4096 % 16), toHexU (c.toNat / 256 % 16),
     toHexU (c.toNat / 16 % 16), toHexU (c.toNat % 16)]

/-- The token for a string scalar: plain when allowed, else single-quoted
when printable ASCII, else double-quoted with escapes. -/
def yamlStrToken (s : String) : List Char :=
  if plainOk s then s.data
  else if s.data.all plainChOk then '\'' :: (sqEscBody s.data ++ ['\''])
  else '"' :: (s.data.flatMap yamlDqEscChar ++ ['"'])

/-- Is the value rendered inline (a scalar or an empty flow collection)? -/
def isFlatVal : PyVal → Bool
  | .pyNone => true
  | .pyBool _ => true
  | .pyInt _ => true
  | .pyStr _ => true
  | .pyList xs => xs.isEmpty
  | .pyDict kvs => kvs.isEmpty

/-- The inline token of a flat value. -/
def yamlScalarToken : PyVal → List Char
  | .pyNone => ['n', 'u', 'l', 'l']
  | .pyBool true => ['t', 'r', 'u', 'e']
  | .pyBool false => ['f', 'a', 'l', 's', 'e']
  | .pyInt n => intChars n
  | .pyStr s => yamlStrToken s
  | .pyList _ => ['[', ']']
  | .pyDict _ => ['\x7b', '\x7d']

/-- Code-point lexicographic comparison (Python `<` on strings). -/
def charListLt : List Char → List Char → Bool
  | [], [] => false
  | [], _ :: _ => true
  | _ :: _, [] => false
  | a :: as, b :: bs => a.toNat < b.toNat || (a == b && charListLt as bs)

/-- Insert an entry into a key-sorted list. -/
def insPair (p : String × PyVal) : List (String × PyVal) → List (String × PyVal)
  | [] => [p]
  | q :: r => if charListLt q.1.data p.1.data then q :: insPair p r else p :: q :: r

/-- Sort entries by key (the emitter's `sort_keys=True`). -/
def sortPairs (kvs : List (String × PyVal)) : List (String × PyVal) :=
  kvs.foldr insPair []

mutual

/-- Recursively sort every dictionary by key: the canonical form in which
the emitter lays out a value. -/
def canonVal : PyVal → PyVal
  | .pyDict kvs => .pyDict (sortPairs (canonPairs kvs))
  | .pyList xs => .pyList (canonItems xs)
  | v => v

/-- `canonVal` on list items. -/
def canonItems : List PyVal → List PyVal
  | [] => []
  | x :: xs => canonVal x :: canonItems xs

/-- `canonVal` on dict entries. -/
def canonPairs : List (String × PyVal) → List (String × PyVal)
  | [] => []
  | (k, v) :: kvs => (k, canonVal v) :: canonPairs kvs

end

mutual

/-- Python `==` on values: dictionaries compare as key-value maps, order
insensitively (adequate for dictionaries without duplicate keys). -/
def pyEq : PyVal → PyVal → Bool
  | .pyNone, .pyNone => true
  | .pyBool a, .pyBool b => a == b
  | .pyInt a, .pyInt b => a == b
  | .pyStr a, .pyStr b => a == b
  | .pyList a, .pyList b => pyEqItems a b
  | .pyDict a, .pyDict b => a.length == b.length && pyEqEntries a b
  | _, _ => false

/-- Pointwise `pyEq` on lists. -/
def pyEqItems : List PyVal → List PyVal → Bool
  | [], [] => true
  | x :: xs, y :: ys => pyEq x y && pyEqItems xs ys
  | _, _ => false

/-- Every entry of the first dict is present in the second with a
`pyEq`-equal value. -/
def pyEqEntries : List (String × PyVal) → List (String × PyVal) → Bool
  | [], _ => true
  | (k, v) :: xs, b =>
      (match dictGet b k with
       | some w => pyEq v w
       | none => false) && pyEqEntries xs b

end

mutual

/-- Are all dictionary key lists (recursively) free of duplicates?  Python
dicts satisfy this by construction; it is the well-formedness condition of
the model's association lists. -/
def nodupKeys : PyVal → Bool
  | .pyDict kvs => (kvs.map Prod.fst).Nodup && nodupKeysPairs kvs
  | .pyList xs => nodupKeysItems xs
  | _ => true

/-- `nodupKeys` on list items. -/
def nodupKeysItems : List PyVal → Bool
  | [] => true
  | x :: xs => nodupKeys x && nodupKeysItems xs

/-- `nodupKeys` on dict entries. -/
def nodupKeysPairs : List (String × PyVal) → Bool
  | [] => true
  | (_, v) :: kvs => nodupKeys v && nodupKeysPairs kvs

end

/-- Replace the first `ind + 1` spaces of a child block's first line with
`ind` spaces and a dash: the compact block-sequence notation. -/
def yamlDashFuse (ind : Nat) (ls : List String) : List String :=
  match ls with
  | [] => []
  | l :: rest => (⟨spaces ind ++ '-' :: l.data.drop (ind + 1)⟩ : String) :: rest

mutual

/-- The lines of a block mapping at indentation `ind` (entries assumed
key-sorted, i.e. in `canonVal` form): inline tokens after `: `, a nested
mapping indented four further columns, a nested sequence indentless. -/
def yamlMapLines (ind : Nat) : List (String × PyVal) → List String
  | [] => []
  | (k, v) :: rest =>
      (if isFlatVal v then
        [⟨spaces ind ++ yamlStrToken k ++ ':' :: ' ' :: yamlScalarToken v⟩]
      else
        match v with
        | .pyDict kvs =>
            (⟨spaces ind ++ yamlStrToken k ++ [':']⟩ : String) ::
              yamlMapLines (ind + 4) kvs
        | .pyList xs =>
            (⟨spaces ind ++ yamlStrToken k ++ [':']⟩ : String) ::
              yamlSeqLines ind xs
        | _ => []) ++ yamlMapLines ind rest

/-- The lines of a block sequence at indentation `ind`: `- token` for flat
items, and for block items the dash fused onto the first line of the child
block, whose own indentation is `ind + 4`. -/
def yamlSeqLines (ind : Nat) : List PyVal → List String
  | [] => []
  | x :: rest =>
      (if isFlatVal x then
        [⟨spaces ind ++ '-' :: ' ' :: yamlScalarToken x⟩]
      else
        match x with
        | .pyDict kvs => yamlDashFuse ind (yamlMapLines (ind + 4) kvs)
        | .pyList xs => yamlDashFuse ind (yamlSeqLines (ind + 4) xs)
        | _ => []) ++ yamlSeqLines ind rest

end

/-- Join emitted lines, a newline after each. -/
def joinLines (ls : List String) : String :=
  ⟨ls.flatMap (fun l => l.data ++ ['\n'])⟩

/-- Is the top-level scalar written plain (and the document therefore closed
with an explicit `...` end marker)? -/
def topOpenEnded : PyVal → Bool
  | .pyStr s => plainOk s
  | .pyNone => true
  | .pyBool _ => true
  | .pyInt _ => true
  | _ => false

/-- `yaml.dump(data, indent=4)` on the model domain. -/
def yamlDumps (v : PyVal) : String :=
  let w := canonVal v
  if isFlatVal w then
    (⟨yamlScalarToken w⟩ : String) ++ (if topOpenEnded w then "\n...\n" else "\n")
  else
    match w with
    | .pyDict kvs => joinLines (yamlMapLines 0 kvs)
    | .pyList xs => joinLines (yamlSeqLines 0 xs)
    | _ => ""

/-! #### YAML parsing (`yaml.safe_load` on the emitted block subset) -/

/-- Scan a single-quoted body, undoubling quotes, returning the remainder
after the closing quote. -/
def sqScan (acc : List Char) : List Char → Option (String × List Char)
  | [] => none
  | c :: r =>
      if c = '\'' then
        match r with
        | [] => some (⟨acc.reverse⟩, [])
        | b :: r2 =>
            if b = '\'' then sqScan ('\'' :: acc) r2
            else some (⟨acc.reverse⟩, b :: r2)
      else sqScan (c :: acc) r

/-- The character named by a double-quote letter escape. -/
def yamlUnescCh (c : Char) : Option Char :=
  if c = '"' then some '"'
  else if c = '\\' then some '\\'
  else if c = '/' then some '/'
  else if c = 'n' then some '\n'
  else if c = 't' then some '\t'
  else if c = '0' then some (Char.ofNat 0x0)
  else if c = 'a' then some (Char.ofNat 0x7)
  else if c = 'b' then some (Char.ofNat 0x8)
  else if c = 'v' then some (Char.ofNat 0xb)
  else if c = 'f' then some (Char.ofNat 0xc)
  else if c = 'r' then some (Char.ofNat 0xd)
  else if c = 'e' then some (Char.ofNat 0x1b)
  else if c = 'N' then some (Char.ofNat 0x85)
  else if c = '_' then some (Char.ofNat 0xa0)
  else if c = 'L' then some (Char.ofNat 0x2028)
  else if c = 'P' then some (Char.ofNat 0x2029)
  else if c = ' ' then some ' '
  else none

/-- Is `n` a valid Unicode scalar value (what a `Char` may hold)? -/
def validScalarCp (n : Nat) : Bool :=
  (n < 0xd800 || 0xe000 ≤ n) && n < 0x110000

/-- Decode one backslash escape (the backslash already consumed): `\xXX`,
`\uXXXX`, `\UXXXXXXXX` or a letter escape, returning the decoded character
and the remainder. -/
def dqUnesc : List Char → Option (Char × List Char)
  | [] => none
  | e :: r2 =>
      if e = 'x' then
        match r2 with
        | a :: b :: r3 =>
            (match hexValCh a, hexValCh b with
             | some va, some vb => some (Char.ofNat (va * 16 + vb), r3)
             | _, _ => none)
        | _ => none
      else if e = 'u' then
        match r2 with
        | a :: b :: c2 :: d :: r3 =>
            (match hexQuad a b c2 d with
             | some n =>
                 if validScalarCp n then some (Char.ofNat n, r3) else none
             | none => none)
        | _ => none
      else if e = 'U' then
        match r2 with
        | a :: b :: c2 :: d :: e2 :: f :: g :: h :: r3 =>
            (match hexQuad a b c2 d, hexQuad e2 f g h with
             | some hi, some lo =>
                 if validScalarCp (hi * 0x10000 + lo) then
                   some (Char.ofNat (hi * 0x10000 + lo), r3)
                 else none
             | _, _ => none)
        | _ => none
      else
        match yamlUnescCh e with
        | some ch => some (ch, r2)
        | none => none

/-- Scan a double-quoted body (recursion bounded by `fuel`; every step
consumes at least one character, so the caller's `length + 1` always
suffices), returning the remainder after the closing quote. -/
def dqScan (fuel : Nat) (acc : List Char) (cs : List Char) :
    Option (String × List Char) :=
  match fuel with
  | 0 => none
  | fuel + 1 =>
      match cs with
      | [] => none
      | c :: r =>
          if c = '"' then some (⟨acc.reverse⟩, r)
          else if c = '\\' then
            match dqUnesc r with
            | some (ch, r2) => dqScan fuel (ch :: acc) r2
            | none => none
          else dqScan fuel (c :: acc) r

/-- Parse a complete inline token into a value: the empty flow collections,
a quoted string, or a plain scalar put through the resolver. -/
def parseFlatToken (cs : List Char) : Option PyVal :=
  match cs with
  | [] => some .pyNone
  | ['[', ']'] => some (.pyList [])
  | ['\x7b', '\x7d'] => some (.pyDict [])
  | '\'' :: r =>
      (match sqScan [] r with
       | some (s, []) => some (.pyStr s)
       | _ => none)
  | '"' :: r =>
      (match dqScan (r.length + 1) [] r with
       | some (s, []) => some (.pyStr s)
       | _ => none)
  | _ => resolvePlain ⟨cs⟩

/-- Split a plain mapping-entry text at the key colon: the colon ends the
key exactly when followed by a space (inline value) or the end of the line
(nested value). -/
def plainKeySplit (acc : List Char) : List Char → Option (String × Option (List Char))
  | [] => none
  | c :: r =>
      if c = ':' then
        match r with
        | [] => some (⟨acc.reverse⟩, none)
        | d :: v =>
            if d = ' ' then some (⟨acc.reverse⟩, some v)
            else plainKeySplit (c :: acc) r
      else plainKeySplit (c :: acc) r

/-- After a quoted key: expect the colon, then an inline value or the end
of the line. -/
def afterKeyColon : List Char → Option (Option (List Char))
  | [':'] => some none
  | ':' :: ' ' :: v => some (some v)
  | _ => none

/-- Split a mapping-entry line body into its key string and either an
inline value text or `none` for a nested block value. -/
def splitKey (cs : List Char) : Option (String × Option (List Char)) :=
  match cs with
  | '\'' :: r =>
      (match sqScan [] r with
       | some (s, rest) =>
           (match afterKeyColon rest with
            | some tail => some (s, tail)
            | none => none)
       | none => none)
  | '"' :: r =>
      (match dqScan (r.length + 1) [] r with
       | some (s, rest) =>
           (match afterKeyColon rest with
            | some tail => some (s, tail)
            | none => none)
       | none => none)
  | _ =>
      (match plainKeySplit [] cs with
       | some (raw, tail) =>
           (match resolvePlain raw with
            | some (.pyStr k) => some (k, tail)
            | _ => none)
       | none => none)

/-- The number of leading spaces of a line. -/
def lineIndent (l : String) : Nat := (l.data.takeWhile (fun c => c == ' ')).length

/-- The body of a line whose indentation is exactly `ind` (nonempty,
starting with a non-space). -/
def stripInd (l : String) (ind : Nat) : Option (List Char) :=
  if lineIndent l == ind then
    match l.data.drop ind with
    | [] => none
    | cs => some cs
  else none

mutual

/-- Parse block-mapping entries at indentation `ind`; stops (returning the
unconsumed lines) at a dedent or a dash line. -/
def yParseMap (fuel : Nat) (ind : Nat) (lines : List String) :
    Option (List (String × PyVal) × List String) :=
  match fuel with
  | 0 => none
  | fuel + 1 =>
      match lines with
      | [] => some ([], [])
      | l :: rest =>
          match stripInd l ind with
          | none => some ([], lines)
          | some cs =>
              if cs.head? == some '-' then some ([], lines)
              else
                match splitKey cs with
                | none => some ([], lines)
                | some (k, some vtxt) =>
                    (match parseFlatToken vtxt with
                     | none => none
                     | some v =>
                         match yParseMap fuel ind rest with
                         | some (kvs, rem) => some ((k, v) :: kvs, rem)
                         | none => none)
                | some (k, none) =>
                    match rest with
                    | [] => none
                    | l2 :: _ =>
                        if lineIndent l2 == ind then
                          -- an indentless block sequence value
                          (match yParseSeq fuel ind rest with
                           | some (x :: xs, rem) =>
                               (match yParseMap fuel ind rem with
                                | some (kvs, rem') =>
                                    some ((k, .pyList (x :: xs)) :: kvs, rem')
                                | none => none)
                           | _ => none)
                        else
                          -- a nested block mapping, four columns deeper
                          (match yParseMap fuel (ind + 4) rest with
                           | some (e :: es, rem) =>
                               (match yParseMap fuel ind rem with
                                | some (kvs, rem') =>
                                    some ((k, .pyDict (e :: es)) :: kvs, rem')
                                | none => none)
                           | _ => none)

/-- Parse block-sequence items at indentation `ind`; stops at a dedent or a
non-dash line. -/
def yParseSeq (fuel : Nat) (ind : Nat) (lines : List String) :
    Option (List PyVal × List String) :=
  match fuel with
  | 0 => none
  | fuel + 1 =>
      match lines with
      | [] => some ([], [])
      | l :: rest =>
          match stripInd l ind with
          | none => some ([], lines)
          | some cs =>
              match cs with
              | '-' :: ' ' :: t2 =>
                  if t2.head? == some ' ' then
                    -- compact child block: the dash plus padding stands for
                    -- the child's first `ind + 4` columns
                    (match t2 with
                     | ' ' :: ' ' :: content =>
                         (match yParseBlock fuel (ind + 4)
                             ((⟨spaces (ind + 4) ++ content⟩ : String) :: rest) with
                          | some (v, rem) =>
                              (match yParseSeq fuel ind rem with
                               | some (xs, rem') => some (v :: xs, rem')
                               | none => none)
                          | none => none)
                     | _ => none)
                  else
                    (match parseFlatToken t2 with
                     | some v =>
                         (match yParseSeq fuel ind rest with
                          | some (xs, rem) => some (v :: xs, rem)
                          | none => none)
                     | none => none)
              | _ => some ([], lines)

/-- Parse one nested block node (sequence or mapping) at indentation `ind`. -/
def yParseBlock (fuel : Nat) (ind : Nat) (lines : List String) :
    Option (PyVal × List String) :=
  match fuel with
  | 0 => none
  | fuel + 1 =>
      match lines with
      | [] => none
      | l :: _ =>
          match stripInd l ind with
          | none => none
          | some cs =>
              if cs.head? == some '-' then
                match yParseSeq fuel ind lines with
                | some (x :: xs, rem) => some (.pyList (x :: xs), rem)
                | _ => none
              else
                match yParseMap fuel ind lines with
                | some (e :: es, rem) => some (.pyDict (e :: es), rem)
                | _ => none

end

/-- Split a character stream at every newline (Python `str.split`: empty
segments kept). -/
def splitNl (acc : List Char) : List Char → List String
  | [] => [⟨acc.reverse⟩]
  | c :: r =>
      if c = '\n' then (⟨acc.reverse⟩ : String) :: splitNl [] r
      else splitNl (c :: acc) r

/-- Split a document into lines, dropping trailing empty lines. -/
def docLines (s : String) : List String :=
  ((splitNl [] s.data).reverse.dropWhile (fun l => l == "")).reverse

/-- `yaml.safe_load` on the emitted block subset: an empty document is
`None`; otherwise a block node, or a single scalar line optionally followed
by the `...` end marker. -/
def yamlLoads (s : String) : Option PyVal :=
  let lines := docLines s
  let fuel := 4 * s.data.length + 8
  match lines with
  | [] => some .pyNone
  | l :: _ =>
      if lineIndent l == 0 then
        match l.data with
        | '-' :: ' ' :: _ =>
            (match yParseSeq fuel 0 lines with
             | some (x :: xs, []) => some (.pyList (x :: xs))
             | _ => none)
        | _ =>
            match yParseMap fuel 0 lines with
            | some (e :: es, []) => some (.pyDict (e :: es))
            | _ =>
                match lines with
                | [tok] => parseFlatToken tok.data
                | [tok, mark] => if mark == "..." then parseFlatToken tok.data else none
                | _ => none
      else none

/-! ### TOML decoding

Minimal model of `tomllib.loads` (decode-only, like the source: the TOML
encode path is commented out there).  Only flat `key = value` documents with
boolean, integer and escape-free basic-string values are modelled; no claim
exercises this decoder. -/

/-- Split a TOML line at the first ` = `. -/
def tomlSplitEq (acc : List Char) : List Char → Option (List Char × List Char)
  | ' ' :: '=' :: ' ' :: v => some (acc.reverse, v)
  | c :: r => tomlSplitEq (c :: acc) r
  | [] => none

/-- A bare TOML key. -/
def tomlKeyOk (cs : List Char) : Bool :=
  !cs.isEmpty && cs.all (fun c => c.isAlphanum || c == '_' || c == '-')

/-- A TOML value of the modelled fragment. -/
def tomlValue (cs : List Char) : Option PyVal :=
  match cs with
  | ['t', 'r', 'u', 'e'] => some (.pyBool true)
  | ['f', 'a', 'l', 's', 'e'] => some (.pyBool false)
  | '"' :: r =>
      (match r.reverse with
       | '"' :: body =>
           let b := body.reverse
           if b.all (fun c => c ≠ '"' && c ≠ '\\') then some (.pyStr ⟨b⟩) else none
       | _ => none)
  | _ =>
      if !(dropSign cs).isEmpty && (dropSign cs).all isDigitCh then
        some (.pyInt (if cs.head? == some '-' then
          -(digsToNat (dropSign cs) : Int) else (digsToNat (dropSign cs) : Int)))
      else none

/-- One `key = value` line. -/
def tomlLine (l : String) : Option (String × PyVal) :=
  match tomlSplitEq [] l.data with
  | none => none
  | some (k, v) =>
      if tomlKeyOk k then
        match tomlValue v with
        | some pv => some (⟨k⟩, pv)
        | none => none
      else none

/-- All lines of a flat TOML document. -/
def tomlLinesParse : List String → Option (List (String × PyVal))
  | [] => some []
  | l :: ls =>
      match tomlLine l, tomlLinesParse ls with
      | some kv, some kvs => some (kv :: kvs)
      | _, _ => none

/-- `tomllib.loads` on the modelled fragment. -/
def tomlLoads (s : String) : Option PyVal :=
  match tomlLinesParse (docLines s) with
  | some kvs => some (.pyDict kvs)
  | none => none

/-! ### Filesystem and process state -/

/-- File contents: text or raw bytes (which of the two decides the open
mode in `DataHandler.write_file`). -/
inductive FileData where
  | text (s : String)
  | binary (bs : List Nat)
deriving DecidableEq

/-- The filesystem: existing directories, files with contents, and paths on
which opening raises a permission error. -/
structure FileSys where
  dirs : List String
  files : List (String × FileData)
  denied : List String
deriving DecidableEq

/-- Contents of a file, if present. -/
def fileGet (files : List (String × FileData)) (p : String) : Option FileData :=
  match files with
  | [] => none
  | (q, d) :: rest => if q == p then some d else fileGet rest p

/-- Write contents to a path (truncating any previous contents). -/
def fileSet : List (String × FileData) → String → FileData → List (String × FileData)
  | [], p, d => [(p, d)]
  | (q, e) :: rest, p, d =>
      if q == p then (q, d) :: rest else (q, e) :: fileSet rest p d

/-- `os.path.dirname`: the part before the last slash. -/
def dirname (p : String) : String :=
  ⟨(((p.data.reverse).dropWhile (fun c => c ≠ '/')).drop 1).reverse⟩

/-- Cumulative `/`-joined prefixes of a path's segments. -/
def cumJoinAux (pre : String) : List String → List String
  | [] => []
  | p :: ps =>
      let cur := if pre == "" then p else pre ++ "/" ++ p
      cur :: cumJoinAux cur ps

/-- `os.makedirs(d, exist_ok=True)`: create the directory itself and all its
ancestors (no error when they already exist). -/
def makedirs (fs : FileSys) (d : String) : FileSys :=
  { fs with dirs := (fs.dirs ++
      ((cumJoinAux "" (d.split (fun c => c == '/'))) ++ [d]).filter
        (fun x => !fs.dirs.contains x)) }

/-- May `open(p, 'w')` succeed?  The path must not be permission-denied and
its parent directory (when it names one) must exist. -/
def pathWritable (fs : FileSys) (p : String) : Bool :=
  !fs.denied.contains p && (dirname p == "" || fs.dirs.contains (dirname p))

/-- The whole process state: the heap of Python objects (attribute
dictionaries addressed by object id), the filesystem, and everything
printed so far. -/
structure PyState where
  heap : List (Nat × List (String × PyVal))
  fs : FileSys
  out : List String

/-- Attribute dictionary of the object with id `oid`. -/
def heapGet (heap : List (Nat × List (String × PyVal))) (oid : Nat) :
    Option (List (String × PyVal)) :=
  match heap with
  | [] => none
  | (o, d) :: rest => if o == oid then some d else heapGet rest oid

/-- Replace the attribute dictionary of object `oid`. -/
def heapSet : List (Nat × List (String × PyVal)) → Nat → List (String × PyVal) →
    List (Nat × List (String × PyVal))
  | [], oid, d => [(oid, d)]
  | (o, e) :: rest, oid, d =>
      if o == oid then (o, d) :: rest else (o, e) :: heapSet rest oid d

/-- The object id of the module-level `configData` singleton imported from
`instances`. -/
def configDataId : Nat := 0

/-- The Python exceptions the embedded code can raise. -/
inductive PyExc where
  | notImplementedError (msg : String)
  | unboundLocalError (msg : String)
  | typeError (msg : String)
deriving DecidableEq

/-- `str(e)`. -/
def pyExcMsg : PyExc → String
  | .notImplementedError m => m
  | .unboundLocalError m => m
  | .typeError m => m

/-- `type(v).__name__`. -/
def pyTypeName : PyVal → String
  | .pyNone => "NoneType"
  | .pyBool _ => "bool"
  | .pyInt _ => "int"
  | .pyStr _ => "str"
  | .pyList _ => "list"
  | .pyDict _ => "dict"

/-! ### DataHandler -/

/-- `DataHandler.write_file`: open in binary mode for byte payloads and text
mode otherwise, write everything, return `True`; on an `IOError` (missing
parent directory, permission) print the diagnostic and fall off the end of
the function, that is, return `None`.  No exception escapes. -/
def DataHandler.write_file (fs : FileSys) (file_path : String) (data : FileData) :
    FileSys × List String × Option Bool :=
  if pathWritable fs file_path then
    ({ fs with files := fileSet fs.files file_path data }, [], some true)
  else
    (fs, ["Failed to write file " ++ file_path ++ ", Check that the file is writable."],
     none)

/-- `DataHandler.read_file`: return the full contents, or print the matching
diagnostic and return `None` when the file is missing, permission-denied, or
(in the model) holds bytes that text mode cannot decode. -/
def DataHandler.read_file (fs : FileSys) (file_path : String) (is_bytes : Bool) :
    List String × Option FileData :=
  match fileGet fs.files file_path with
  | none =>
      (["Failed to read file " ++ file_path ++ ", Check that the file exists."], none)
  | some d =>
      if fs.denied.contains file_path then
        (["Failed to read file " ++ file_path ++ ", Check permissions."], none)
      else if is_bytes then ([], some d)
      else
        match d with
        | .text s => ([], some (.text s))
        | .binary _ =>
            (["An unexpected error ocurred while reading file. Error: invalid text"], none)

/-- `DataHandler._serialize_json`, i.e. `ujson.dumps(data, indent=4)`: every
`PyVal` is JSON-serializable, so the `TypeError`/`OverflowError` branches of
the source are unreachable on the model domain. -/
def DataHandler.serialize_json (data : PyVal) : List String × Option String :=
  ([], some (jsonDumps data))

/-- `DataHandler._deserialize_json`, i.e. `ujson.loads`: the parse failure
branch prints and returns `None`. -/
def DataHandler.deserialize_json (data : String) : List String × Option PyVal :=
  match jsonLoads data with
  | some v => ([], some v)
  | none =>
      (["Failed to deserialize data from JSON. Ensure that the data is a valid JSON string."],
       none)

/-- `DataHandler._serialize_yaml`, i.e. `yaml.dump(data, indent=4)`. -/
def DataHandler.serialize_yaml (data : PyVal) : List String × Option String :=
  ([], some (yamlDumps data))

/-- `DataHandler._deserialize_yaml`, i.e. `yaml.safe_load`. -/
def DataHandler.deserialize_yaml (data : String) : List String × Option PyVal :=
  match yamlLoads data with
  | some v => ([], some v)
  | none =>
      (["Failed to deserialize data from YAML. Ensure that the data is a valid YAML."],
       none)

/-- `DataHandler._deserialize_toml`, i.e. `tomllib.loads`. -/
def DataHandler.deserialize_toml (data : String) : List String × Option PyVal :=
  match tomlLoads data with
  | some v => ([], some v)
  | none =>
      (["Failed to deserialize data from TOML. Ensure that the data is a valid TOML."],
       none)

/-! ### BaseHandler and ConfigHandler -/

/-- Which class the handler instance belongs to (Python virtual dispatch of
the hook methods). -/
inductive HandlerClass where
  | base
  | config
deriving DecidableEq

/-- A `BaseHandler` (or `ConfigHandler`) instance: the wrapped object (by
id), the three format flags, the `class_data` snapshot and the bound path. -/
structure Handler where
  cls : HandlerClass
  class_obj : Nat
  serialize_json : Bool
  serialize_yaml : Bool
  serialize_toml : Bool
  class_data : PyVal
  file_path : String

/-- `BaseHandler.__init__`: snapshot the object's attribute dictionary into
`class_data`, create the path's parent directories (when the path names
one), and bind the path. -/
def BaseHandler.init (cls : HandlerClass) (class_obj : Nat) (file_path : String)
    (sj sy stm : Bool) (st : PyState) : Handler × PyState :=
  let attrs := (heapGet st.heap class_obj).getD []
  let fs' := if dirname file_path == "" then st.fs else makedirs st.fs (dirname file_path)
  (⟨cls, class_obj, sj, sy, stm, .pyDict attrs, file_path⟩, { st with fs := fs' })

/-- `on_saved_file`: the base class raises `NotImplementedError`; the config
class does nothing. -/
def Handler.on_saved_file (h : Handler) (st : PyState) : PyState × Except PyExc Unit :=
  match h.cls with
  | .base => (st, .error (.notImplementedError "Subclasses must implement on_saved_file()"))
  | .config => (st, .ok ())

/-- `update_global`: the base class raises `NotImplementedError`; the config
class merges `class_data` into the module-level `configData` singleton's
attribute dictionary (`configData.__dict__.update(**self.class_data)`),
which raises `TypeError` when `class_data` is not a mapping. -/
def Handler.update_global (h : Handler) (st : PyState) : PyState × Except PyExc Unit :=
  match h.cls with
  | .base => (st, .error (.notImplementedError "Subclasses must implement update_global()"))
  | .config =>
      match h.class_data with
      | .pyDict kvs =>
          ({ st with heap := (heapSet st.heap configDataId
              (dictUpdate ((heapGet st.heap configDataId).getD []) kvs)) }, .ok ())
      | v =>
          (st, .error (.typeError
            ("update() argument after ** must be a mapping, not " ++ pyTypeName v)))

/-- `on_loaded_file`: the base class raises `NotImplementedError`; the
config class calls `update_global`. -/
def Handler.on_loaded_file (h : Handler) (st : PyState) : PyState × Except PyExc Unit :=
  match h.cls with
  | .base => (st, .error (.notImplementedError "Subclasses must implement on_loaded_file()"))
  | .config => h.update_global st

/-- The tail of `save_file`'s try-block from the `write_file` call on: write,
and on a truthy result invoke the `on_saved_file` hook. -/
def Handler.save_write (h : Handler) (st : PyState) (d : FileData) :
    PyState × Except PyExc Unit :=
  let (fs', msgs, res) := DataHandler.write_file st.fs h.file_path d
  let st1 := { st with fs := fs', out := st.out ++ msgs }
  if res.getD false then h.on_saved_file st1 else (st1, .ok ())

/-- The try-block of `BaseHandler.save_file`: encode with the first enabled
format (`if json / elif yaml`; the TOML branch is commented out in the
source), abort silently when the encoder produced `None`, otherwise write
and, on success, invoke the hook.  When no branch assigned `data`, the
`write_file(self.file_path, data)` call raises `UnboundLocalError`. -/
def Handler.save_file_body (h : Handler) (st : PyState) : PyState × Except PyExc Unit :=
  if h.serialize_json then
    match DataHandler.serialize_json h.class_data with
    | (msgs, none) => ({ st with out := st.out ++ msgs }, .ok ())
    | (msgs, some s) => h.save_write { st with out := st.out ++ msgs } (.text s)
  else if h.serialize_yaml then
    match DataHandler.serialize_yaml h.class_data with
    | (msgs, none) => ({ st with out := st.out ++ msgs }, .ok ())
    | (msgs, some s) => h.save_write { st with out := st.out ++ msgs } (.text s)
  else
    (st, .error (.unboundLocalError
      "cannot access local variable data where it is not associated with a value"))

/-- `BaseHandler.save_file`: the try-block, with every exception caught and
reported as `Unexpected error saving data: ...`.  The method itself never
raises. -/
def Handler.save_file (h : Handler) (st : PyState) : PyState :=
  match h.save_file_body st with
  | (st', .ok _) => st'
  | (st', .error e) =>
      { st' with out := st'.out ++ ["Unexpected error saving data: " ++ pyExcMsg e] }

/-- The try-block of `BaseHandler.load_file`: read the file as text, abort
silently on a failed read, decode with the first enabled format (falling
through to the raw text when no flag is set), abort silently on a failed
decode, replace `class_data`, then invoke the `on_loaded_file` hook. -/
def Handler.load_file_body (h : Handler) (st : PyState) :
    Handler × PyState × Except PyExc Unit :=
  let (msgs, r) := DataHandler.read_file st.fs h.file_path false
  let st1 := { st with out := st.out ++ msgs }
  match r with
  | none => (h, st1, .ok ())
  | some (.binary _) => (h, st1, .ok ())
  | some (.text s) =>
      let step : PyState × Option PyVal :=
        if h.serialize_json then
          match DataHandler.deserialize_json s with
          | (ms, d) => ({ st1 with out := st1.out ++ ms }, d)
        else if h.serialize_yaml then
          match DataHandler.deserialize_yaml s with
          | (ms, d) => ({ st1 with out := st1.out ++ ms }, d)
        else if h.serialize_toml then
          match DataHandler.deserialize_toml s with
          | (ms, d) => ({ st1 with out := st1.out ++ ms }, d)
        else (st1, some (.pyStr s))
      match step with
      | (st2, none) => (h, st2, .ok ())
      | (st2, some v) =>
          let h' := { h with class_data := v }
          let (st3, res) := h'.on_loaded_file st2
          (h', st3, res)

/-- `BaseHandler.load_file`: the try-block, with every exception caught and
reported as `Unexpected error loading data: ...`.  The method itself never
raises. -/
def Handler.load_file (h : Handler) (st : PyState) : Handler × PyState :=
  match h.load_file_body st with
  | (h', st', .ok _) => (h', st')
  | (h', st', .error e) =>
      (h', { st' with out := st'.out ++ ["Unexpected error loading data: " ++ pyExcMsg e] })

/-- The keyword arguments a caller may forward to `ConfigHandler`: the two
other format flags, and whether `serialize_yaml` itself was passed (which
collides with the constructor's own `serialize_yaml=True`). -/
structure CtorKwargs where
  serialize_json : Bool := false
  serialize_toml : Bool := false
  passes_serialize_yaml : Bool := false
deriving DecidableEq

/-- `ConfigHandler.__init__`: forwards to `BaseHandler.__init__` with
`serialize_yaml=True` appended after `**kwargs`; a caller-supplied
`serialize_yaml` therefore raises `TypeError` (duplicate keyword), and the
wrapped object defaults to the `configData` singleton. -/
def ConfigHandler.init (file_path : String) (config_obj : Nat := configDataId)
    (kw : CtorKwargs := {}) (st : PyState) : Except PyExc (Handler × PyState) :=
  if kw.passes_serialize_yaml then
    .error (.typeError
      "__init__() got multiple values for keyword argument serialize_yaml")
  else
    .ok (BaseHandler.init .config config_obj file_path
      kw.serialize_json true kw.serialize_toml st)

/-! ### Concrete states for witnesses and counterexamples -/

/-- A heap with the `configData` singleton (`{a: 1, b: 2}`) and one other
object. -/
def exHeap : List (Nat × List (String × PyVal)) :=
  [(0, [("a", .pyInt 1), ("b", .pyInt 2)]), (1, [("z", .pyInt 9)])]

/-- A state with that heap and an empty filesystem. -/
def exSt : PyState := ⟨exHeap, ⟨[], [], []⟩, []⟩

/-- The config handler of the spec's merge example, already loaded with
`{b: 3, c: 4}`. -/
def c2h : Handler :=
  ⟨.config, 1, false, true, false, .pyDict [("b", .pyInt 3), ("c", .pyInt 4)], "c.yaml"⟩

/-- A base handler bound to a path that does not exist in `exSt`. -/
def c3h : Handler :=
  ⟨.base, 1, false, true, false, .pyDict [("a", .pyInt 1)], "missing.yaml"⟩

/-- A filesystem on which `locked` is permission-denied. -/
def c5fs : FileSys := ⟨[], [], ["locked"]⟩

/-- A base handler with only the TOML flag enabled. -/
def c7h : Handler :=
  ⟨.base, 1, false, false, true, .pyDict [("a", .pyInt 1)], "f.toml"⟩

/-- A base handler with the JSON flag, bound to `f.json`. -/
def c1h : Handler := ⟨.base, 1, true, false, false, .pyDict [("a", .pyInt 1)], "f.json"⟩

/-- A state whose filesystem holds `f.json` with the JSON document `3`. -/
def c1st : PyState := ⟨exHeap, ⟨[], [("f.json", .text "3")], []⟩, []⟩

/-- The `ConfigHandler` construction of the counterexample: built over the
singleton with `serialize_json=True` forwarded through `**kwargs`. -/
def c6hs : Handler × PyState := BaseHandler.init .config 0 "c.yaml" true true false exSt

/-- A `ConfigHandler` over the singleton with no extra flags. -/
def c6y : Handler × PyState := BaseHandler.init .config 0 "c.yaml" false true false exSt

/-- A base YAML handler whose bound path's parent directory is absent from
`exSt` (as if removed after construction). -/
def c8h : Handler := ⟨.base, 1, false, true, false, .pyDict [("a", .pyInt 1)], "d/f.yaml"⟩

/-- A flag-free base handler bound to `raw.txt`. -/
def c9h : Handler := ⟨.base, 1, false, false, false, .pyDict [], "raw.txt"⟩

/-- A state whose filesystem holds `raw.txt` with the text `hello`. -/
def c9st : PyState := ⟨exHeap, ⟨[], [("raw.txt", .text "hello")], []⟩, []⟩

/-! ### Size measures (parser fuel accounting) -/

mutual

/-- A fuel bound for parsing one rendered value. -/
def sizeJ : PyVal → Nat
  | .pyList xs => sizeL xs + 1
  | .pyDict kvs => sizeP kvs + 1
  | _ => 1

/-- A fuel bound for parsing rendered list items. -/
def sizeL : List PyVal → Nat
  | [] => 1
  | x :: xs => sizeJ x + sizeL xs

/-- A fuel bound for parsing rendered dict entries. -/
def sizeP : List (String × PyVal) → Nat
  | [] => 1
  | (_, v) :: kvs => sizeJ v + sizeP kvs

end

/-- May `rest` follow a rendered number without extending it?  True when it
is empty or starts with no digit, dot or exponent letter. -/
def jnumDelim : List Char → Bool
  | [] => true
  | c :: _ => !(isDigitCh c || c = '.' || c = 'e' || c = 'E')

mutual

/-- A fuel bound for parsing the lines of a block mapping. -/
def ysizeM : List (String × PyVal) → Nat
  | [] => 0
  | (_, v) :: rest => 1 + ysizeC v + ysizeM rest

/-- A fuel bound for parsing the lines of a block sequence. -/
def ysizeS : List PyVal → Nat
  | [] => 0
  | x :: rest => 1 + ysizeB x + ysizeS rest

/-- The extra fuel a mapping entry's nested value needs. -/
def ysizeC : PyVal → Nat
  | .pyDict kvs => ysizeM kvs
  | .pyList xs => ysizeS xs
  | _ => 0

/-- The extra fuel a sequence item's nested value needs (one more than a
mapping entry's: the item goes through `yParseBlock`). -/
def ysizeB : PyVal → Nat
  | .pyDict kvs => 1 + ysizeM kvs
  | .pyList xs => 1 + ysizeS xs
  | _ => 1

end

/-- Lines on which a block-mapping parse at indentation `ind` stops
immediately: none at all, or a dedented first line. -/
def mapStop (ind : Nat) : List String → Bool
  | [] => true
  | l :: _ => decide (lineIndent l < ind)

/-- Lines on which a block-sequence parse at indentation `ind` stops
immediately: none, a dedented first line, or a non-dash line at `ind`. -/
def seqStop (ind : Nat) : List String → Bool
  | [] => true
  | l :: _ =>
      decide (lineIndent l < ind) ||
      (lineIndent l == ind &&
        (match stripInd l ind with
         | some ('-' :: _) => false
         | some (_ :: _) => true
         | _ => false))

/-- The block lines of a non-flat value. -/
def yBlockLines (ind : Nat) : PyVal → List String
  | .pyDict kvs => yamlMapLines ind kvs
  | .pyList xs => yamlSeqLines ind xs
  | _ => []

/-- Character count of emitted lines, newlines included. -/
def ccLines (ls : List String) : Nat := (ls.map (fun l => l.data.length + 1)).sum


/-! ### Dictionary and heap lemmas -/

theorem dictGet_dictSet_self (d : List (String × PyVal)) (k : String) (v : PyVal) :
    dictGet (dictSet d k v) k = some v := by
  induction d with
  | nil => simp [dictSet, dictGet]
  | cons p rest ih =>
      obtain ⟨k0, v0⟩ := p
      by_cases hk : k0 = k <;> simp [dictSet, dictGet, hk, ih]

theorem dictGet_dictSet_other (d : List (String × PyVal)) (k k' : String) (v : PyVal)
    (hne : k' ≠ k) : dictGet (dictSet d k v) k' = dictGet d k' := by
  induction d with
  | nil => simp [dictSet, dictGet, Ne.symm hne]
  | cons p rest ih =>
      obtain ⟨k0, v0⟩ := p
      by_cases hk : k0 = k
      · subst hk
        simp [dictSet, dictGet, Ne.symm hne]
      · by_cases hk' : k0 = k' <;> simp [dictSet, dictGet, hk, hk', hne, ih]

theorem dictUpdate_cons (g : List (String × PyVal)) (k : String) (v : PyVal)
    (rest : List (String × PyVal)) :
    dictUpdate g ((k, v) :: rest) = dictUpdate (dictSet g k v) rest := rfl

theorem dictHas_false_head {k0 k : String} {v0 : PyVal} {rest : List (String × PyVal)}
    (h : dictHas ((k0, v0) :: rest) k = false) :
    k0 ≠ k ∧ dictHas rest k = false := by
  unfold dictHas at h ⊢
  simp only [List.any_cons, Bool.or_eq_false_iff] at h
  exact ⟨by simpa using h.1, h.2⟩

theorem dictGet_dictUpdate_not_has (g kvs : List (String × PyVal)) (k : String)
    (h : dictHas kvs k = false) :
    dictGet (dictUpdate g kvs) k = dictGet g k := by
  induction kvs generalizing g with
  | nil => rfl
  | cons p rest ih =>
      obtain ⟨k0, v0⟩ := p
      obtain ⟨hne, hrest⟩ := dictHas_false_head h
      rw [dictUpdate_cons, ih _ hrest, dictGet_dictSet_other _ _ _ _ (Ne.symm hne)]

theorem dictGet_dictUpdate_has (g kvs : List (String × PyVal)) (k : String)
    (hnd : (kvs.map Prod.fst).Nodup) (h : dictHas kvs k = true) :
    dictGet (dictUpdate g kvs) k = dictGet kvs k := by
  induction kvs generalizing g with
  | nil => simp [dictHas] at h
  | cons p rest ih =>
      obtain ⟨k0, v0⟩ := p
      simp only [List.map_cons, List.nodup_cons] at hnd
      rw [dictUpdate_cons]
      by_cases hk : k0 = k
      · subst hk
        have hrest : dictHas rest k0 = false := by
          unfold dictHas
          rw [List.any_eq_false]
          intro p hp he
          have hpe : p.1 = k0 := by simpa using he
          exact hnd.1 (hpe ▸ List.mem_map_of_mem Prod.fst hp)
        rw [dictGet_dictUpdate_not_has _ _ _ hrest, dictGet_dictSet_self]
        simp [dictGet]
      · have hk' : (k0 == k) = false := by simp [hk]
        have hrest : dictHas rest k = true := by
          unfold dictHas at h ⊢
          simpa [hk'] using h
        rw [ih _ hnd.2 hrest]
        simp [dictGet, hk']

theorem heapGet_heapSet_self (hp : List (Nat × List (String × PyVal))) (oid : Nat)
    (d : List (String × PyVal)) : heapGet (heapSet hp oid d) oid = some d := by
  induction hp with
  | nil => simp [heapSet, heapGet]
  | cons p rest ih =>
      obtain ⟨o0, d0⟩ := p
      by_cases ho : o0 = oid <;> simp [heapSet, heapGet, ho, ih]

theorem heapGet_heapSet_other (hp : List (Nat × List (String × PyVal))) (oid o' : Nat)
    (d : List (String × PyVal)) (hne : o' ≠ oid) :
    heapGet (heapSet hp oid d) o' = heapGet hp o' := by
  induction hp with
  | nil => simp [heapSet, heapGet, Ne.symm hne]
  | cons p rest ih =>
      obtain ⟨o0, d0⟩ := p
      by_cases ho : o0 = oid
      · subst ho
        simp [heapSet, heapGet, Ne.symm hne]
      · by_cases ho' : o0 = o' <;> simp [heapSet, heapGet, ho, ho', hne, ih]

theorem fileGet_fileSet_self (files : List (String × FileData)) (p : String)
    (d : FileData) : fileGet (fileSet files p d) p = some d := by
  induction files with
  | nil => simp [fileSet, fileGet]
  | cons q rest ih =>
      obtain ⟨q0, e0⟩ := q
      by_cases hq : q0 = p <;> simp [fileSet, fileGet, hq, ih]

theorem makedirs_contains_self (fs : FileSys) (d : String) :
    (makedirs fs d).dirs.contains d = true := by
  unfold makedirs
  by_cases hc : d ∈ fs.dirs <;> simp [List.elem_iff, hc]

/-! ### Claim C2 -/

/-- C2: for every global configuration object and every loaded record,
`update_global()` performs a shallow field-level merge into the global
object's attribute set: it succeeds, the global dictionary becomes
`dictUpdate g kvs`, every key of the record now maps to the record's value,
every other key keeps its old value, and nothing else of the state (files,
output) changes. -/
theorem c2_update_global_merge (st : PyState) (g kvs : List (String × PyVal))
    (h : Handler) (hcls : h.cls = .config) (hdata : h.class_data = .pyDict kvs)
    (hg : heapGet st.heap configDataId = some g) :
    (h.update_global st).2 = .ok () ∧
    heapGet (h.update_global st).1.heap configDataId = some (dictUpdate g kvs) ∧
    (∀ k, dictHas kvs k = true → (kvs.map Prod.fst).Nodup →
      dictGet (dictUpdate g kvs) k = dictGet kvs k) ∧
    (∀ k, dictHas kvs k = false → dictGet (dictUpdate g kvs) k = dictGet g k) ∧
    (h.update_global st).1.fs = st.fs ∧ (h.update_global st).1.out = st.out := by
  unfold Handler.update_global
  rw [hcls, hdata, hg]
  refine ⟨rfl, ?_, ?_, ?_, rfl, rfl⟩
  · simpa using heapGet_heapSet_self st.heap configDataId (dictUpdate g kvs)
  · intro k hk hnd
    exact dictGet_dictUpdate_has g kvs k hnd hk
  · intro k hk
    exact dictGet_dictUpdate_not_has g kvs k hk


/-- C2 witness: with the global object `{a: 1, b: 2}` and the loaded record
`{b: 3, c: 4}`, `update_global()` leaves the global object as
`{a: 1, b: 3, c: 4}`. -/
theorem c2_update_global_merge_witness :
    (c2h.update_global exSt).2 = .ok () ∧
    heapGet (c2h.update_global exSt).1.heap configDataId =
      some [("a", .pyInt 1), ("b", .pyInt 3), ("c", .pyInt 4)] := by
  have H := c2_update_global_merge exSt [("a", .pyInt 1), ("b", .pyInt 2)]
    [("b", .pyInt 3), ("c", .pyInt 4)] c2h rfl rfl rfl
  exact ⟨H.1, by rw [H.2.1]; rfl⟩

/-! ### Claim C10 -/

/-- C10: a `ConfigHandler` constructed with a `config_obj` distinct from the
`configData` singleton still mutates the singleton in `update_global()`: the
construction binds `class_obj` to the passed object, yet `update_global()`
rewrites object `configDataId`'s attributes and leaves the passed object's
attributes untouched. -/
theorem c10_update_global_mutates_singleton (st : PyState) (g o : List (String × PyVal))
    (kvs : List (String × PyVal)) (h : Handler)
    (hcls : h.cls = .config) (hdata : h.class_data = .pyDict kvs)
    (hoid : h.class_obj ≠ configDataId)
    (hg : heapGet st.heap configDataId = some g)
    (ho : heapGet st.heap h.class_obj = some o) :
    (∀ path kw st', kw.passes_serialize_yaml = false →
      ConfigHandler.init path h.class_obj kw st' =
        .ok (BaseHandler.init .config h.class_obj path
          kw.serialize_json true kw.serialize_toml st') ∧
      (BaseHandler.init .config h.class_obj path
        kw.serialize_json true kw.serialize_toml st').1.class_obj = h.class_obj) ∧
    (h.update_global st).2 = .ok () ∧
    heapGet (h.update_global st).1.heap configDataId = some (dictUpdate g kvs) ∧
    heapGet (h.update_global st).1.heap h.class_obj = some o := by
  refine ⟨?_, ?_, ?_, ?_⟩
  · intro path kw st' hkw
    exact ⟨by simp [ConfigHandler.init, hkw], rfl⟩
  · unfold Handler.update_global
    rw [hcls, hdata]
  · unfold Handler.update_global
    rw [hcls, hdata, hg]
    simpa using heapGet_heapSet_self st.heap configDataId (dictUpdate g kvs)
  · unfold Handler.update_global
    rw [hcls, hdata]
    simpa using (heapGet_heapSet_other st.heap configDataId h.class_obj _ hoid).symm ▸ ho

/-- C10 witness: `c2h` wraps object 1 while the singleton is object 0;
`update_global()` rewrites object 0 and leaves object 1's `{z: 9}` alone. -/
theorem c10_update_global_mutates_singleton_witness :
    (c2h.update_global exSt).2 = .ok () ∧
    heapGet (c2h.update_global exSt).1.heap configDataId =
      some [("a", .pyInt 1), ("b", .pyInt 3), ("c", .pyInt 4)] ∧
    heapGet (c2h.update_global exSt).1.heap 1 = some [("z", .pyInt 9)] := by
  have H := c10_update_global_mutates_singleton exSt
    [("a", .pyInt 1), ("b", .pyInt 2)] [("z", .pyInt 9)]
    [("b", .pyInt 3), ("c", .pyInt 4)] c2h rfl rfl (by decide) rfl rfl
  exact ⟨H.2.1, by rw [H.2.2.1]; rfl, H.2.2.2⟩

/-! ### Claim C3 -/

/-- C3: `load()` on a nonexistent path prints the missing-file diagnostic
and changes nothing else: `class_data` is exactly as before, the hook is not
invoked (no hook diagnostic, no heap change, no filesystem change), and no
exception reaches the caller. -/
theorem c3_load_missing_file (h : Handler) (st : PyState)
    (hmiss : fileGet st.fs.files h.file_path = none) :
    h.load_file st = (h, { st with out := st.out ++
      ["Failed to read file " ++ h.file_path ++ ", Check that the file exists."] }) := by
  unfold Handler.load_file Handler.load_file_body DataHandler.read_file
  rw [hmiss]


/-- C3 witness: loading `missing.yaml` from the empty filesystem prints the
diagnostic and leaves handler and state otherwise unchanged. -/
theorem c3_load_missing_file_witness :
    c3h.load_file exSt = (c3h, { exSt with out :=
      ["Failed to read file missing.yaml, Check that the file exists."] }) := by
  have H := c3_load_missing_file c3h exSt rfl
  simpa using H

/-! ### Claim C5 -/


/-- C5 counterexample: on an I/O error `write_file` does not return `False`
as claimed — the `except` branches fall off the end of the function, so it
returns `None` (after printing the diagnostic, with the filesystem
unchanged). -/
theorem c5_write_file_counterexample :
    (DataHandler.write_file c5fs "locked" (.text "x")).2.2 = none ∧
    (DataHandler.write_file c5fs "locked" (.text "x")).2.2 ≠ some false ∧
    (DataHandler.write_file c5fs "locked" (.text "x")).2.1 =
      ["Failed to write file locked, Check that the file is writable."] ∧
    (DataHandler.write_file c5fs "locked" (.text "x")).1 = c5fs := by
  exact ⟨rfl, by decide, rfl, rfl⟩

/-- C5 (amended): `write_file` writes the entire payload and returns `True`
on success; on an I/O error it prints the diagnostic, leaves the filesystem
unchanged, and returns the falsy sentinel `None` (not `False`).  Its type
has no exception channel: the source catches `IOError` and `Exception`, so
nothing ever propagates to the caller. -/
theorem c5_write_file_success_or_none (fs : FileSys) (p : String) (d : FileData) :
    (pathWritable fs p = true →
      DataHandler.write_file fs p d =
        ({ fs with files := fileSet fs.files p d }, [], some true)) ∧
    (pathWritable fs p = false →
      DataHandler.write_file fs p d =
        (fs, ["Failed to write file " ++ p ++ ", Check that the file is writable."],
         none)) := by
  constructor <;> intro hw <;> simp [DataHandler.write_file, hw]

/-- C5 witness: writing `d/x` under the existing directory `d` succeeds and
stores the whole payload. -/
theorem c5_write_file_success_or_none_witness :
    DataHandler.write_file ⟨["d"], [], []⟩ "d/x" (.text "hi") =
      (⟨["d"], [("d/x", .text "hi")], []⟩, [], some true) := by
  exact (c5_write_file_success_or_none ⟨["d"], [], []⟩ "d/x" (.text "hi")).1 rfl

/-! ### Claim C7 -/


/-- C7 counterexample: a TOML-flagged `save()` writes no file and calls no
hook, but it is not silent — the commented-out branch leaves `data` unbound,
and the catch-all prints an `Unexpected error saving data` diagnostic. -/
theorem c7_toml_save_counterexample :
    c7h.save_file exSt = { exSt with out := ["Unexpected error saving data: cannot access local variable data where it is not associated with a value"] } ∧
    (c7h.save_file exSt).out ≠ exSt.out ∧
    fileGet (c7h.save_file exSt).fs.files "f.toml" = none := by
  exact ⟨rfl, by decide, rfl⟩

/-- C7 (amended): with only the TOML flag set, `save()` writes nothing and
invokes no hook, and no exception escapes, but a diagnostic is emitted: the
try-block raises `UnboundLocalError` at the `write_file` call (the TOML
encode branch being commented out) and the catch-all reports it. -/
theorem c7_toml_save_diagnostic (h : Handler) (st : PyState)
    (hj : h.serialize_json = false) (hy : h.serialize_yaml = false)
    (_ht : h.serialize_toml = true) :
    h.save_file_body st = (st, .error (.unboundLocalError
      "cannot access local variable data where it is not associated with a value")) ∧
    h.save_file st = { st with out := st.out ++
      ["Unexpected error saving data: cannot access local variable data where it is not associated with a value"] } := by
  unfold Handler.save_file Handler.save_file_body
  rw [hj, hy]
  exact ⟨rfl, rfl⟩

/-- C7 witness: the amended behavior at the concrete TOML-only handler. -/
theorem c7_toml_save_diagnostic_witness :
    c7h.save_file exSt = { exSt with out :=
      ["Unexpected error saving data: cannot access local variable data where it is not associated with a value"] } := by
  have H := (c7_toml_save_diagnostic c7h exSt rfl rfl rfl).2
  simpa using H

/-! ### Claim C1 -/

/-- C1 (amended): on a base (non-specialized) handler whose pipeline succeeds
up to the hook step, `NotImplementedError` is raised exactly at the hook
invocation — after the file is written (save) and after `class_data` is
replaced (load) — but it does not propagate to the caller: `save_file` and
`load_file` catch every exception in their own handler and report it as an
`Unexpected error ...` diagnostic. -/
theorem c1_hook_exception_is_caught :
    (∀ (h : Handler) (st : PyState), h.cls = .base → h.serialize_json = true →
      pathWritable st.fs h.file_path = true →
      (h.save_file_body st).2 =
        .error (.notImplementedError "Subclasses must implement on_saved_file()") ∧
      h.save_file st = { st with
        fs := { st.fs with
          files := fileSet st.fs.files h.file_path (.text (jsonDumps h.class_data)) },
        out := st.out ++
          ["Unexpected error saving data: Subclasses must implement on_saved_file()"] }) ∧
    (∀ (h : Handler) (st : PyState) (s : String) (v : PyVal), h.cls = .base →
      h.serialize_json = true →
      fileGet st.fs.files h.file_path = some (.text s) →
      st.fs.denied.contains h.file_path = false →
      jsonLoads s = some v →
      (h.load_file_body st).2.2 =
        .error (.notImplementedError "Subclasses must implement on_loaded_file()") ∧
      h.load_file st = ({ h with class_data := v },
        { st with out := st.out ++
          ["Unexpected error loading data: Subclasses must implement on_loaded_file()"] })) := by
  constructor
  · intro h st hcls hj hw
    constructor
    · simp [Handler.save_file_body, DataHandler.serialize_json, Handler.save_write,
        DataHandler.write_file, Handler.on_saved_file, hj, hw, hcls]
    · simp [Handler.save_file, Handler.save_file_body, DataHandler.serialize_json,
        Handler.save_write, DataHandler.write_file, Handler.on_saved_file, hj, hw,
        hcls, pyExcMsg]
  · intro h st s v hcls hj hf hd hdec
    have hd' : ¬ h.file_path ∈ st.fs.denied := by simpa using hd
    constructor
    · simp [Handler.load_file_body, DataHandler.read_file, DataHandler.deserialize_json,
        Handler.on_loaded_file, hf, hd', hj, hdec, hcls]
    · simp [Handler.load_file, Handler.load_file_body, DataHandler.read_file,
        DataHandler.deserialize_json, Handler.on_loaded_file, hf, hd', hj, hdec, hcls,
        pyExcMsg]



/-- C1 witness: on the concrete base handler the save pipeline reaches the
hook (the file is written first), the hook raises, and both operations end
with the caught-exception diagnostic instead of propagating. -/
theorem c1_hook_exception_is_caught_witness :
    (c1h.save_file_body c1st).2 =
      .error (.notImplementedError "Subclasses must implement on_saved_file()") ∧
    c1h.load_file c1st = ({ c1h with class_data := .pyInt 3 },
      { c1st with out :=
        ["Unexpected error loading data: Subclasses must implement on_loaded_file()"] }) := by
  have H := c1_hook_exception_is_caught
  refine ⟨(H.1 c1h c1st rfl rfl rfl).1, ?_⟩
  have h2 := (H.2 c1h c1st "3" (.pyInt 3) rfl rfl rfl rfl rfl).2
  simpa using h2

/-! ### Claim C6 -/


/-- C6 counterexample: a `ConfigHandler` constructed with
`serialize_json=True` does set the YAML flag, but its `save()` does not use
the YAML codec — `save_file` checks `serialize_json` first, so the file
receives the JSON encoding (which differs from the YAML encoding of the same
record). -/
theorem c6_yaml_binding_counterexample :
    ConfigHandler.init "c.yaml" 0 { serialize_json := true } exSt = .ok c6hs ∧
    c6hs.1.serialize_yaml = true ∧ c6hs.1.serialize_json = true ∧
    fileGet ((c6hs.1.save_file c6hs.2)).fs.files "c.yaml" =
      some (.text (jsonDumps (.pyDict [("a", .pyInt 1), ("b", .pyInt 2)]))) ∧
    jsonDumps (.pyDict [("a", .pyInt 1), ("b", .pyInt 2)]) ≠
      yamlDumps (.pyDict [("a", .pyInt 1), ("b", .pyInt 2)]) := by
  refine ⟨rfl, rfl, rfl, rfl, ?_⟩
  have hja : jsonDumps (.pyDict [("a", .pyInt 1), ("b", .pyInt 2)]) =
      "\x7b\n    \"a\":1,\n    \"b\":2\n\x7d" := by
    simp [jsonDumps, jsonRender, jsonRenderPairs, jsonStrChars, jsonEscChar, intChars,
      natDigs, spaces]
  have hya : yamlDumps (.pyDict [("a", .pyInt 1), ("b", .pyInt 2)]) = "a: 1\nb: 2\n" := by
    simp [yamlDumps, canonVal, canonPairs, sortPairs, insPair, charListLt, isFlatVal,
      yamlMapLines, yamlStrToken, plainOk, yamlScalarToken, intChars, natDigs, spaces,
      joinLines, resolvePlain, nullWords, trueWords, falseWords, intLike, floatLike,
      dropSign, isDigitCh, noColonSpace, noSpaceHash, yamlIndicator, plainChOk]
  rw [hja, hya]
  decide

/-- The handler returned by `load_file` is the one produced by the try-block
body, whether or not the caught-exception diagnostic was appended. -/
theorem load_file_fst (h : Handler) (st : PyState) :
    (h.load_file st).1 = (h.load_file_body st).1 := by
  simp only [Handler.load_file]
  rcases h.load_file_body st with ⟨h2, st2, res⟩
  cases res <;> rfl

/-- C6 (amended): `ConfigHandler.__init__` always passes
`serialize_yaml=True` (a caller passing `serialize_yaml` gets a `TypeError`,
since the keyword would be given twice), and when the caller supplies no
other format flag, `save()` and `load()` use the YAML codec; but a
caller-supplied `serialize_json=True` takes precedence on both paths,
because `save_file`/`load_file` check the JSON flag first: the file receives
the JSON encoding and a load decodes with the JSON codec. -/
theorem c6_config_handler_formats :
    (∀ path obj kw st, kw.passes_serialize_yaml = false →
      ConfigHandler.init path obj kw st =
        .ok (BaseHandler.init .config obj path kw.serialize_json true
          kw.serialize_toml st) ∧
      (BaseHandler.init .config obj path kw.serialize_json true
        kw.serialize_toml st).1.serialize_yaml = true ∧
      (BaseHandler.init .config obj path kw.serialize_json true
        kw.serialize_toml st).1.serialize_json = kw.serialize_json) ∧
    (∀ path obj kw st, kw.passes_serialize_yaml = true →
      ConfigHandler.init path obj kw st = .error (.typeError
        "__init__() got multiple values for keyword argument serialize_yaml")) ∧
    (∀ (h : Handler) (st : PyState), h.cls = .config → h.serialize_json = false →
      h.serialize_yaml = true → pathWritable st.fs h.file_path = true →
      h.save_file st = { st with fs := { st.fs with
        files := fileSet st.fs.files h.file_path (.text (yamlDumps h.class_data)) } }) ∧
    (∀ (h : Handler) (st : PyState), h.serialize_json = true →
      pathWritable st.fs h.file_path = true →
      fileGet (h.save_file st).fs.files h.file_path =
        some (.text (jsonDumps h.class_data))) ∧
    (∀ (h : Handler) (st : PyState) (s : String) (v : PyVal), h.cls = .config →
      h.serialize_json = false → h.serialize_yaml = true →
      fileGet st.fs.files h.file_path = some (.text s) →
      st.fs.denied.contains h.file_path = false →
      yamlLoads s = some v →
      (h.load_file st).1 = { h with class_data := v }) ∧
    (∀ (h : Handler) (st : PyState) (s : String) (v : PyVal),
      h.serialize_json = true → h.serialize_yaml = true →
      fileGet st.fs.files h.file_path = some (.text s) →
      st.fs.denied.contains h.file_path = false →
      jsonLoads s = some v →
      (h.load_file st).1 = { h with class_data := v }) := by
  refine ⟨?_, ?_, ?_, ?_, ?_, ?_⟩
  · intro path obj kw st hkw
    exact ⟨by simp [ConfigHandler.init, hkw], rfl, rfl⟩
  · intro path obj kw st hkw
    simp [ConfigHandler.init, hkw]
  · intro h st hcls hj hy hw
    simp [Handler.save_file, Handler.save_file_body, DataHandler.serialize_yaml,
      Handler.save_write, DataHandler.write_file, Handler.on_saved_file, hj, hy, hw, hcls]
  · intro h st hj hw
    simp [Handler.save_file, Handler.save_file_body, DataHandler.serialize_json,
      Handler.save_write, DataHandler.write_file, Handler.on_saved_file, hj, hw]
    cases hcl : h.cls <;>
      simp [Handler.on_saved_file, hcl, fileGet_fileSet_self]
  · intro h st s v hcls hj hy hf hd hdec
    rw [load_file_fst]
    simp only [Handler.load_file_body, DataHandler.read_file, hf, hd,
      Bool.false_eq_true, if_false, hj, hy, if_true,
      DataHandler.deserialize_yaml, hdec]
  · intro h st s v hj hy hf hd hdec
    rw [load_file_fst]
    simp only [Handler.load_file_body, DataHandler.read_file, hf, hd,
      Bool.false_eq_true, if_false, hj, if_true,
      DataHandler.deserialize_json, hdec]


/-- C6 witness: a plain `ConfigHandler` has the YAML flag set, its `save()`
writes the YAML encoding of the config record, and its `load()` decodes a
YAML document; with `serialize_json=True` forwarded, a load of a JSON
document decodes with the JSON codec instead. -/
theorem c6_config_handler_formats_witness :
    ConfigHandler.init "c.yaml" 0 {} exSt = .ok c6y ∧
    c6y.1.serialize_yaml = true ∧
    c6y.1.save_file c6y.2 = { c6y.2 with fs := { c6y.2.fs with
      files := fileSet c6y.2.fs.files "c.yaml"
        (.text (yamlDumps (.pyDict [("a", .pyInt 1), ("b", .pyInt 2)]))) } } ∧
    (c6y.1.load_file
        ⟨exHeap, ⟨[], [("c.yaml", .text "a: 1\n")], []⟩, []⟩).1 =
      { c6y.1 with class_data := .pyDict [("a", .pyInt 1)] } ∧
    (c6hs.1.load_file
        ⟨exHeap, ⟨[], [("c.yaml", .text "3")], []⟩, []⟩).1 =
      { c6hs.1 with class_data := .pyInt 3 } := by
  have H := c6_config_handler_formats
  refine ⟨(H.1 "c.yaml" 0 {} exSt rfl).1, (H.1 "c.yaml" 0 {} exSt rfl).2.1, ?_, ?_, ?_⟩
  · exact H.2.2.1 c6y.1 c6y.2 rfl rfl rfl rfl
  · exact H.2.2.2.2.1 c6y.1
      ⟨exHeap, ⟨[], [("c.yaml", .text "a: 1\n")], []⟩, []⟩
      "a: 1\n" (.pyDict [("a", .pyInt 1)]) rfl rfl rfl rfl rfl rfl
  · exact H.2.2.2.2.2 c6hs.1
      ⟨exHeap, ⟨[], [("c.yaml", .text "3")], []⟩, []⟩
      "3" (.pyInt 3) rfl rfl rfl rfl rfl

/-! ### Claim C8 -/


/-- C8 counterexample: when the parent directory is absent at the moment of
the write, `save()` does not auto-create it and does not succeed — the write
fails with a diagnostic and no file appears.  (Directory creation happens in
`__init__`, not at write time.) -/
theorem c8_write_time_counterexample :
    c8h.save_file exSt = { exSt with out :=
      ["Failed to write file d/f.yaml, Check that the file is writable."] } ∧
    fileGet (c8h.save_file exSt).fs.files "d/f.yaml" = none := by
  exact ⟨rfl, rfl⟩

/-- C8 (amended): parent directories are auto-created at construction time —
`BaseHandler.__init__` runs `makedirs` on the path's dirname — not at write
time: a `save()` whose parent directory is absent at the write fails with a
diagnostic and writes nothing, while a `save()` against a writable path
stores the encoded text at the bound path. -/
theorem c8_dirs_created_at_construction :
    (∀ cls obj path a b c st, dirname path ≠ "" →
      ((BaseHandler.init cls obj path a b c st).2.fs.dirs.contains (dirname path)
          = true) ∧
      (BaseHandler.init cls obj path a b c st).2.fs.files = st.fs.files) ∧
    (∀ (h : Handler) (st : PyState), h.serialize_json = false →
      h.serialize_yaml = true → pathWritable st.fs h.file_path = false →
      h.save_file st = { st with out := st.out ++
        ["Failed to write file " ++ h.file_path ++ ", Check that the file is writable."] }) ∧
    (∀ (h : Handler) (st : PyState), h.serialize_json = false →
      h.serialize_yaml = true → pathWritable st.fs h.file_path = true →
      fileGet (h.save_file st).fs.files h.file_path =
        some (.text (yamlDumps h.class_data))) := by
  refine ⟨?_, ?_, ?_⟩
  · intro cls obj path a b c st hd
    constructor
    · have hne : (dirname path == "") = false := by simpa using hd
      simp only [BaseHandler.init, hne, Bool.false_eq_true, if_false]
      exact makedirs_contains_self st.fs (dirname path)
    · have hne : (dirname path == "") = false := by simpa using hd
      simp [BaseHandler.init, hne, makedirs]
  · intro h st hj hy hw
    simp [Handler.save_file, Handler.save_file_body, DataHandler.serialize_yaml,
      Handler.save_write, DataHandler.write_file, hj, hy, hw]
  · intro h st hj hy hw
    simp only [Handler.save_file, Handler.save_file_body, DataHandler.serialize_yaml,
      Handler.save_write, DataHandler.write_file, hj, hy, hw]
    cases hcl : h.cls <;>
      simp [Handler.on_saved_file, hcl, fileGet_fileSet_self]

/-- C8 witness: constructing over `d/e/f.yaml` creates `d/e` without error
and touches no file, and on the concrete handler with the directory absent
the save fails as amended. -/
theorem c8_dirs_created_at_construction_witness :
    (BaseHandler.init .base 1 "d/e/f.yaml" false true false exSt).2.fs.dirs.contains
      "d/e" = true ∧
    (BaseHandler.init .base 1 "d/e/f.yaml" false true false exSt).2.fs.files = [] ∧
    c8h.save_file exSt = { exSt with out :=
      ["Failed to write file d/f.yaml, Check that the file is writable."] } := by
  have H := c8_dirs_created_at_construction
  have h1 := H.1 .base 1 "d/e/f.yaml" false true false exSt (by decide)
  refine ⟨h1.1, h1.2, ?_⟩
  have h2 := H.2.1 c8h exSt rfl rfl rfl
  simpa using h2

/-! ### Claim C9 -/

/-- C9: with all three format flags disabled, `load()` on a readable file
skips decoding: it replaces `class_data` with the raw file text as a string
and still invokes the `on_loaded_file` hook (observable through the hook's
effect: the base hook's `NotImplementedError` — or, on a config handler, the
`TypeError` from merging a string — is caught and reported). -/
theorem c9_no_flags_load_raw (h : Handler) (st : PyState) (s : String)
    (hj : h.serialize_json = false) (hy : h.serialize_yaml = false)
    (ht : h.serialize_toml = false)
    (hf : fileGet st.fs.files h.file_path = some (.text s))
    (hd : st.fs.denied.contains h.file_path = false) :
    (h.load_file st).1 = { h with class_data := .pyStr s } ∧
    (h.cls = .base →
      (h.load_file_body st).2.2 =
        .error (.notImplementedError "Subclasses must implement on_loaded_file()") ∧
      h.load_file st = ({ h with class_data := .pyStr s },
        { st with out := st.out ++
          ["Unexpected error loading data: Subclasses must implement on_loaded_file()"] })) ∧
    (h.cls = .config →
      (h.load_file_body st).2.2 =
        .error (.typeError "update() argument after ** must be a mapping, not str") ∧
      h.load_file st = ({ h with class_data := .pyStr s },
        { st with out := st.out ++
          ["Unexpected error loading data: update() argument after ** must be a mapping, not str"] })) := by
  have hd' : ¬ h.file_path ∈ st.fs.denied := by simpa using hd
  refine ⟨?_, ?_, ?_⟩
  · cases hcl : h.cls <;>
      simp [Handler.load_file, Handler.load_file_body, DataHandler.read_file,
        Handler.on_loaded_file, Handler.update_global, hf, hd', hj, hy, ht, hcl]
  · intro hcl
    constructor <;>
      simp [Handler.load_file, Handler.load_file_body, DataHandler.read_file,
        Handler.on_loaded_file, hf, hd', hj, hy, ht, hcl, pyExcMsg]
  · intro hcl
    constructor <;>
      (simp [Handler.load_file, Handler.load_file_body, DataHandler.read_file,
        Handler.on_loaded_file, Handler.update_global, hf, hd', hj, hy, ht, hcl,
        pyExcMsg]) <;> rfl



/-- C9 witness: the flag-free load stores the raw text `hello` in
`class_data` and the invoked base hook's diagnostic appears. -/
theorem c9_no_flags_load_raw_witness :
    c9h.load_file c9st = ({ c9h with class_data := .pyStr "hello" },
      { c9st with out :=
        ["Unexpected error loading data: Subclasses must implement on_loaded_file()"] }) := by
  have H := (c9_no_flags_load_raw c9h c9st "hello" rfl rfl rfl rfl rfl).2.1 rfl
  simpa using H.2

/-! ### JSON round-trip: digits and integers -/

theorem digit_char_val (k : Nat) (h : k < 10) :
    (Char.ofNat ('0'.toNat + k)).toNat - '0'.toNat = k ∧
    isDigitCh (Char.ofNat ('0'.toNat + k)) = true := by
  interval_cases k <;> exact ⟨by decide, by decide⟩

theorem natDigs_acc (n : Nat) : ∀ acc : List Char,
    natDigs n acc = natDigs n [] ++ acc := by
  induction n using Nat.strong_induction_on with
  | _ n ih =>
    intro acc
    conv_lhs => rw [natDigs]
    conv_rhs => rw [natDigs]
    by_cases h : n < 10
    · simp [h]
    · simp only [h, if_false]
      rw [ih (n / 10) (Nat.div_lt_self (by omega) (by omega)),
        ih (n / 10) (Nat.div_lt_self (by omega) (by omega)) [_]]
      simp

theorem natDigs_snoc (n : Nat) :
    natDigs n [] = (if n < 10 then [] else natDigs (n / 10) []) ++
      [Char.ofNat ('0'.toNat + n % 10)] := by
  rw [natDigs]
  by_cases h : n < 10
  · simp [h, Nat.mod_eq_of_lt h]
  · simp only [h, if_false]
    exact natDigs_acc (n / 10) [_]

theorem natDigs_ne_nil (n : Nat) : natDigs n [] ≠ [] := by
  rw [natDigs_snoc]
  simp

theorem natDigs_digits (n : Nat) : ∀ c ∈ natDigs n [], isDigitCh c = true := by
  induction n using Nat.strong_induction_on with
  | _ n ih =>
    rw [natDigs_snoc]
    intro c hc
    rcases List.mem_append.mp hc with h | h
    · by_cases h10 : n < 10
      · simp [h10] at h
      · exact ih (n / 10) (Nat.div_lt_self (by omega) (by omega)) c (by simpa [h10] using h)
    · rw [List.mem_singleton] at h
      subst h
      exact (digit_char_val (n % 10) (Nat.mod_lt _ (by omega))).2

theorem digsToNat_natDigs (n : Nat) : digsToNat (natDigs n []) = n := by
  induction n using Nat.strong_induction_on with
  | _ n ih =>
    rw [natDigs_snoc]
    unfold digsToNat
    rw [List.foldl_append]
    by_cases h : n < 10
    · simp only [h, if_true, List.foldl_nil, List.foldl_cons]
      rw [(digit_char_val (n % 10) (Nat.mod_lt _ (by omega))).1]
      omega
    · simp only [h, if_false, List.foldl_cons, List.foldl_nil]
      have := ih (n / 10) (Nat.div_lt_self (by omega) (by omega))
      unfold digsToNat at this
      rw [this, (digit_char_val (n % 10) (Nat.mod_lt _ (by omega))).1]
      omega

theorem digitRun_not_digit {c : Char} (t : List Char) (h : isDigitCh c = false) :
    digitRun (c :: t) = ([], c :: t) := by
  simp [digitRun, h]

theorem digitRun_delim {cs : List Char} (h : jnumDelim cs = true) :
    digitRun cs = ([], cs) := by
  match cs with
  | [] => rfl
  | c :: t =>
      simp only [jnumDelim, Bool.not_eq_true', Bool.or_eq_false_iff] at h
      exact digitRun_not_digit t h.1.1.1

theorem digitRun_digits (ds : List Char) (hds : ∀ c ∈ ds, isDigitCh c = true)
    (rest : List Char) (hrest : digitRun rest = ([], rest)) :
    digitRun (ds ++ rest) = (ds, rest) := by
  induction ds with
  | nil => simpa using hrest
  | cons c t ih =>
      have hc : isDigitCh c = true := hds c (by simp)
      have ht := ih (fun x hx => hds x (by simp [hx]))
      simp [digitRun, hc, ht]

theorem natDigs_head (n : Nat) :
    ∃ c t, natDigs n [] = c :: t ∧ isDigitCh c = true := by
  match h : natDigs n [] with
  | [] => exact absurd h (natDigs_ne_nil n)
  | c :: t => exact ⟨c, t, rfl, natDigs_digits n c (h ▸ List.mem_cons_self c t)⟩

theorem digit_ne_minus {c : Char} (h : isDigitCh c = true) : c ≠ '-' := by
  intro he
  subst he
  simp [isDigitCh] at h

theorem jnumDelim_head {c : Char} {t : List Char} (h : jnumDelim (c :: t) = true) :
    isDigitCh c = false ∧ c ≠ '.' ∧ c ≠ 'e' ∧ c ≠ 'E' := by
  simp only [jnumDelim, Bool.not_eq_true', Bool.or_eq_false_iff,
    decide_eq_false_iff_not] at h
  exact ⟨h.1.1.1, h.1.1.2, h.1.2, h.2⟩

theorem jparseIntTail_ok (z : Int) (rest : List Char) (h : jnumDelim rest = true) :
    jparseIntTail z rest = some (z, rest) := by
  unfold jparseIntTail
  split
  · exact absurd rfl (jnumDelim_head h).2.1
  · exact absurd rfl (jnumDelim_head h).2.2.1
  · exact absurd rfl (jnumDelim_head h).2.2.2
  · rfl

theorem jparseInt_intChars (i : Int) (rest : List Char)
    (hr : jnumDelim rest = true) :
    jparseInt (intChars i ++ rest) = some (i, rest) := by
  obtain ⟨c0, t0, hm, hc0⟩ := natDigs_head i.natAbs
  have hdr : digitRun (c0 :: (t0 ++ rest)) = (c0 :: t0, rest) := by
    have h0 := digitRun_digits (natDigs i.natAbs []) (natDigs_digits _) rest
      (digitRun_delim hr)
    rw [hm] at h0
    simpa using h0
  have hval : digsToNat (c0 :: t0) = i.natAbs := by
    have h0 := digsToNat_natDigs i.natAbs
    rw [hm] at h0
    exact h0
  by_cases hneg : i < 0
  · have harg : intChars i ++ rest = '-' :: (c0 :: (t0 ++ rest)) := by
      simp [intChars, hneg, hm]
    rw [harg]
    show (match digitRun (c0 :: (t0 ++ rest)) with
      | ([], _) => (none : Option (Int × List Char))
      | (ds, r2) => jparseIntTail (-(digsToNat ds : Int)) r2) = some (i, rest)
    rw [hdr]
    show jparseIntTail (-(digsToNat (c0 :: t0) : Int)) rest = some (i, rest)
    rw [jparseIntTail_ok _ rest hr, hval]
    have hv : -(i.natAbs : Int) = i := by omega
    rw [hv]
  · have harg : intChars i ++ rest = c0 :: (t0 ++ rest) := by
      simp [intChars, hneg, hm]
    rw [harg]
    unfold jparseInt
    split
    · rename_i r heq
      injection heq with h1 _
      exact absurd h1 (digit_ne_minus hc0)
    · rw [hdr]
      show jparseIntTail ((digsToNat (c0 :: t0) : Int)) rest = some (i, rest)
      rw [jparseIntTail_ok _ rest hr, hval]
      have hv : (i.natAbs : Int) = i := by omega
      rw [hv]

/-! ### JSON round-trip: strings -/

theorem hexValCh_toHexCh (d : Nat) (h : d < 16) : hexValCh (toHexCh d) = some d := by
  interval_cases d <;> decide

theorem hexQuad_parts (n : Nat) (h : n < 0x10000) :
    hexQuad (toHexCh (n / 4096 % 16)) (toHexCh (n / 256 % 16))
      (toHexCh (n / 16 % 16)) (toHexCh (n % 16)) = some n := by
  unfold hexQuad
  rw [hexValCh_toHexCh _ (Nat.mod_lt _ (by omega)),
    hexValCh_toHexCh _ (Nat.mod_lt _ (by omega)),
    hexValCh_toHexCh _ (Nat.mod_lt _ (by omega)),
    hexValCh_toHexCh _ (Nat.mod_lt _ (by omega))]
  simp only [Option.some.injEq]
  omega

theorem hexQuad_hexEsc4_head (n : Nat) (h : n < 0x10000) (rest : List Char) :
    ∃ a b c d, hexEsc4 n ++ rest = '\\' :: 'u' :: a :: b :: c :: d :: rest ∧
      hexQuad a b c d = some n := by
  exact ⟨_, _, _, _, rfl, hexQuad_parts n h⟩

theorem char_valid_nat (c : Char) :
    c.toNat < 0xd800 ∨ (0xe000 ≤ c.toNat ∧ c.toNat < 0x110000) := by
  have h := c.valid
  rcases h with h | h
  · left
    exact h
  · right
    exact h

theorem jparseEscCh_hex (a b c2 d : Char) (rest2 : List Char) (n : Nat)
    (hq : hexQuad a b c2 d = some n)
    (h1 : (0xd800 ≤ n && n < 0xdc00) = false)
    (h2 : (0xdc00 ≤ n && n < 0xe000) = false) :
    jparseEscCh ('u' :: a :: b :: c2 :: d :: rest2) = some (Char.ofNat n, rest2) := by
  simp only [jparseEscCh]
  rw [hq]
  simp only [h1, h2, Bool.false_eq_true, if_false]

theorem jparseEscCh_surr (a b c2 d a' b' c' d' : Char) (rest : List Char) (n m : Nat)
    (hq1 : hexQuad a b c2 d = some n)
    (hn : (0xd800 ≤ n && n < 0xdc00) = true)
    (hq2 : hexQuad a' b' c' d' = some m)
    (hm : (0xdc00 ≤ m && m < 0xe000) = true) :
    jparseEscCh ('u' :: a :: b :: c2 :: d :: '\\' :: 'u' :: a' :: b' :: c' :: d' :: rest)
      = some (Char.ofNat (0x10000 + (n - 0xd800) * 0x400 + (m - 0xdc00)), rest) := by
  simp only [jparseEscCh]
  rw [hq1]
  simp only [hn, if_true]
  rw [hq2]
  simp only [hm, if_true]

set_option maxHeartbeats 1600000 in
theorem jparseStr_esc (c : Char) (fuel : Nat) (acc rest : List Char) :
    jparseStr (fuel + 1) acc (jsonEscChar c ++ rest) = jparseStr fuel (c :: acc) rest := by
  unfold jsonEscChar
  by_cases h1 : c = '"'
  · subst h1; rfl
  rw [if_neg h1]
  by_cases h2 : c = '\\'
  · subst h2; rfl
  rw [if_neg h2]
  by_cases h3 : c = '/'
  · subst h3; rfl
  rw [if_neg h3]
  by_cases h4 : c = '\n'
  · subst h4; rfl
  rw [if_neg h4]
  by_cases h5 : c = '\t'
  · subst h5; rfl
  rw [if_neg h5]
  by_cases h6 : c = '\r'
  · subst h6; rfl
  rw [if_neg h6]
  by_cases h7 : c.toNat = 8
  · have hc : c = Char.ofNat 8 := by
      have h0 := Char.ofNat_toNat c
      rw [h7] at h0
      exact h0.symm
    rw [if_pos h7, hc]
    rfl
  rw [if_neg h7]
  by_cases h8 : c.toNat = 12
  · have hc : c = Char.ofNat 12 := by
      have h0 := Char.ofNat_toNat c
      rw [h8] at h0
      exact h0.symm
    rw [if_pos h8, hc]
    rfl
  rw [if_neg h8]
  by_cases h9 : (c.toNat < 0x20 || c.toNat > 0x7e) = true
  · rw [if_pos h9]
    have hval := char_valid_nat c
    by_cases h10 : c.toNat < 0x10000
    · rw [if_pos h10]
      obtain ⟨a, b, d, e, happ, hq⟩ := hexQuad_hexEsc4_head c.toNat h10 rest
      have hns : (0xd800 ≤ c.toNat && c.toNat < 0xdc00) = false := by
        by_cases hb : 0xd800 ≤ c.toNat
        · have hb2 : ¬ c.toNat < 0xdc00 := by rcases hval with h | h <;> omega
          simp [hb2]
        · simp [hb]
      have hns2 : (0xdc00 ≤ c.toNat && c.toNat < 0xe000) = false := by
        by_cases hb : 0xdc00 ≤ c.toNat
        · have hb2 : ¬ c.toNat < 0xe000 := by rcases hval with h | h <;> omega
          simp [hb2]
        · simp [hb]
      have hE := jparseEscCh_hex a b d e rest c.toNat hq hns hns2
      rw [happ]
      simp only [jparseStr]
      rw [if_neg (by decide : ¬ ('\\' : Char) = '"')]
      simp only [if_true]
      rw [hE, Char.ofNat_toNat]
    · rw [if_neg h10]
      have hv : c.toNat < 0x110000 := by
        rcases hval with h | h <;> omega
      have hhi : 0xd800 + (c.toNat - 0x10000) / 0x400 < 0x10000 := by omega
      have hm400 := @Nat.mod_lt (c.toNat - 0x10000) 0x400 (by omega)
      have hlo : 0xdc00 + (c.toNat - 0x10000) % 0x400 < 0x10000 := by omega
      obtain ⟨a, b, d, e, happ1, hq1⟩ :=
        hexQuad_hexEsc4_head (0xd800 + (c.toNat - 0x10000) / 0x400) hhi
          (hexEsc4 (0xdc00 + (c.toNat - 0x10000) % 0x400) ++ rest)
      obtain ⟨a2, b2, d2, e2, happ2, hq2⟩ :=
        hexQuad_hexEsc4_head (0xdc00 + (c.toNat - 0x10000) % 0x400) hlo rest
      have hsur : (0xd800 ≤ 0xd800 + (c.toNat - 0x10000) / 0x400 &&
          0xd800 + (c.toNat - 0x10000) / 0x400 < 0xdc00) = true := by
        have hb1 : 0xd800 ≤ 0xd800 + (c.toNat - 0x10000) / 0x400 := by omega
        have hb2 : 0xd800 + (c.toNat - 0x10000) / 0x400 < 0xdc00 := by omega
        simp [hb1, hb2]
      have hsur2 : (0xdc00 ≤ 0xdc00 + (c.toNat - 0x10000) % 0x400 &&
          0xdc00 + (c.toNat - 0x10000) % 0x400 < 0xe000) = true := by
        have hb1 : 0xdc00 ≤ 0xdc00 + (c.toNat - 0x10000) % 0x400 := by omega
        have hb2 : 0xdc00 + (c.toNat - 0x10000) % 0x400 < 0xe000 := by omega
        simp [hb1, hb2]
      rw [List.append_assoc, happ1, happ2]
      have hE := jparseEscCh_surr a b d e a2 b2 d2 e2 rest
        (0xd800 + (c.toNat - 0x10000) / 0x400) (0xdc00 + (c.toNat - 0x10000) % 0x400)
        hq1 hsur hq2 hsur2
      simp only [jparseStr]
      rw [if_neg (by decide : ¬ ('\\' : Char) = '"')]
      simp only [if_true]
      rw [hE]
      have harith : 0x10000 +
          (0xd800 + (c.toNat - 0x10000) / 0x400 - 0xd800) * 0x400 +
          (0xdc00 + (c.toNat - 0x10000) % 0x400 - 0xdc00) = c.toNat := by omega
      rw [harith, Char.ofNat_toNat]
  · rw [if_neg h9]
    simp only [List.singleton_append, jparseStr]
    rw [if_neg h1, if_neg h2]

theorem jparseStr_flat (cs : List Char) : ∀ (fuel : Nat) (acc rest : List Char),
    cs.length < fuel →
    jparseStr fuel acc (cs.flatMap jsonEscChar ++ '"' :: rest) =
      some (⟨acc.reverse ++ cs⟩, rest) := by
  induction cs with
  | nil =>
      intro fuel acc rest hf
      match fuel, hf with
      | fuel + 1, _ =>
          simp [jparseStr]
  | cons c cs ih =>
      intro fuel acc rest hf
      match fuel, hf with
      | fuel + 1, hf =>
          rw [List.flatMap_cons, List.append_assoc, jparseStr_esc,
            ih fuel (c :: acc) rest (by simpa using Nat.lt_of_succ_lt_succ hf)]
          simp

/-- Every escape produces at least one character. -/
theorem jsonEscChar_len_pos (c : Char) : 1 ≤ (jsonEscChar c).length := by
  unfold jsonEscChar
  repeat' split
  all_goals simp [hexEsc4]

theorem flatMap_esc_len (cs : List Char) :
    cs.length ≤ (cs.flatMap jsonEscChar).length := by
  induction cs with
  | nil => simp
  | cons c cs ih =>
      rw [List.flatMap_cons, List.length_append, List.length_cons]
      have := jsonEscChar_len_pos c
      omega

/-- The string round-trip at the parser's own fuel. -/
theorem jparseStr_strChars (s : String) (rest : List Char) :
    jparseStr ((s.data.flatMap jsonEscChar ++ '"' :: rest).length + 1) []
      (s.data.flatMap jsonEscChar ++ '"' :: rest) = some (s, rest) := by
  have hlen : s.data.length < (s.data.flatMap jsonEscChar ++ '"' :: rest).length + 1 := by
    rw [List.length_append]
    have := flatMap_esc_len s.data
    omega
  rw [jparseStr_flat s.data _ [] rest hlen]
  simp

/-! ### JSON round-trip: whitespace and dispatch heads -/

theorem skipWs_ws_cons {c : Char} (cs : List Char) (h : isWsCh c = true) :
    skipWs (c :: cs) = skipWs cs := by
  simp [skipWs, h]

theorem skipWs_not_ws {c : Char} (cs : List Char) (h : isWsCh c = false) :
    skipWs (c :: cs) = c :: cs := by
  simp [skipWs, h]

theorem skipWs_spaces (n : Nat) (cs : List Char) :
    skipWs (spaces n ++ cs) = skipWs cs := by
  induction n with
  | zero => simp [spaces]
  | succ n ih =>
      rw [spaces, List.replicate_succ, List.cons_append,
        skipWs_ws_cons _ (by decide)]
      exact ih

theorem skipWs_indent (n : Nat) (cs : List Char) :
    skipWs ('\n' :: (spaces n ++ cs)) = skipWs cs := by
  rw [skipWs_ws_cons _ (by decide), skipWs_spaces]

/-- A digit opens no other dispatch branch of the value parser. -/
theorem digit_head_facts {c : Char} (h : isDigitCh c = true) :
    isWsCh c = false ∧ c ≠ 'n' ∧ c ≠ 't' ∧ c ≠ 'f' ∧ c ≠ '"' ∧ c ≠ '[' ∧
    c ≠ '\x7b' ∧ c ≠ ']' ∧ c ≠ '\x7d' := by
  refine ⟨?_, ?_, ?_, ?_, ?_, ?_, ?_, ?_, ?_⟩
  · simp only [isDigitCh, Bool.and_eq_true, decide_eq_true_eq] at h
    simp only [isWsCh, Bool.or_eq_false_iff, beq_eq_false_iff_ne, ne_eq]
    refine ⟨⟨⟨?_, ?_⟩, ?_⟩, ?_⟩ <;> (intro he; subst he; revert h; decide)
  all_goals (intro he; subst he; revert h; decide)

/-- The first character of a rendered value, with the facts the dispatcher
needs about it. -/
theorem jsonRender_head (ind : Nat) (v : PyVal) :
    ∃ c t, jsonRender ind v = c :: t ∧ isWsCh c = false ∧ c ≠ ']' ∧ c ≠ '\x7d' := by
  cases v with
  | pyNone => exact ⟨'n', _, rfl, by decide, by decide, by decide⟩
  | pyBool b =>
      cases b
      · exact ⟨'f', _, rfl, by decide, by decide, by decide⟩
      · exact ⟨'t', _, rfl, by decide, by decide, by decide⟩
  | pyInt n =>
      by_cases hn : n < 0
      · refine ⟨'-', natDigs n.natAbs [], ?_, by decide, by decide, by decide⟩
        simp [jsonRender, intChars, hn]
      · obtain ⟨c0, t0, hm, hd⟩ := natDigs_head n.natAbs
        obtain ⟨hw, _, _, _, _, _, _, hrb, hrc⟩ := digit_head_facts hd
        refine ⟨c0, t0, ?_, hw, hrb, hrc⟩
        simp [jsonRender, intChars, hn, hm]
  | pyStr s => exact ⟨'"', _, rfl, by decide, by decide, by decide⟩
  | pyList xs =>
      cases xs
      · exact ⟨'[', _, rfl, by decide, by decide, by decide⟩
      · exact ⟨'[', _, rfl, by decide, by decide, by decide⟩
  | pyDict kvs =>
      cases kvs
      · exact ⟨'\x7b', _, rfl, by decide, by decide, by decide⟩
      · exact ⟨'\x7b', _, rfl, by decide, by decide, by decide⟩

/-! ### JSON round-trip: the parser on rendered input -/

theorem sizeJ_pos (v : PyVal) : 1 ≤ sizeJ v := by
  cases v <;> simp [sizeJ]

theorem sizeL_pos (xs : List PyVal) : 1 ≤ sizeL xs := by
  cases xs with
  | nil => simp [sizeL]
  | cons x xs => have := sizeJ_pos x; simp only [sizeL]; omega

theorem sizeP_pos (kvs : List (String × PyVal)) : 1 ≤ sizeP kvs := by
  cases kvs with
  | nil => simp [sizeP]
  | cons p kvs =>
      obtain ⟨k, v⟩ := p
      have := sizeJ_pos v
      simp only [sizeP]
      omega

theorem jparseValue_int (fuel : Nat) (n : Int) (rest : List Char)
    (hd : jnumDelim rest = true) :
    jparseValue (fuel + 1) (intChars n ++ rest) = some (.pyInt n, rest) := by
  by_cases hn : n < 0
  · have harg : intChars n ++ rest = '-' :: (natDigs n.natAbs [] ++ rest) := by
      simp [intChars, hn]
    have hint : jparseInt ('-' :: (natDigs n.natAbs [] ++ rest)) = some (n, rest) :=
      harg ▸ jparseInt_intChars n rest hd
    rw [harg]
    simp only [jparseValue]
    rw [skipWs_not_ws _ (by decide)]
    simp [hint]
  · obtain ⟨c0, t0, hm, hd0⟩ := natDigs_head n.natAbs
    obtain ⟨hw, hn', ht', hf', hq', hlb, hldb, _, _⟩ := digit_head_facts hd0
    have harg : intChars n ++ rest = c0 :: (t0 ++ rest) := by
      simp [intChars, hn, hm]
    have hint : jparseInt (c0 :: (t0 ++ rest)) = some (n, rest) :=
      harg ▸ jparseInt_intChars n rest hd
    rw [harg]
    simp only [jparseValue]
    rw [skipWs_not_ws _ hw]
    simp [hn', ht', hf', hq', hlb, hldb, hint]

theorem jparseValue_str (fuel : Nat) (s : String) (rest : List Char) :
    jparseValue (fuel + 1) (jsonStrChars s ++ rest) = some (.pyStr s, rest) := by
  have harg : jsonStrChars s ++ rest =
      '"' :: (s.data.flatMap jsonEscChar ++ '"' :: rest) := by
    simp [jsonStrChars]
  have hstep : jparseValue (fuel + 1)
      ('"' :: (s.data.flatMap jsonEscChar ++ '"' :: rest)) =
      (match jparseStr ((s.data.flatMap jsonEscChar ++ '"' :: rest).length + 1) []
          (s.data.flatMap jsonEscChar ++ '"' :: rest) with
       | some (t, r') => some (.pyStr t, r')
       | none => none) := rfl
  rw [harg, hstep, jparseStr_strChars s rest]

theorem jparseValue_lbrack (fuel : Nat) (Y : List Char) (d : Char) (r' : List Char)
    (hY : skipWs Y = d :: r') (hne : d ≠ ']') :
    jparseValue (fuel + 1) ('[' :: Y) =
      (match jparseItems fuel (d :: r') with
       | some (xs, r'') => some (.pyList xs, r'')
       | none => none) := by
  simp only [jparseValue]
  rw [show skipWs ('[' :: Y) = '[' :: Y from skipWs_not_ws _ (by decide)]
  simp [hY, hne]

theorem jparseValue_lbrace (fuel : Nat) (Y : List Char) (d : Char) (r' : List Char)
    (hY : skipWs Y = d :: r') (hne : d ≠ '\x7d') :
    jparseValue (fuel + 1) ('\x7b' :: Y) =
      (match jparsePairs fuel (d :: r') with
       | some (kvs, r'') => some (.pyDict kvs, r'')
       | none => none) := by
  simp only [jparseValue]
  rw [show skipWs ('\x7b' :: Y) = '\x7b' :: Y from skipWs_not_ws _ (by decide)]
  simp [hY, hne]

theorem jparseItems_last (fuel : Nat) (cs : List Char) (v : PyVal) (r r' : List Char)
    (hv : jparseValue fuel cs = some (v, r)) (hr : skipWs r = ']' :: r') :
    jparseItems (fuel + 1) cs = some ([v], r') := by
  simp only [jparseItems]
  rw [hv]
  simp [hr]

theorem jparseItems_more (fuel : Nat) (cs : List Char) (v : PyVal) (r r2 : List Char)
    (hv : jparseValue fuel cs = some (v, r)) (hr : skipWs r = ',' :: r2) :
    jparseItems (fuel + 1) cs =
      (match jparseItems fuel r2 with
       | some (vs, r'') => some (v :: vs, r'')
       | none => none) := by
  simp only [jparseItems]
  rw [hv]
  simp [hr]

theorem jparsePairs_entry (fuel : Nat) (k : String) (v : PyVal)
    (tail r3 : List Char) (hv : jparseValue fuel tail = some (v, r3)) :
    jparsePairs (fuel + 1) (jsonStrChars k ++ ':' :: tail) =
      (match skipWs r3 with
       | ',' :: r4 =>
           match jparsePairs fuel r4 with
           | some (kvs, r5) => some ((k, v) :: kvs, r5)
           | none => none
       | '\x7d' :: r4 => some ([(k, v)], r4)
       | _ => none) := by
  have harg : jsonStrChars k ++ ':' :: tail =
      '"' :: (k.data.flatMap jsonEscChar ++ '"' :: (':' :: tail)) := by
    simp [jsonStrChars]
  have hcol : skipWs (':' :: tail) = ':' :: tail := skipWs_not_ws _ (by decide)
  have hstep : jparsePairs (fuel + 1)
      ('"' :: (k.data.flatMap jsonEscChar ++ '"' :: (':' :: tail))) =
      (match jparseStr ((k.data.flatMap jsonEscChar ++ '"' :: (':' :: tail)).length + 1)
          [] (k.data.flatMap jsonEscChar ++ '"' :: (':' :: tail)) with
       | none => none
       | some (k1, r1) =>
           match skipWs r1 with
           | ':' :: r2 =>
               match jparseValue fuel r2 with
               | none => none
               | some (v1, r31) =>
                   match skipWs r31 with
                   | ',' :: r4 =>
                       match jparsePairs fuel r4 with
                       | some (kvs, r5) => some ((k1, v1) :: kvs, r5)
                       | none => none
                   | '\x7d' :: r4 => some ([(k1, v1)], r4)
                   | _ => none
           | _ => none) := rfl
  rw [harg, hstep, jparseStr_strChars k (':' :: tail)]
  simp [hcol, hv]

theorem jparseValue_indent (fuel n : Nat) (cs : List Char) :
    jparseValue fuel ('\n' :: (spaces n ++ cs)) = jparseValue fuel cs := by
  cases fuel with
  | zero => rfl
  | succ fuel => simp only [jparseValue, skipWs_indent]

theorem jparseItems_indent (fuel n : Nat) (cs : List Char) :
    jparseItems fuel ('\n' :: (spaces n ++ cs)) = jparseItems fuel cs := by
  cases fuel with
  | zero => rfl
  | succ fuel => simp only [jparseItems, jparseValue_indent]

theorem jparsePairs_indent (fuel n : Nat) (cs : List Char) :
    jparsePairs fuel ('\n' :: (spaces n ++ cs)) = jparsePairs fuel cs := by
  cases fuel with
  | zero => rfl
  | succ fuel => simp only [jparsePairs, skipWs_indent]

mutual

/- Parsing a rendered value with enough fuel recovers the value and leaves the
trailing input untouched, provided the trailing input cannot extend a number
literal. -/
theorem jparseValue_render : ∀ (fuel ind : Nat) (v : PyVal) (rest : List Char),
    sizeJ v ≤ fuel → jnumDelim rest = true →
    jparseValue fuel (jsonRender ind v ++ rest) = some (v, rest)
  | 0, _, v, _, hs, _ => by
      have := sizeJ_pos v
      omega
  | fuel + 1, ind, v, rest, hs, hd => by
      cases v with
      | pyNone => simp only [jsonRender]; rfl
      | pyBool b => cases b <;> (simp only [jsonRender]; rfl)
      | pyInt n =>
          simp only [jsonRender]
          exact jparseValue_int fuel n rest hd
      | pyStr s =>
          simp only [jsonRender]
          exact jparseValue_str fuel s rest
      | pyList xs =>
          cases xs with
          | nil => simp only [jsonRender]; rfl
          | cons x xs =>
              have hs' : sizeJ x + sizeL xs ≤ fuel := by
                simp only [sizeJ, sizeL] at hs
                omega
              obtain ⟨c0, t0, hr0, hw0, hne1, _⟩ := jsonRender_head (ind + 1) x
              simp only [jsonRender, List.append_assoc, List.cons_append,
                List.nil_append]
              have hskip : skipWs ('\n' :: (spaces (4 * (ind + 1)) ++
                  (jsonRender (ind + 1) x ++ (jsonRenderItems (ind + 1) xs ++
                    '\n' :: (spaces (4 * ind) ++ ']' :: rest))))) =
                  c0 :: (t0 ++ (jsonRenderItems (ind + 1) xs ++
                    '\n' :: (spaces (4 * ind) ++ ']' :: rest))) := by
                rw [skipWs_indent, hr0, List.cons_append, skipWs_not_ws _ hw0]
              rw [jparseValue_lbrack fuel _ c0 _ hskip hne1,
                ← List.cons_append, ← hr0,
                jparseItems_render fuel (ind + 1) (4 * ind) x xs rest hs']
      | pyDict kvs =>
          cases kvs with
          | nil => simp only [jsonRender]; rfl
          | cons p kvs =>
              obtain ⟨k, v⟩ := p
              have hs' : sizeJ v + sizeP kvs ≤ fuel := by
                simp only [sizeJ, sizeP] at hs
                omega
              simp only [jsonRender, List.append_assoc, List.cons_append,
                List.nil_append]
              have hks : jsonStrChars k ++ (':' :: (jsonRender (ind + 1) v ++
                  (jsonRenderPairs (ind + 1) kvs ++
                    '\n' :: (spaces (4 * ind) ++ '\x7d' :: rest)))) =
                  '"' :: (k.data.flatMap jsonEscChar ++
                    '"' :: (':' :: (jsonRender (ind + 1) v ++
                      (jsonRenderPairs (ind + 1) kvs ++
                        '\n' :: (spaces (4 * ind) ++ '\x7d' :: rest))))) := by
                simp [jsonStrChars]
              have hskip : skipWs ('\n' :: (spaces (4 * (ind + 1)) ++
                  (jsonStrChars k ++ (':' :: (jsonRender (ind + 1) v ++
                    (jsonRenderPairs (ind + 1) kvs ++
                      '\n' :: (spaces (4 * ind) ++ '\x7d' :: rest))))))) =
                  '"' :: (k.data.flatMap jsonEscChar ++
                    '"' :: (':' :: (jsonRender (ind + 1) v ++
                      (jsonRenderPairs (ind + 1) kvs ++
                        '\n' :: (spaces (4 * ind) ++ '\x7d' :: rest))))) := by
                rw [skipWs_indent, hks, skipWs_not_ws _ (by decide)]
              rw [jparseValue_lbrace fuel _ '"' _ hskip (by decide), ← hks,
                jparsePairs_render fuel (ind + 1) (4 * ind) k v kvs rest hs']

/- Parsing rendered list items followed by a newline, indentation and the
closing bracket recovers the items. -/
theorem jparseItems_render : ∀ (fuel ind ind2 : Nat) (x : PyVal) (xs : List PyVal)
    (rest : List Char), sizeJ x + sizeL xs ≤ fuel →
    jparseItems fuel (jsonRender ind x ++ (jsonRenderItems ind xs ++
      '\n' :: (spaces ind2 ++ ']' :: rest))) = some (x :: xs, rest)
  | 0, _, _, x, xs, _, hs => by
      have h1 := sizeJ_pos x
      have h2 := sizeL_pos xs
      omega
  | fuel + 1, ind, ind2, x, xs, rest, hs => by
      cases xs with
      | nil =>
          simp only [jsonRenderItems, List.nil_append]
          have hv : jparseValue fuel (jsonRender ind x ++
              '\n' :: (spaces ind2 ++ ']' :: rest)) =
              some (x, '\n' :: (spaces ind2 ++ ']' :: rest)) := by
            have hb : sizeJ x ≤ fuel := by
              simp only [sizeL] at hs
              omega
            exact jparseValue_render fuel ind x _ hb rfl
          have hr : skipWs ('\n' :: (spaces ind2 ++ ']' :: rest)) = ']' :: rest := by
            rw [skipWs_indent, skipWs_not_ws _ (by decide)]
          exact jparseItems_last fuel _ x _ rest hv hr
      | cons y ys =>
          have h0 := sizeJ_pos x
          have h1 := sizeJ_pos y
          have h2 := sizeL_pos ys
          simp only [sizeL] at hs
          simp only [jsonRenderItems, List.append_assoc, List.cons_append,
            List.nil_append]
          have hv : jparseValue fuel (jsonRender ind x ++
              ',' :: '\n' :: (spaces (4 * ind) ++ (jsonRender ind y ++
                (jsonRenderItems ind ys ++ '\n' :: (spaces ind2 ++ ']' :: rest))))) =
              some (x, ',' :: '\n' :: (spaces (4 * ind) ++ (jsonRender ind y ++
                (jsonRenderItems ind ys ++ '\n' :: (spaces ind2 ++ ']' :: rest))))) :=
            jparseValue_render fuel ind x _ (by omega) rfl
          have hr : skipWs (',' :: '\n' :: (spaces (4 * ind) ++ (jsonRender ind y ++
              (jsonRenderItems ind ys ++ '\n' :: (spaces ind2 ++ ']' :: rest))))) =
              ',' :: ('\n' :: (spaces (4 * ind) ++ (jsonRender ind y ++
                (jsonRenderItems ind ys ++ '\n' :: (spaces ind2 ++ ']' :: rest))))) :=
            skipWs_not_ws _ (by decide)
          rw [jparseItems_more fuel _ x _ _ hv hr, jparseItems_indent,
            jparseItems_render fuel ind ind2 y ys rest (by omega)]

/- Parsing rendered dict entries (key, colon, value, then the remaining
entries, a newline, indentation and the closing brace) recovers the entries. -/
theorem jparsePairs_render : ∀ (fuel ind ind2 : Nat) (k : String) (v : PyVal)
    (kvs : List (String × PyVal)) (rest : List Char), sizeJ v + sizeP kvs ≤ fuel →
    jparsePairs fuel (jsonStrChars k ++ ':' :: (jsonRender ind v ++
      (jsonRenderPairs ind kvs ++ '\n' :: (spaces ind2 ++ '\x7d' :: rest)))) =
      some ((k, v) :: kvs, rest)
  | 0, _, _, _, v, kvs, _, hs => by
      have h1 := sizeJ_pos v
      have h2 := sizeP_pos kvs
      omega
  | fuel + 1, ind, ind2, k, v, kvs, rest, hs => by
      cases kvs with
      | nil =>
          simp only [jsonRenderPairs, List.nil_append]
          have hv : jparseValue fuel (jsonRender ind v ++
              '\n' :: (spaces ind2 ++ '\x7d' :: rest)) =
              some (v, '\n' :: (spaces ind2 ++ '\x7d' :: rest)) := by
            have hb : sizeJ v ≤ fuel := by
              simp only [sizeP] at hs
              omega
            exact jparseValue_render fuel ind v _ hb rfl
          rw [jparsePairs_entry fuel k v _ _ hv,
            show skipWs ('\n' :: (spaces ind2 ++ '\x7d' :: rest)) = '\x7d' :: rest
              from by rw [skipWs_indent, skipWs_not_ws _ (by decide)]]
          rfl
      | cons p kvs =>
          obtain ⟨k2, v2⟩ := p
          have h0 := sizeJ_pos v
          have h1 := sizeJ_pos v2
          have h2 := sizeP_pos kvs
          simp only [sizeP] at hs
          simp only [jsonRenderPairs, List.append_assoc, List.cons_append,
            List.nil_append]
          have hv : jparseValue fuel (jsonRender ind v ++
              ',' :: '\n' :: (spaces (4 * ind) ++ (jsonStrChars k2 ++
                (':' :: (jsonRender ind v2 ++ (jsonRenderPairs ind kvs ++
                  '\n' :: (spaces ind2 ++ '\x7d' :: rest))))))) =
              some (v, ',' :: '\n' :: (spaces (4 * ind) ++ (jsonStrChars k2 ++
                (':' :: (jsonRender ind v2 ++ (jsonRenderPairs ind kvs ++
                  '\n' :: (spaces ind2 ++ '\x7d' :: rest))))))) :=
            jparseValue_render fuel ind v _ (by omega) rfl
          rw [jparsePairs_entry fuel k v _ _ hv]
          simp only [show ∀ cs : List Char, skipWs (',' :: cs) = ',' :: cs from
            fun cs => skipWs_not_ws _ (by decide)]
          rw [jparsePairs_indent]
          rw [show jsonStrChars k2 ++ (':' :: (jsonRender ind v2 ++
              (jsonRenderPairs ind kvs ++ '\n' :: (spaces ind2 ++ '\x7d' :: rest)))) =
              jsonStrChars k2 ++ ':' :: (jsonRender ind v2 ++
                (jsonRenderPairs ind kvs ++ '\n' :: (spaces ind2 ++ '\x7d' :: rest)))
            from rfl]
          rw [jparsePairs_render fuel ind ind2 k2 v2 kvs rest (by omega)]

end

mutual

/- The fuel bound `sizeJ` is dominated by the rendered length plus one. -/
theorem sizeJ_le_render : ∀ (ind : Nat) (v : PyVal),
    sizeJ v ≤ (jsonRender ind v).length + 1
  | ind, .pyNone => by simp only [sizeJ]; omega
  | ind, .pyBool b => by simp only [sizeJ]; omega
  | ind, .pyInt n => by simp only [sizeJ]; omega
  | ind, .pyStr s => by simp only [sizeJ]; omega
  | ind, .pyList [] => by simp [sizeJ, sizeL, jsonRender]
  | ind, .pyList (x :: xs) => by
      have h1 := sizeJ_le_render (ind + 1) x
      have h2 := sizeL_le_render (ind + 1) xs
      simp only [sizeJ, sizeL, jsonRender, List.length_cons, List.length_append]
      omega
  | ind, .pyDict [] => by simp [sizeJ, sizeP, jsonRender]
  | ind, .pyDict ((k, v) :: kvs) => by
      have h1 := sizeJ_le_render (ind + 1) v
      have h2 := sizeP_le_render (ind + 1) kvs
      simp only [sizeJ, sizeP, jsonRender, List.length_cons, List.length_append]
      omega

theorem sizeL_le_render : ∀ (ind : Nat) (xs : List PyVal),
    sizeL xs ≤ (jsonRenderItems ind xs).length + 1
  | ind, [] => by simp [sizeL, jsonRenderItems]
  | ind, x :: xs => by
      have h1 := sizeJ_le_render ind x
      have h2 := sizeL_le_render ind xs
      simp only [sizeL, jsonRenderItems, List.length_cons, List.length_append]
      omega

theorem sizeP_le_render : ∀ (ind : Nat) (kvs : List (String × PyVal)),
    sizeP kvs ≤ (jsonRenderPairs ind kvs).length + 1
  | ind, [] => by simp [sizeP, jsonRenderPairs]
  | ind, (k, v) :: kvs => by
      have h1 := sizeJ_le_render ind v
      have h2 := sizeP_le_render ind kvs
      simp only [sizeP, jsonRenderPairs, List.length_cons, List.length_append]
      omega

end

/- The JSON codec of the model round-trips every model value: parsing the
pretty-printed document recovers the value exactly. -/
theorem jsonLoads_jsonDumps (v : PyVal) : jsonLoads (jsonDumps v) = some v := by
  have hv : jparseValue ((jsonRender 0 v).length + 1) (jsonRender 0 v) =
      some (v, []) := by
    have h := jparseValue_render ((jsonRender 0 v).length + 1) 0 v []
      (sizeJ_le_render 0 v) rfl
    simpa using h
  simp [jsonLoads, jsonDumps, hv, skipWs]

/-! ### YAML round-trip: document lines -/

theorem splitNl_line (cs : List Char) :
    '\n' ∉ cs → ∀ (acc rest : List Char),
      splitNl acc (cs ++ '\n' :: rest) =
        (⟨acc.reverse ++ cs⟩ : String) :: splitNl [] rest := by
  induction cs with
  | nil => intro _ acc rest; simp [splitNl]
  | cons c cs ih =>
      intro h acc rest
      have hc : ¬ c = '\n' := fun he => h (he ▸ List.mem_cons_self c cs)
      rw [List.cons_append]
      rw [show splitNl acc (c :: (cs ++ '\n' :: rest)) =
        splitNl (c :: acc) (cs ++ '\n' :: rest) from by simp [splitNl, hc]]
      rw [ih (fun hm => h (List.mem_cons_of_mem _ hm)) (c :: acc) rest]
      simp

theorem splitNl_joinLines (ls : List String) (h : ∀ l ∈ ls, '\n' ∉ l.data) :
    splitNl [] (joinLines ls).data = ls ++ [""] := by
  induction ls with
  | nil => simp [joinLines, splitNl]
  | cons l ls ih =>
      show splitNl [] ((l :: ls).flatMap (fun l => l.data ++ ['\n'])) = _
      simp only [List.flatMap_cons, List.append_assoc, List.singleton_append]
      rw [splitNl_line l.data (h l (List.mem_cons_self l ls)) [] _]
      rw [show ls.flatMap (fun l => l.data ++ ['\n']) = (joinLines ls).data from rfl]
      rw [ih (fun m hm => h m (List.mem_cons_of_mem l hm))]
      simp

theorem docLines_joinLines (ls : List String) (hnl : ∀ l ∈ ls, '\n' ∉ l.data)
    (hne : ∀ l ∈ ls, ¬ l = "") : docLines (joinLines ls) = ls := by
  show ((splitNl [] (joinLines ls).data).reverse.dropWhile
      (fun l => l == "")).reverse = ls
  rw [splitNl_joinLines ls hnl]
  rw [show (ls ++ [""]).reverse = "" :: ls.reverse from by simp]
  rw [List.dropWhile_cons_of_pos (by simp)]
  have h2 : ls.reverse.dropWhile (fun l => l == "") = ls.reverse := by
    cases hr : ls.reverse with
    | nil => simp
    | cons a t =>
        have ha : a ∈ ls := by
          rw [← List.mem_reverse, hr]; exact List.mem_cons_self a t
        have hne' : ¬(a == "") = true := by simpa using hne a ha
        simp [List.dropWhile_cons_of_neg, hne']
  rw [h2, List.reverse_reverse]

/-! ### YAML round-trip: quoted-scalar scanners -/

theorem sqScan_plain (acc : List Char) (c : Char) (r : List Char) (hc : ¬ c = '\'') :
    sqScan acc (c :: r) = sqScan (c :: acc) r := by
  rw [sqScan.eq_def]
  simp [hc]

theorem sqScan_esc (cs : List Char) :
    ∀ (acc rest : List Char), rest.head? ≠ some '\'' →
      sqScan acc (sqEscBody cs ++ '\'' :: rest) = some (⟨acc.reverse ++ cs⟩, rest) := by
  induction cs with
  | nil =>
      intro acc rest hr
      simp only [sqEscBody, List.flatMap_nil, List.nil_append]
      cases rest with
      | nil => simp [sqScan]
      | cons b r =>
          have hb : ¬ b = '\'' := by simpa using hr
          simp [sqScan, hb]
  | cons c cs ih =>
      intro acc rest hr
      by_cases hc : c = '\''
      · subst hc
        simp only [sqEscBody, List.flatMap_cons, List.append_assoc]
        rw [show (if ('\'' : Char) == '\'' then ['\'', '\''] else ['\'']) =
          ['\'', '\''] from by simp]
        show sqScan acc ('\'' :: ('\'' :: (sqEscBody cs ++ '\'' :: rest))) = _
        rw [show sqScan acc ('\'' :: ('\'' :: (sqEscBody cs ++ '\'' :: rest))) =
          sqScan ('\'' :: acc) (sqEscBody cs ++ '\'' :: rest) from by simp [sqScan]]
        rw [ih ('\'' :: acc) rest hr]
        simp
      · simp only [sqEscBody, List.flatMap_cons, List.append_assoc]
        rw [show (if (c == '\'') = true then [c, c] else [c]) = [c] from by
          simp [hc]]
        show sqScan acc (c :: (sqEscBody cs ++ '\'' :: rest)) = _
        rw [sqScan_plain acc c _ hc, ih (c :: acc) rest hr]
        simp

/-! ### YAML round-trip: the plain key splitter -/

theorem plainKeySplit_go (cs : List Char) :
    noColonSpace cs = true → ∀ (acc : List Char),
      (∀ v, plainKeySplit acc (cs ++ ':' :: ' ' :: v) =
        some (⟨acc.reverse ++ cs⟩, some v)) ∧
      plainKeySplit acc (cs ++ [':']) = some (⟨acc.reverse ++ cs⟩, none) ∧
      ((∀ c ∈ cs, ¬ c = ':') → plainKeySplit acc cs = none) := by
  induction cs with
  | nil =>
      intro _ acc
      refine ⟨fun v => by simp [plainKeySplit], by simp [plainKeySplit], ?_⟩
      intro _
      simp [plainKeySplit]
  | cons c cs ih =>
      intro h acc
      have hstep : ∀ (d : Char) (v : List Char), ¬(c = ':' ∧ d = ' ') →
          plainKeySplit acc (c :: d :: v) = plainKeySplit (c :: acc) (d :: v) := by
        intro d v hdv
        by_cases hc : c = ':'
        · subst hc
          have hd : ¬ d = ' ' := fun he => hdv ⟨rfl, he⟩
          simp [plainKeySplit, hd]
        · simp [plainKeySplit, hc]
      have hns : noColonSpace cs = true := by
        cases cs with
        | nil => rfl
        | cons d r =>
            simp only [noColonSpace, Bool.and_eq_true] at h
            exact h.2
      have hpair : ∀ d : Char, cs.head? = some d → ¬(c = ':' ∧ d = ' ') := by
        intro d hd hpc
        obtain ⟨hc, hsp⟩ := hpc
        subst hc
        cases cs with
        | nil => exact Option.noConfusion hd
        | cons d0 r =>
            injection hd with hd0
            subst hd0
            simp only [noColonSpace, Bool.and_eq_true] at h
            have := h.1
            rw [hsp] at this
            simp at this
      refine ⟨fun v => ?_, ?_, fun hnc => ?_⟩
      · rw [List.cons_append]
        cases cs with
        | nil =>
            rw [show ([] : List Char) ++ ':' :: ' ' :: v = ':' :: ' ' :: v from rfl,
              hstep ':' (' ' :: v) (fun hp => by simp at hp)]
            simp [plainKeySplit]
        | cons d r =>
            rw [show (d :: r) ++ ':' :: ' ' :: v = d :: (r ++ ':' :: ' ' :: v)
              from rfl, hstep d _ (hpair d rfl)]
            rw [show (d :: (r ++ ':' :: ' ' :: v)) = (d :: r) ++ ':' :: ' ' :: v
              from rfl]
            rw [((ih hns (c :: acc)).1 v)]
            simp
      · rw [List.cons_append]
        cases cs with
        | nil =>
            rw [show ([] : List Char) ++ [':'] = [':'] from rfl]
            have hc : ¬ c = ':' := by
              simp only [noColonSpace] at h
              simpa using h
            rw [show ([':'] : List Char) = ':' :: ([] : List Char) from rfl]
            simp [plainKeySplit, hc]
        | cons d r =>
            rw [show (d :: r) ++ [':'] = d :: (r ++ [':']) from rfl,
              hstep d _ (hpair d rfl)]
            rw [show (d :: (r ++ [':'])) = (d :: r) ++ [':'] from rfl]
            rw [((ih hns (c :: acc)).2.1)]
            simp
      · have hc : ¬ c = ':' := hnc c (List.mem_cons_self c cs)
        cases cs with
        | nil => simp [plainKeySplit, hc]
        | cons d r =>
            rw [hstep d r (fun hp => hc hp.1)]
            exact (ih hns (c :: acc)).2.2
              (fun e he => hnc e (List.mem_cons_of_mem c he))

/-! ### YAML round-trip: the double-quote scanner -/

theorem hexValCh_toHexU (d : Nat) (h : d < 16) : hexValCh (toHexU d) = some d := by
  interval_cases d <;> decide

theorem validScalarCp_toNat (c : Char) : validScalarCp c.toNat = true := by
  have h := char_valid_nat c
  simp only [validScalarCp, Bool.and_eq_true, Bool.or_eq_true, decide_eq_true_eq]
  rcases h with h | h
  · exact ⟨Or.inl h, by omega⟩
  · exact ⟨Or.inr h.1, h.2⟩

theorem dqScan_quote (fuel : Nat) (acc r : List Char) :
    dqScan (fuel + 1) acc ('"' :: r) = some (⟨acc.reverse⟩, r) := rfl

theorem dqScan_bslash (fuel : Nat) (acc r : List Char) :
    dqScan (fuel + 1) acc ('\\' :: r) =
      (match dqUnesc r with
       | some (ch, r2) => dqScan fuel (ch :: acc) r2
       | none => none) := rfl

theorem dqScan_other (fuel : Nat) (acc : List Char) (c : Char) (r : List Char)
    (h1 : ¬ c = '"') (h2 : ¬ c = '\\') :
    dqScan (fuel + 1) acc (c :: r) = dqScan fuel (c :: acc) r := by
  simp only [dqScan]
  rw [if_neg h1, if_neg h2]

theorem dqUnesc_named (e : Char) (r : List Char) (ch : Char)
    (hx : ¬ e = 'x') (hu : ¬ e = 'u') (hU : ¬ e = 'U')
    (hch : yamlUnescCh e = some ch) :
    dqUnesc (e :: r) = some (ch, r) := by
  simp only [dqUnesc]
  rw [if_neg hx, if_neg hu, if_neg hU, hch]

theorem dqUnesc_hex2 (a b : Char) (r : List Char) (va vb : Nat)
    (ha : hexValCh a = some va) (hb : hexValCh b = some vb) :
    dqUnesc ('x' :: a :: b :: r) = some (Char.ofNat (va * 16 + vb), r) := by
  simp only [dqUnesc]
  simp [ha, hb]

theorem dqUnesc_hex4 (a b c2 d : Char) (r : List Char) (n : Nat)
    (hq : hexQuad a b c2 d = some n) (hv : validScalarCp n = true) :
    dqUnesc ('u' :: a :: b :: c2 :: d :: r) = some (Char.ofNat n, r) := by
  simp only [dqUnesc]
  simp [hq, hv]

theorem dqUnesc_hex8 (a b c2 d e2 f g h2 : Char) (r : List Char) (hi lo : Nat)
    (hq1 : hexQuad a b c2 d = some hi) (hq2 : hexQuad e2 f g h2 = some lo)
    (hv : validScalarCp (hi * 0x10000 + lo) = true) :
    dqUnesc ('U' :: a :: b :: c2 :: d :: e2 :: f :: g :: h2 :: r) =
      some (Char.ofNat (hi * 0x10000 + lo), r) := by
  simp only [dqUnesc]
  simp [hq1, hq2, hv]

theorem hexQuad_partsU (n : Nat) (h : n < 0x10000) :
    hexQuad (toHexU (n / 4096 % 16)) (toHexU (n / 256 % 16))
      (toHexU (n / 16 % 16)) (toHexU (n % 16)) = some n := by
  unfold hexQuad
  rw [hexValCh_toHexU _ (Nat.mod_lt _ (by omega)),
    hexValCh_toHexU _ (Nat.mod_lt _ (by omega)),
    hexValCh_toHexU _ (Nat.mod_lt _ (by omega)),
    hexValCh_toHexU _ (Nat.mod_lt _ (by omega))]
  simp only [Option.some.injEq]
  omega

theorem hexQuad_partsU_hi (t : Nat) :
    hexQuad (toHexU (t / 0x10000000 % 16)) (toHexU (t / 0x1000000 % 16))
      (toHexU (t / 0x100000 % 16)) (toHexU (t / 0x10000 % 16)) =
      some (t / 0x10000 % 0x10000) := by
  unfold hexQuad
  rw [hexValCh_toHexU _ (Nat.mod_lt _ (by omega)),
    hexValCh_toHexU _ (Nat.mod_lt _ (by omega)),
    hexValCh_toHexU _ (Nat.mod_lt _ (by omega)),
    hexValCh_toHexU _ (Nat.mod_lt _ (by omega))]
  simp only [Option.some.injEq]
  omega

theorem hexQuad_partsU_lo (t : Nat) :
    hexQuad (toHexU (t / 4096 % 16)) (toHexU (t / 256 % 16))
      (toHexU (t / 16 % 16)) (toHexU (t % 16)) = some (t % 0x10000) := by
  unfold hexQuad
  rw [hexValCh_toHexU _ (Nat.mod_lt _ (by omega)),
    hexValCh_toHexU _ (Nat.mod_lt _ (by omega)),
    hexValCh_toHexU _ (Nat.mod_lt _ (by omega)),
    hexValCh_toHexU _ (Nat.mod_lt _ (by omega))]
  simp only [Option.some.injEq]
  omega

theorem dqScan_esc_step (c : Char) (fuel : Nat) (acc rest : List Char) :
    dqScan (fuel + 1) acc (yamlDqEscChar c ++ rest) = dqScan fuel (c :: acc) rest := by
  unfold yamlDqEscChar
  by_cases h1 : c = '"'
  · subst h1
    rw [if_pos rfl,
      show (['\\', '"'] : List Char) ++ rest = '\\' :: '"' :: rest from rfl,
      dqScan_bslash, dqUnesc_named '"' rest '"' (by decide) (by decide) (by decide) rfl]
  rw [if_neg h1]
  by_cases h2 : c = '\\'
  · subst h2
    rw [if_pos rfl,
      show (['\\', '\\'] : List Char) ++ rest = '\\' :: '\\' :: rest from rfl,
      dqScan_bslash,
      dqUnesc_named '\\' rest '\\' (by decide) (by decide) (by decide) rfl]
  rw [if_neg h2]
  by_cases h3 : (0x20 ≤ c.toNat && c.toNat ≤ 0x7e) = true
  · rw [if_pos h3]
    exact dqScan_other fuel acc c rest h1 h2
  rw [if_neg h3]
  by_cases h4 : c = '\n'
  · subst h4
    rw [if_pos rfl,
      show (['\\', 'n'] : List Char) ++ rest = '\\' :: 'n' :: rest from rfl,
      dqScan_bslash, dqUnesc_named 'n' rest '\n' (by decide) (by decide) (by decide) rfl]
  rw [if_neg h4]
  by_cases h5 : c = '\t'
  · subst h5
    rw [if_pos rfl,
      show (['\\', 't'] : List Char) ++ rest = '\\' :: 't' :: rest from rfl,
      dqScan_bslash, dqUnesc_named 't' rest '\t' (by decide) (by decide) (by decide) rfl]
  rw [if_neg h5]
  by_cases h6 : c.toNat = 0x0
  · have hc : c = Char.ofNat 0x0 := by
      have h0 := Char.ofNat_toNat c
      rw [h6] at h0
      exact h0.symm
    rw [if_pos h6, hc,
      show (['\\', '0'] : List Char) ++ rest = '\\' :: '0' :: rest from rfl,
      dqScan_bslash,
      dqUnesc_named '0' rest (Char.ofNat 0x0) (by decide) (by decide) (by decide) rfl]
  rw [if_neg h6]
  by_cases h7 : c.toNat = 0x7
  · have hc : c = Char.ofNat 0x7 := by
      have h0 := Char.ofNat_toNat c
      rw [h7] at h0
      exact h0.symm
    rw [if_pos h7, hc,
      show (['\\', 'a'] : List Char) ++ rest = '\\' :: 'a' :: rest from rfl,
      dqScan_bslash,
      dqUnesc_named 'a' rest (Char.ofNat 0x7) (by decide) (by decide) (by decide) rfl]
  rw [if_neg h7]
  by_cases h8 : c.toNat = 0x8
  · have hc : c = Char.ofNat 0x8 := by
      have h0 := Char.ofNat_toNat c
      rw [h8] at h0
      exact h0.symm
    rw [if_pos h8, hc,
      show (['\\', 'b'] : List Char) ++ rest = '\\' :: 'b' :: rest from rfl,
      dqScan_bslash,
      dqUnesc_named 'b' rest (Char.ofNat 0x8) (by decide) (by decide) (by decide) rfl]
  rw [if_neg h8]
  by_cases h9 : c.toNat = 0xb
  · have hc : c = Char.ofNat 0xb := by
      have h0 := Char.ofNat_toNat c
      rw [h9] at h0
      exact h0.symm
    rw [if_pos h9, hc,
      show (['\\', 'v'] : List Char) ++ rest = '\\' :: 'v' :: rest from rfl,
      dqScan_bslash,
      dqUnesc_named 'v' rest (Char.ofNat 0xb) (by decide) (by decide) (by decide) rfl]
  rw [if_neg h9]
  by_cases h10 : c.toNat = 0xc
  · have hc : c = Char.ofNat 0xc := by
      have h0 := Char.ofNat_toNat c
      rw [h10] at h0
      exact h0.symm
    rw [if_pos h10, hc,
      show (['\\', 'f'] : List Char) ++ rest = '\\' :: 'f' :: rest from rfl,
      dqScan_bslash,
      dqUnesc_named 'f' rest (Char.ofNat 0xc) (by decide) (by decide) (by decide) rfl]
  rw [if_neg h10]
  by_cases h11 : c.toNat = 0xd
  · have hc : c = Char.ofNat 0xd := by
      have h0 := Char.ofNat_toNat c
      rw [h11] at h0
      exact h0.symm
    rw [if_pos h11, hc,
      show (['\\', 'r'] : List Char) ++ rest = '\\' :: 'r' :: rest from rfl,
      dqScan_bslash,
      dqUnesc_named 'r' rest (Char.ofNat 0xd) (by decide) (by decide) (by decide) rfl]
  rw [if_neg h11]
  by_cases h12 : c.toNat = 0x1b
  · have hc : c = Char.ofNat 0x1b := by
      have h0 := Char.ofNat_toNat c
      rw [h12] at h0
      exact h0.symm
    rw [if_pos h12, hc,
      show (['\\', 'e'] : List Char) ++ rest = '\\' :: 'e' :: rest from rfl,
      dqScan_bslash,
      dqUnesc_named 'e' rest (Char.ofNat 0x1b) (by decide) (by decide) (by decide) rfl]
  rw [if_neg h12]
  by_cases h13 : c.toNat = 0x85
  · have hc : c = Char.ofNat 0x85 := by
      have h0 := Char.ofNat_toNat c
      rw [h13] at h0
      exact h0.symm
    rw [if_pos h13, hc,
      show (['\\', 'N'] : List Char) ++ rest = '\\' :: 'N' :: rest from rfl,
      dqScan_bslash,
      dqUnesc_named 'N' rest (Char.ofNat 0x85) (by decide) (by decide) (by decide) rfl]
  rw [if_neg h13]
  by_cases h14 : c.toNat = 0xa0
  · have hc : c = Char.ofNat 0xa0 := by
      have h0 := Char.ofNat_toNat c
      rw [h14] at h0
      exact h0.symm
    rw [if_pos h14, hc,
      show (['\\', '_'] : List Char) ++ rest = '\\' :: '_' :: rest from rfl,
      dqScan_bslash,
      dqUnesc_named '_' rest (Char.ofNat 0xa0) (by decide) (by decide) (by decide) rfl]
  rw [if_neg h14]
  by_cases h15 : c.toNat = 0x2028
  · have hc : c = Char.ofNat 0x2028 := by
      have h0 := Char.ofNat_toNat c
      rw [h15] at h0
      exact h0.symm
    rw [if_pos h15, hc,
      show (['\\', 'L'] : List Char) ++ rest = '\\' :: 'L' :: rest from rfl,
      dqScan_bslash,
      dqUnesc_named 'L' rest (Char.ofNat 0x2028) (by decide) (by decide) (by decide) rfl]
  rw [if_neg h15]
  by_cases h16 : c.toNat = 0x2029
  · have hc : c = Char.ofNat 0x2029 := by
      have h0 := Char.ofNat_toNat c
      rw [h16] at h0
      exact h0.symm
    rw [if_pos h16, hc,
      show (['\\', 'P'] : List Char) ++ rest = '\\' :: 'P' :: rest from rfl,
      dqScan_bslash,
      dqUnesc_named 'P' rest (Char.ofNat 0x2029) (by decide) (by decide) (by decide) rfl]
  rw [if_neg h16]
  by_cases h17 : c.toNat < 0x100
  · rw [if_pos h17]
    rw [show (['\\', 'x', toHexU (c.toNat / 16), toHexU (c.toNat % 16)] ++ rest) =
      '\\' :: 'x' :: toHexU (c.toNat / 16) :: toHexU (c.toNat % 16) :: rest from rfl,
      dqScan_bslash,
      dqUnesc_hex2 _ _ rest (c.toNat / 16) (c.toNat % 16)
        (hexValCh_toHexU _ (by omega)) (hexValCh_toHexU _ (Nat.mod_lt _ (by omega)))]
    rw [show c.toNat / 16 * 16 + c.toNat % 16 = c.toNat from by omega,
      Char.ofNat_toNat]
  rw [if_neg h17]
  by_cases h18 : c.toNat < 0x10000
  · rw [if_pos h18]
    rw [show (['\\', 'u', toHexU (c.toNat / 4096 % 16), toHexU (c.toNat / 256 % 16),
        toHexU (c.toNat / 16 % 16), toHexU (c.toNat % 16)] ++ rest) =
      '\\' :: 'u' :: toHexU (c.toNat / 4096 % 16) :: toHexU (c.toNat / 256 % 16) ::
        toHexU (c.toNat / 16 % 16) :: toHexU (c.toNat % 16) :: rest from rfl,
      dqScan_bslash,
      dqUnesc_hex4 _ _ _ _ rest c.toNat (hexQuad_partsU c.toNat h18)
        (validScalarCp_toNat c), Char.ofNat_toNat]
  · rw [if_neg h18]
    have hdm : c.toNat / 0x10000 % 0x10000 * 0x10000 + c.toNat % 0x10000 =
        c.toNat := by
      have hv : c.toNat < 0x110000 := by
        rcases char_valid_nat c with h | h <;> omega
      omega
    rw [show (['\\', 'U', toHexU (c.toNat / 0x10000000 % 16),
        toHexU (c.toNat / 0x1000000 % 16), toHexU (c.toNat / 0x100000 % 16),
        toHexU (c.toNat / 0x10000 % 16), toHexU (c.toNat / 4096 % 16),
        toHexU (c.toNat / 256 % 16), toHexU (c.toNat / 16 % 16),
        toHexU (c.toNat % 16)] ++ rest) =
      '\\' :: 'U' :: toHexU (c.toNat / 0x10000000 % 16) ::
        toHexU (c.toNat / 0x1000000 % 16) :: toHexU (c.toNat / 0x100000 % 16) ::
        toHexU (c.toNat / 0x10000 % 16) :: toHexU (c.toNat / 4096 % 16) ::
        toHexU (c.toNat / 256 % 16) :: toHexU (c.toNat / 16 % 16) ::
        toHexU (c.toNat % 16) :: rest from rfl,
      dqScan_bslash,
      dqUnesc_hex8 _ _ _ _ _ _ _ _ rest (c.toNat / 0x10000 % 0x10000)
        (c.toNat % 0x10000) (hexQuad_partsU_hi c.toNat) (hexQuad_partsU_lo c.toNat)
        (by rw [hdm]; exact validScalarCp_toNat c)]
    rw [hdm, Char.ofNat_toNat]

theorem dqScan_flat (cs : List Char) : ∀ (fuel : Nat) (acc rest : List Char),
    cs.length < fuel →
    dqScan fuel acc (cs.flatMap yamlDqEscChar ++ '"' :: rest) =
      some (⟨acc.reverse ++ cs⟩, rest) := by
  induction cs with
  | nil =>
      intro fuel acc rest hf
      match fuel, hf with
      | fuel + 1, _ =>
          simp only [List.flatMap_nil, List.nil_append]
          rw [dqScan_quote]
          simp
  | cons c cs ih =>
      intro fuel acc rest hf
      match fuel, hf with
      | fuel + 1, hf =>
          rw [List.flatMap_cons, List.append_assoc, dqScan_esc_step,
            ih fuel (c :: acc) rest (by simpa using Nat.lt_of_succ_lt_succ hf)]
          simp

/-- Every double-quote escape produces at least one character. -/
theorem yamlDqEscChar_len_pos (c : Char) : 1 ≤ (yamlDqEscChar c).length := by
  have hP : ∀ (p : Prop) (inst : Decidable p) (x y : List Char),
      1 ≤ x.length → 1 ≤ y.length → 1 ≤ (@ite _ p inst x y).length := by
    intro p inst x y hx hy
    by_cases h : p
    · rw [if_pos h]; exact hx
    · rw [if_neg h]; exact hy
  unfold yamlDqEscChar
  repeat' apply hP
  all_goals simp

theorem flatMap_dqEsc_len (cs : List Char) :
    cs.length ≤ (cs.flatMap yamlDqEscChar).length := by
  induction cs with
  | nil => simp
  | cons c cs ih =>
      rw [List.flatMap_cons, List.length_append, List.length_cons]
      have := yamlDqEscChar_len_pos c
      omega

/-- The double-quoted scan at the caller's own fuel. -/
theorem dqScan_strChars (s : String) (rest : List Char) :
    dqScan ((s.data.flatMap yamlDqEscChar ++ '"' :: rest).length + 1) []
      (s.data.flatMap yamlDqEscChar ++ '"' :: rest) = some (s, rest) := by
  have hlen : s.data.length <
      (s.data.flatMap yamlDqEscChar ++ '"' :: rest).length + 1 := by
    rw [List.length_append]
    have := flatMap_dqEsc_len s.data
    omega
  rw [dqScan_flat s.data _ [] rest hlen]
  simp

/-! ### resolvePlain on rendered integers -/

theorem intChars_shape (n : Int) :
    ∃ c0 t0, intChars n = c0 :: t0 ∧
      ((¬ n < 0 ∧ intChars n = natDigs n.natAbs [] ∧ isDigitCh c0 = true) ∨
       (n < 0 ∧ intChars n = '-' :: natDigs n.natAbs [])) := by
  obtain ⟨c, t, hm, hd⟩ := natDigs_head n.natAbs
  by_cases hn : n < 0
  · exact ⟨'-', natDigs n.natAbs [], by simp [intChars, hn],
      Or.inr ⟨hn, by simp [intChars, hn]⟩⟩
  · exact ⟨c, t, by simp [intChars, hn, hm], Or.inl ⟨hn, by simp [intChars, hn], hd⟩⟩

theorem resolvePlain_intChars (n : Int) :
    resolvePlain ⟨intChars n⟩ = some (.pyInt n) := by
  obtain ⟨c0, t0, hm, hcase⟩ := intChars_shape n
  have hhead : isDigitCh c0 = true ∨ c0 = '-' := by
    rcases hcase with ⟨_, _, hd⟩ | ⟨_, hneg⟩
    · exact Or.inl hd
    · rw [hm] at hneg
      injection hneg with h1 _
      exact Or.inr h1
  have hword : ∀ (w : String) (w0 : Char) (ws : List Char), w.data = w0 :: ws →
      isDigitCh w0 = false → ¬ w0 = '-' → ¬ (⟨intChars n⟩ : String) = w := by
    intro w w0 ws hwdata hw0 hwm he
    have hdata : intChars n = w.data := congrArg String.data he
    rw [hm, hwdata] at hdata
    injection hdata with hh _
    rcases hhead with hd | hd
    · rw [hh] at hd
      rw [hd] at hw0
      cases hw0
    · rw [hd] at hh
      exact hwm hh.symm
  have hempty : ¬ (⟨intChars n⟩ : String) = "" := by
    intro he
    have hdata : intChars n = "".data := congrArg String.data he
    rw [hm] at hdata
    exact absurd hdata (by simp)
  have h1 : nullWords.contains (⟨intChars n⟩ : String) = false := by
    simp only [nullWords, List.contains_cons, List.contains_nil,
      Bool.or_eq_false_iff]
    refine ⟨?_, ?_, ?_, ?_, ?_, trivial⟩ <;> rw [beq_eq_false_iff_ne]
    · exact hempty
    · exact hword "~" '~' [] rfl (by decide) (by decide)
    · exact hword "null" 'n' _ rfl (by decide) (by decide)
    · exact hword "Null" 'N' _ rfl (by decide) (by decide)
    · exact hword "NULL" 'N' _ rfl (by decide) (by decide)
  have h2 : trueWords.contains (⟨intChars n⟩ : String) = false := by
    simp only [trueWords, List.contains_cons, List.contains_nil,
      Bool.or_eq_false_iff]
    refine ⟨?_, ?_, ?_, ?_, ?_, ?_, ?_, ?_, ?_, trivial⟩ <;> rw [beq_eq_false_iff_ne]
    · exact hword "yes" 'y' _ rfl (by decide) (by decide)
    · exact hword "Yes" 'Y' _ rfl (by decide) (by decide)
    · exact hword "YES" 'Y' _ rfl (by decide) (by decide)
    · exact hword "true" 't' _ rfl (by decide) (by decide)
    · exact hword "True" 'T' _ rfl (by decide) (by decide)
    · exact hword "TRUE" 'T' _ rfl (by decide) (by decide)
    · exact hword "on" 'o' _ rfl (by decide) (by decide)
    · exact hword "On" 'O' _ rfl (by decide) (by decide)
    · exact hword "ON" 'O' _ rfl (by decide) (by decide)
  have h3 : falseWords.contains (⟨intChars n⟩ : String) = false := by
    simp only [falseWords, List.contains_cons, List.contains_nil,
      Bool.or_eq_false_iff]
    refine ⟨?_, ?_, ?_, ?_, ?_, ?_, ?_, ?_, ?_, trivial⟩ <;> rw [beq_eq_false_iff_ne]
    · exact hword "no" 'n' _ rfl (by decide) (by decide)
    · exact hword "No" 'N' _ rfl (by decide) (by decide)
    · exact hword "NO" 'N' _ rfl (by decide) (by decide)
    · exact hword "false" 'f' _ rfl (by decide) (by decide)
    · exact hword "False" 'F' _ rfl (by decide) (by decide)
    · exact hword "FALSE" 'F' _ rfl (by decide) (by decide)
    · exact hword "off" 'o' _ rfl (by decide) (by decide)
    · exact hword "Off" 'O' _ rfl (by decide) (by decide)
    · exact hword "OFF" 'O' _ rfl (by decide) (by decide)
  have hdrop : dropSign (intChars n) = natDigs n.natAbs [] := by
    rcases hcase with ⟨hn, hi, hd⟩ | ⟨hn, hi⟩
    · rw [hi]
      obtain ⟨c, t, hm2, hd2⟩ := natDigs_head n.natAbs
      rw [hm2]
      have hcp : ¬ c = '+' := fun he => by rw [he] at hd2; cases hd2
      have hcm : ¬ c = '-' := fun he => by rw [he] at hd2; cases hd2
      rw [dropSign.eq_def]
      split <;> simp_all
    · rw [hi]
      rfl
  have halldig : (natDigs n.natAbs []).all isDigitCh = true := by
    rw [List.all_eq_true]
    exact natDigs_digits n.natAbs
  have hne : (natDigs n.natAbs []).isEmpty = false := by
    obtain ⟨c, t, hm2, _⟩ := natDigs_head n.natAbs
    rw [hm2]
    rfl
  show resolvePlain ⟨intChars n⟩ = some (.pyInt n)
  rw [resolvePlain]
  simp only [h1, h2, h3]
  rw [if_neg (by simp), if_neg (by simp), if_neg (by simp)]
  rw [hdrop, hne, halldig]
  rw [if_pos (by simp)]
  rw [digsToNat_natDigs]
  rcases hcase with ⟨hn, hi, hd⟩ | ⟨hn, hi⟩
  · have hc0m : ((intChars n).head? == some '-') = false := by
      rw [hm]
      have : ¬ c0 = '-' := fun he => by rw [he] at hd; cases hd
      simpa using this
    rw [hc0m]
    simp only [Bool.false_eq_true, if_false]
    have : (n.natAbs : Int) = n := by omega
    rw [this]
  · have hc0m : ((intChars n).head? == some '-') = true := by
      rw [hi]
      rfl
    rw [hc0m]
    simp only [if_true]
    have : -(n.natAbs : Int) = n := by omega
    rw [this]

/-! ### plainOk extraction -/

theorem plainOk_facts (s : String) (h : plainOk s = true) :
    ∃ c t, s.data = c :: t ∧ yamlIndicator c = false ∧ ¬ c = ' ' ∧
      s.data.all plainChOk = true ∧ noColonSpace s.data = true ∧
      noSpaceHash s.data = true ∧ resolvePlain s = some (.pyStr s) := by
  unfold plainOk at h
  cases hd : s.data with
  | nil => rw [hd] at h; cases h
  | cons c t =>
      rw [hd] at h
      simp only [Bool.and_eq_true] at h
      obtain ⟨⟨⟨⟨⟨⟨h1, h2⟩, h3⟩, h4⟩, h5⟩, h6⟩, h7⟩ := h
      refine ⟨c, t, rfl, ?_, ?_, ?_, ?_, ?_, ?_⟩
      · simpa using h1
      · simpa using h2
      · exact h3
      · exact h5
      · exact h6
      · cases hres : resolvePlain s with
        | none => rw [hres] at h7; cases h7
        | some v =>
            cases v with
            | pyStr t2 =>
                rw [hres] at h7
                simp only at h7
                have : t2 = s := by simpa using h7
                rw [this]
            | pyNone => rw [hres] at h7; cases h7
            | pyBool b => rw [hres] at h7; cases h7
            | pyInt n2 => rw [hres] at h7; cases h7
            | pyList xs => rw [hres] at h7; cases h7
            | pyDict kvs => rw [hres] at h7; cases h7

/-! ### parseFlatToken on emitted inline tokens -/

theorem parseFlatToken_plainBody (c : Char) (t : List Char)
    (hq1 : ¬ c = '\'') (hq2 : ¬ c = '"') (hq3 : ¬ c = '[') (hq4 : ¬ c = '\x7b') :
    parseFlatToken (c :: t) = resolvePlain ⟨c :: t⟩ := by
  rw [parseFlatToken.eq_def]
  split <;> simp_all

theorem indicator_facts (c : Char) (hind : yamlIndicator c = false) :
    ¬ c = '\'' ∧ ¬ c = '"' ∧ ¬ c = '[' ∧ ¬ c = '\x7b' ∧ ¬ c = '-' ∧ ¬ c = '#' := by
  refine ⟨?_, ?_, ?_, ?_, ?_, ?_⟩ <;>
    (intro he; rw [he] at hind; exact absurd hind (by decide))

theorem parseFlatToken_strToken (s : String) :
    parseFlatToken (yamlStrToken s) = some (.pyStr s) := by
  unfold yamlStrToken
  by_cases hp : plainOk s = true
  · rw [if_pos hp]
    obtain ⟨c, t, hd, hind, _, _, _, _, hres⟩ := plainOk_facts s hp
    obtain ⟨hq1, hq2, hq3, hq4, _, _⟩ := indicator_facts c hind
    rw [hd, parseFlatToken_plainBody c t hq1 hq2 hq3 hq4, ← hd]
    exact hres
  · rw [if_neg hp]
    by_cases hall : s.data.all plainChOk = true
    · rw [if_pos hall]
      have hstep : ∀ r, parseFlatToken ('\'' :: r) =
          (match sqScan [] r with
           | some (s0, []) => some (.pyStr s0)
           | _ => none) := fun r => rfl
      rw [hstep, sqScan_esc s.data [] [] (by simp)]
      simp
    · rw [if_neg hall]
      have hstep : ∀ r, parseFlatToken ('"' :: r) =
          (match dqScan (r.length + 1) [] r with
           | some (s0, []) => some (.pyStr s0)
           | _ => none) := fun r => rfl
      rw [hstep]
      rw [show (s.data.flatMap yamlDqEscChar ++ ['"'] : List Char) =
        s.data.flatMap yamlDqEscChar ++ '"' :: [] from rfl]
      rw [dqScan_strChars s []]

theorem digit_flat_facts (c : Char) (hd : isDigitCh c = true) :
    ¬ c = '\'' ∧ ¬ c = '"' ∧ ¬ c = '[' ∧ ¬ c = '\x7b' := by
  refine ⟨?_, ?_, ?_, ?_⟩ <;>
    (intro he; rw [he] at hd; exact absurd hd (by decide))

theorem parseFlatToken_scalar (v : PyVal) (hf : isFlatVal v = true) :
    parseFlatToken (yamlScalarToken v) = some v := by
  cases v with
  | pyNone => rfl
  | pyBool b => cases b <;> rfl
  | pyInt n =>
      show parseFlatToken (intChars n) = some (.pyInt n)
      obtain ⟨c0, t0, hm, hcase⟩ := intChars_shape n
      have hqs : ¬ c0 = '\'' ∧ ¬ c0 = '"' ∧ ¬ c0 = '[' ∧ ¬ c0 = '\x7b' := by
        rcases hcase with ⟨_, _, hd⟩ | ⟨_, hneg⟩
        · exact digit_flat_facts c0 hd
        · rw [hm] at hneg
          injection hneg with h1 _
          rw [h1]
          exact ⟨by decide, by decide, by decide, by decide⟩
      obtain ⟨hq1, hq2, hq3, hq4⟩ := hqs
      rw [hm, parseFlatToken_plainBody c0 t0 hq1 hq2 hq3 hq4, ← hm]
      exact resolvePlain_intChars n
  | pyStr s => exact parseFlatToken_strToken s
  | pyList xs =>
      cases xs with
      | nil => rfl
      | cons x xs => simp [isFlatVal] at hf
  | pyDict kvs =>
      cases kvs with
      | nil => rfl
      | cons p kvs => simp [isFlatVal] at hf

/-! ### splitKey on emitted key tokens -/

theorem splitKey_plain (c : Char) (t : List Char) (hq1 : ¬ c = '\'') (hq2 : ¬ c = '"') :
    splitKey (c :: t) =
      (match plainKeySplit [] (c :: t) with
       | some (raw, tail) =>
           (match resolvePlain raw with
            | some (.pyStr k) => some (k, tail)
            | _ => none)
       | none => none) := by
  rw [splitKey.eq_def]
  split <;> simp_all

theorem splitKey_sq (r : List Char) :
    splitKey ('\'' :: r) =
      (match sqScan [] r with
       | some (s, rest) =>
           (match afterKeyColon rest with
            | some tail => some (s, tail)
            | none => none)
       | none => none) := rfl

theorem splitKey_dq (r : List Char) :
    splitKey ('"' :: r) =
      (match dqScan (r.length + 1) [] r with
       | some (s, rest) =>
           (match afterKeyColon rest with
            | some tail => some (s, tail)
            | none => none)
       | none => none) := rfl

theorem splitKey_token (k : String) :
    (∀ v, splitKey (yamlStrToken k ++ ':' :: ' ' :: v) = some (k, some v)) ∧
    splitKey (yamlStrToken k ++ [':']) = some (k, none) := by
  unfold yamlStrToken
  by_cases hp : plainOk k = true
  · rw [if_pos hp]
    obtain ⟨c, t, hd, hind, _, _, hncs, _, hres⟩ := plainOk_facts k hp
    obtain ⟨hq1, hq2, _, _, _, _⟩ := indicator_facts c hind
    have hgo := plainKeySplit_go k.data hncs []
    constructor
    · intro v
      rw [hd, List.cons_append, splitKey_plain c (t ++ ':' :: ' ' :: v) hq1 hq2,
        ← List.cons_append, ← hd, hgo.1 v]
      simp only [List.reverse_nil, List.nil_append]
      rw [show (⟨k.data⟩ : String) = k from rfl, hres]
    · rw [hd, List.cons_append, splitKey_plain c (t ++ [':']) hq1 hq2,
        ← List.cons_append, ← hd, hgo.2.1]
      simp only [List.reverse_nil, List.nil_append]
      rw [show (⟨k.data⟩ : String) = k from rfl, hres]
  · rw [if_neg hp]
    by_cases hall : k.data.all plainChOk = true
    · rw [if_pos hall]
      constructor
      · intro v
        rw [show ('\'' :: (sqEscBody k.data ++ ['\''])) ++ ':' :: ' ' :: v =
          '\'' :: (sqEscBody k.data ++ '\'' :: (':' :: ' ' :: v)) from by simp]
        rw [splitKey_sq, sqScan_esc k.data [] (':' :: ' ' :: v) (by simp)]
        simp [show afterKeyColon (':' :: ' ' :: v) = some (some v) from rfl]
      · rw [show ('\'' :: (sqEscBody k.data ++ ['\''])) ++ [':'] =
          '\'' :: (sqEscBody k.data ++ '\'' :: [':']) from by simp]
        rw [splitKey_sq, sqScan_esc k.data [] [':'] (by simp)]
        simp [show afterKeyColon [':'] = some none from rfl]
    · rw [if_neg hall]
      constructor
      · intro v
        rw [show ('"' :: (k.data.flatMap yamlDqEscChar ++ ['"'])) ++ ':' :: ' ' :: v =
          '"' :: (k.data.flatMap yamlDqEscChar ++ '"' :: (':' :: ' ' :: v)) from by simp]
        rw [splitKey_dq, dqScan_strChars k (':' :: ' ' :: v)]
        simp [show afterKeyColon (':' :: ' ' :: v) = some (some v) from rfl]
      · rw [show ('"' :: (k.data.flatMap yamlDqEscChar ++ ['"'])) ++ [':'] =
          '"' :: (k.data.flatMap yamlDqEscChar ++ '"' :: [':']) from by simp]
        rw [splitKey_dq, dqScan_strChars k [':']]
        simp [show afterKeyColon [':'] = some none from rfl]

/-! ### Token shape facts -/

theorem yamlStrToken_shape (k : String) :
    ∃ c t, yamlStrToken k = c :: t ∧ ¬ c = ' ' ∧ ¬ c = '-' := by
  unfold yamlStrToken
  by_cases hp : plainOk k = true
  · rw [if_pos hp]
    obtain ⟨c, t, hd, hind, hsp, _⟩ := plainOk_facts k hp
    obtain ⟨_, _, _, _, hdash, _⟩ := indicator_facts c hind
    exact ⟨c, t, hd, hsp, hdash⟩
  · rw [if_neg hp]
    by_cases hall : k.data.all plainChOk = true
    · rw [if_pos hall]
      exact ⟨'\'', _, rfl, by decide, by decide⟩
    · rw [if_neg hall]
      exact ⟨'"', _, rfl, by decide, by decide⟩

theorem yamlScalarToken_head (v : PyVal) :
    ∃ c t, yamlScalarToken v = c :: t ∧ ¬ c = ' ' := by
  cases v with
  | pyNone => exact ⟨'n', _, rfl, by decide⟩
  | pyBool b =>
      cases b
      · exact ⟨'f', _, rfl, by decide⟩
      · exact ⟨'t', _, rfl, by decide⟩
  | pyInt n =>
      obtain ⟨c0, t0, hm, hcase⟩ := intChars_shape n
      refine ⟨c0, t0, hm, ?_⟩
      rcases hcase with ⟨_, _, hd⟩ | ⟨_, hneg⟩
      · intro he; rw [he] at hd; exact absurd hd (by decide)
      · rw [hm] at hneg
        injection hneg with h1 _
        rw [h1]
        decide
  | pyStr s =>
      obtain ⟨c, t, hm, hsp, _⟩ := yamlStrToken_shape s
      exact ⟨c, t, hm, hsp⟩
  | pyList xs => exact ⟨'[', _, rfl, by decide⟩
  | pyDict kvs => exact ⟨'\x7b', _, rfl, by decide⟩

/-! ### Emitted characters are printable (so lines contain no newline) -/

theorem toHexU_printable (m : Nat) (h : m < 16) :
    0x20 ≤ (toHexU m).toNat ∧ (toHexU m).toNat ≤ 0x7e := by
  interval_cases m <;> exact ⟨by decide, by decide⟩

theorem yamlDqEscChar_printable (c : Char) :
    ∀ a ∈ yamlDqEscChar c, 0x20 ≤ a.toNat ∧ a.toNat ≤ 0x7e := by
  have hP0 : ∀ (p : Prop) (inst : Decidable p) (x y : List Char),
      (∀ a ∈ x, 0x20 ≤ a.toNat ∧ a.toNat ≤ 0x7e) →
      (∀ a ∈ y, 0x20 ≤ a.toNat ∧ a.toNat ≤ 0x7e) →
      ∀ a ∈ @ite _ p inst x y, 0x20 ≤ a.toNat ∧ a.toNat ≤ 0x7e := by
    intro p inst x y hx hy
    by_cases h : p
    · rw [if_pos h]; exact hx
    · rw [if_neg h]; exact hy
  unfold yamlDqEscChar
  by_cases hpr : (0x20 ≤ c.toNat && c.toNat ≤ 0x7e) = true
  · by_cases hx100 : c.toNat < 0x100
    · repeat' apply hP0
      all_goals intro a ha
      all_goals
        first
          | (simp only [List.mem_singleton] at ha
             subst ha
             simpa using hpr)
          | (fin_cases ha <;>
              first
                | exact ⟨by decide, by decide⟩
                | exact toHexU_printable _ (by omega))
    · rw [if_neg hx100]
      repeat' apply hP0
      all_goals intro a ha
      all_goals
        first
          | (simp only [List.mem_singleton] at ha
             subst ha
             simpa using hpr)
          | (fin_cases ha <;>
              first
                | exact ⟨by decide, by decide⟩
                | exact toHexU_printable _ (by omega))
  · by_cases hx100 : c.toNat < 0x100
    · rw [if_neg hpr]
      repeat' apply hP0
      all_goals intro a ha
      all_goals
        fin_cases ha <;>
          first
            | exact ⟨by decide, by decide⟩
            | exact toHexU_printable _ (by omega)
    · rw [if_neg hpr, if_neg hx100]
      repeat' apply hP0
      all_goals intro a ha
      all_goals
        fin_cases ha <;>
          first
            | exact ⟨by decide, by decide⟩
            | exact toHexU_printable _ (by omega)

/-! ### Tokens contain no newline and are nonempty -/

theorem yamlStrToken_no_nl (k : String) : '\n' ∉ yamlStrToken k := by
  unfold yamlStrToken
  by_cases hp : plainOk k = true
  · rw [if_pos hp]
    obtain ⟨_, _, _, _, _, hall, _, _, _⟩ := plainOk_facts k hp
    intro hmem
    have := List.all_eq_true.mp hall _ hmem
    exact absurd this (by decide)
  · rw [if_neg hp]
    by_cases hall : k.data.all plainChOk = true
    · rw [if_pos hall]
      intro hmem
      simp only [List.mem_cons, List.mem_append, List.mem_singleton] at hmem
      rcases hmem with h1 | h2 | h3
      · exact absurd h1 (by decide)
      · unfold sqEscBody at h2
        rw [List.mem_flatMap] at h2
        obtain ⟨c, hc, hmem2⟩ := h2
        have hcp := List.all_eq_true.mp hall c hc
        by_cases hq : (c == '\'') = true
        · rw [if_pos hq] at hmem2
          simp only [List.mem_cons, List.not_mem_nil, or_false] at hmem2
          have hce : c = '\'' := by simpa using hq
          rcases hmem2 with he | he <;>
            (rw [hce] at he; exact absurd he (by decide))
        · rw [if_neg hq] at hmem2
          simp only [List.mem_singleton] at hmem2
          rw [← hmem2] at hcp
          exact absurd hcp (by decide)
      · exact absurd h3 (by decide)
    · rw [if_neg hall]
      intro hmem
      simp only [List.mem_cons, List.mem_append, List.mem_singleton] at hmem
      rcases hmem with h1 | h2 | h3
      · exact absurd h1 (by decide)
      · rw [List.mem_flatMap] at h2
        obtain ⟨c, _, hmem2⟩ := h2
        have hpr := yamlDqEscChar_printable c _ hmem2
        have : ('\n').toNat = 10 := by decide
        omega
      · exact absurd h3 (by decide)

theorem yamlScalarToken_no_nl (v : PyVal) : '\n' ∉ yamlScalarToken v := by
  cases v with
  | pyNone => decide
  | pyBool b => cases b <;> decide
  | pyInt n =>
      show '\n' ∉ intChars n
      unfold intChars
      intro hmem
      rw [List.mem_append] at hmem
      rcases hmem with h1 | h2
      · by_cases hn : n < 0
        · rw [if_pos hn] at h1
          simp only [List.mem_singleton] at h1
          exact absurd h1 (by decide)
        · rw [if_neg hn] at h1
          cases h1
      · have := natDigs_digits n.natAbs _ h2
        exact absurd this (by decide)
  | pyStr s => exact yamlStrToken_no_nl s
  | pyList xs =>
      show '\n' ∉ (['[', ']'] : List Char)
      decide
  | pyDict kvs =>
      show '\n' ∉ (['\x7b', '\x7d'] : List Char)
      decide

theorem yamlStrToken_len_pos (k : String) : 1 ≤ (yamlStrToken k).length := by
  obtain ⟨c, t, hm, _, _⟩ := yamlStrToken_shape k
  rw [hm]
  simp

theorem yamlScalarToken_len_pos (v : PyVal) : 1 ≤ (yamlScalarToken v).length := by
  obtain ⟨c, t, hm, _⟩ := yamlScalarToken_head v
  rw [hm]
  simp

/-! ### Line indentation -/

theorem takeWhile_spaces (ind : Nat) (c : Char) (t : List Char) (hc : ¬ c = ' ') :
    (spaces ind ++ c :: t).takeWhile (fun x => x == ' ') = spaces ind := by
  induction ind with
  | zero =>
      simp only [spaces, List.replicate_zero, List.nil_append]
      rw [List.takeWhile_cons_of_neg (by simpa using hc)]
  | succ n ih =>
      simp only [spaces, List.replicate_succ, List.cons_append]
      rw [List.takeWhile_cons_of_pos (by simp)]
      rw [show (List.replicate n ' ' : List Char) ++ c :: t = spaces n ++ c :: t
        from rfl, ih]
      rfl

theorem lineIndent_spaces (ind : Nat) (c : Char) (t : List Char) (hc : ¬ c = ' ') :
    lineIndent ⟨spaces ind ++ c :: t⟩ = ind := by
  unfold lineIndent
  rw [show ((⟨spaces ind ++ c :: t⟩ : String)).data = spaces ind ++ c :: t from rfl]
  rw [takeWhile_spaces ind c t hc]
  simp [spaces]

theorem stripInd_spaces (ind : Nat) (c : Char) (t : List Char) (hc : ¬ c = ' ') :
    stripInd ⟨spaces ind ++ c :: t⟩ ind = some (c :: t) := by
  unfold stripInd
  rw [lineIndent_spaces ind c t hc]
  rw [if_pos (by simp)]
  rw [show ((⟨spaces ind ++ c :: t⟩ : String)).data = spaces ind ++ c :: t from rfl]
  rw [List.drop_left' (show (spaces ind).length = ind from by simp [spaces])]

theorem stripInd_dedent (l : String) (ind : Nat) (h : ¬ lineIndent l = ind) :
    stripInd l ind = none := by
  unfold stripInd
  rw [if_neg (by simpa using h)]

/-! ### Shapes of emitted block lines -/

theorem dashFuse_first (ind : Nat) (body : List Char) (tail : List String) :
    yamlDashFuse ind ((⟨spaces (ind + 4) ++ body⟩ : String) :: tail) =
      (⟨spaces ind ++ '-' :: ' ' :: ' ' :: ' ' :: body⟩ : String) :: tail := by
  unfold yamlDashFuse
  have hdrop : List.drop (ind + 1) (spaces (ind + 4) ++ body) =
      ' ' :: ' ' :: ' ' :: body := by
    have hsp : spaces (ind + 4) = spaces (ind + 1) ++ [' ', ' ', ' '] := by
      show List.replicate (ind + 4) ' ' = List.replicate (ind + 1) ' ' ++ [' ', ' ', ' ']
      rw [show ind + 4 = (ind + 1) + 3 from by omega, List.replicate_add]
      rfl
    rw [hsp, List.append_assoc,
      List.drop_left' (show (spaces (ind + 1)).length = ind + 1 from by simp [spaces])]
    rfl
  simp [hdrop]

mutual

theorem yamlMapLines_shape : ∀ (ind : Nat) (k : String) (v : PyVal)
    (kvs : List (String × PyVal)),
    ∃ c t tail, yamlMapLines ind ((k, v) :: kvs) =
      (⟨spaces ind ++ c :: t⟩ : String) :: tail ∧ ¬ c = ' ' ∧ ¬ c = '-'
  | ind, k, v, kvs => by
      obtain ⟨c, t, hm, hsp, hdash⟩ := yamlStrToken_shape k
      cases v with
      | pyNone =>
          refine ⟨c, t ++ ':' :: ' ' :: ['n', 'u', 'l', 'l'],
            yamlMapLines ind kvs, ?_, hsp, hdash⟩
          simp [yamlMapLines, isFlatVal, yamlScalarToken, hm]
      | pyBool b =>
          refine ⟨c, t ++ ':' :: ' ' :: yamlScalarToken (.pyBool b),
            yamlMapLines ind kvs, ?_, hsp, hdash⟩
          simp [yamlMapLines, isFlatVal, hm]
      | pyInt n =>
          refine ⟨c, t ++ ':' :: ' ' :: intChars n,
            yamlMapLines ind kvs, ?_, hsp, hdash⟩
          simp [yamlMapLines, isFlatVal, yamlScalarToken, hm]
      | pyStr s =>
          refine ⟨c, t ++ ':' :: ' ' :: yamlStrToken s,
            yamlMapLines ind kvs, ?_, hsp, hdash⟩
          simp [yamlMapLines, isFlatVal, yamlScalarToken, hm]
      | pyList xs =>
          cases xs with
          | nil =>
              refine ⟨c, t ++ ':' :: ' ' :: ['[', ']'],
                yamlMapLines ind kvs, ?_, hsp, hdash⟩
              simp [yamlMapLines, isFlatVal, yamlScalarToken, hm]
          | cons y ys =>
              refine ⟨c, t ++ [':'],
                yamlSeqLines ind (y :: ys) ++ yamlMapLines ind kvs, ?_, hsp, hdash⟩
              simp [yamlMapLines, isFlatVal, hm]
      | pyDict kvs2 =>
          cases kvs2 with
          | nil =>
              refine ⟨c, t ++ ':' :: ' ' :: ['\x7b', '\x7d'],
                yamlMapLines ind kvs, ?_, hsp, hdash⟩
              simp [yamlMapLines, isFlatVal, yamlScalarToken, hm]
          | cons p rest2 =>
              refine ⟨c, t ++ [':'],
                yamlMapLines (ind + 4) (p :: rest2) ++ yamlMapLines ind kvs,
                ?_, hsp, hdash⟩
              simp [yamlMapLines, isFlatVal, hm]

theorem yamlSeqLines_shape : ∀ (ind : Nat) (x : PyVal) (xs : List PyVal),
    ∃ t2 tail, yamlSeqLines ind (x :: xs) =
      (⟨spaces ind ++ '-' :: ' ' :: t2⟩ : String) :: tail
  | ind, x, xs => by
      cases x with
      | pyNone =>
          exact ⟨['n', 'u', 'l', 'l'], yamlSeqLines ind xs,
            by simp [yamlSeqLines, isFlatVal, yamlScalarToken]⟩
      | pyBool b =>
          exact ⟨yamlScalarToken (.pyBool b), yamlSeqLines ind xs,
            by simp [yamlSeqLines, isFlatVal]⟩
      | pyInt n =>
          exact ⟨intChars n, yamlSeqLines ind xs,
            by simp [yamlSeqLines, isFlatVal, yamlScalarToken]⟩
      | pyStr s =>
          exact ⟨yamlStrToken s, yamlSeqLines ind xs,
            by simp [yamlSeqLines, isFlatVal, yamlScalarToken]⟩
      | pyList xs2 =>
          cases xs2 with
          | nil =>
              exact ⟨['[', ']'], yamlSeqLines ind xs,
                by simp [yamlSeqLines, isFlatVal, yamlScalarToken]⟩
          | cons y ys =>
              obtain ⟨t2, tail, hm⟩ := yamlSeqLines_shape (ind + 4) y ys
              refine ⟨' ' :: ' ' :: '-' :: ' ' :: t2, tail ++ yamlSeqLines ind xs, ?_⟩
              simp only [yamlSeqLines, isFlatVal, List.isEmpty_cons, if_false,
                Bool.false_eq_true]
              rw [hm, dashFuse_first ind ('-' :: ' ' :: t2) tail]
              simp
      | pyDict kvs =>
          cases kvs with
          | nil =>
              exact ⟨['\x7b', '\x7d'], yamlSeqLines ind xs,
                by simp [yamlSeqLines, isFlatVal, yamlScalarToken]⟩
          | cons p rest2 =>
              obtain ⟨k2, v2⟩ := p
              obtain ⟨c, t, tail, hm, _, _⟩ := yamlMapLines_shape (ind + 4) k2 v2 rest2
              refine ⟨' ' :: ' ' :: c :: t, tail ++ yamlSeqLines ind xs, ?_⟩
              simp only [yamlSeqLines, isFlatVal, List.isEmpty_cons, if_false,
                Bool.false_eq_true]
              rw [hm, dashFuse_first ind (c :: t) tail]
              simp

end

/-! ### Emitted lines are nonempty and newline-free -/

theorem flatline_sane (ind : Nat) (k : String) (v : PyVal) :
    ((⟨spaces ind ++ yamlStrToken k ++ ':' :: ' ' :: yamlScalarToken v⟩ : String)).data ≠ [] ∧
    '\n' ∉ ((⟨spaces ind ++ yamlStrToken k ++ ':' :: ' ' :: yamlScalarToken v⟩ : String)).data := by
  constructor
  · simp
  · show '\n' ∉ spaces ind ++ yamlStrToken k ++ ':' :: ' ' :: yamlScalarToken v
    intro h
    simp only [List.mem_append, List.mem_cons] at h
    rcases h with (h | h) | h | h | h
    · exact absurd (List.eq_of_mem_replicate h) (by decide)
    · exact yamlStrToken_no_nl k h
    · exact absurd h (by decide)
    · exact absurd h (by decide)
    · exact yamlScalarToken_no_nl v h

theorem keyline_sane (ind : Nat) (k : String) :
    ((⟨spaces ind ++ yamlStrToken k ++ [':']⟩ : String)).data ≠ [] ∧
    '\n' ∉ ((⟨spaces ind ++ yamlStrToken k ++ [':']⟩ : String)).data := by
  constructor
  · simp
  · show '\n' ∉ spaces ind ++ yamlStrToken k ++ [':']
    intro h
    simp only [List.mem_append, List.mem_singleton] at h
    rcases h with (h | h) | h
    · exact absurd (List.eq_of_mem_replicate h) (by decide)
    · exact yamlStrToken_no_nl k h
    · exact absurd h (by decide)

theorem dashline_sane (ind : Nat) (v : PyVal) :
    ((⟨spaces ind ++ '-' :: ' ' :: yamlScalarToken v⟩ : String)).data ≠ [] ∧
    '\n' ∉ ((⟨spaces ind ++ '-' :: ' ' :: yamlScalarToken v⟩ : String)).data := by
  constructor
  · simp
  · show '\n' ∉ spaces ind ++ '-' :: ' ' :: yamlScalarToken v
    intro h
    simp only [List.mem_append, List.mem_cons] at h
    rcases h with h | h | h | h
    · exact absurd (List.eq_of_mem_replicate h) (by decide)
    · exact absurd h (by decide)
    · exact absurd h (by decide)
    · exact yamlScalarToken_no_nl v h

theorem dashFuse_sane (ind : Nat) (ls : List String)
    (hs : ∀ l ∈ ls, l.data ≠ [] ∧ '\n' ∉ l.data) :
    ∀ l ∈ yamlDashFuse ind ls, l.data ≠ [] ∧ '\n' ∉ l.data := by
  cases ls with
  | nil => intro l h; simp [yamlDashFuse] at h
  | cons l0 rest =>
      intro l h
      simp only [yamlDashFuse, List.mem_cons] at h
      rcases h with he | hr
      · subst he
        constructor
        · simp
        · show '\n' ∉ spaces ind ++ '-' :: l0.data.drop (ind + 1)
          intro hm
          simp only [List.mem_append, List.mem_cons] at hm
          rcases hm with hm | hm | hm
          · exact absurd (List.eq_of_mem_replicate hm) (by decide)
          · exact absurd hm (by decide)
          · exact (hs l0 (List.mem_cons_self _ _)).2 (List.mem_of_mem_drop hm)
      · exact hs l (List.mem_cons_of_mem _ hr)

mutual

theorem yamlMapLines_sane : ∀ (ind : Nat) (kvs : List (String × PyVal)) (l : String),
    l ∈ yamlMapLines ind kvs → l.data ≠ [] ∧ '\n' ∉ l.data
  | ind, [], l, h => by simp [yamlMapLines] at h
  | ind, (k, v) :: kvs, l, h => by
      cases v with
      | pyNone =>
          simp only [yamlMapLines, isFlatVal, if_true, List.singleton_append,
            List.mem_cons] at h
          rcases h with he | hr
          · subst he; exact flatline_sane ind k .pyNone
          · exact yamlMapLines_sane ind kvs l hr
      | pyBool b =>
          simp only [yamlMapLines, isFlatVal, if_true, List.singleton_append,
            List.mem_cons] at h
          rcases h with he | hr
          · subst he; exact flatline_sane ind k (.pyBool b)
          · exact yamlMapLines_sane ind kvs l hr
      | pyInt n =>
          simp only [yamlMapLines, isFlatVal, if_true, List.singleton_append,
            List.mem_cons] at h
          rcases h with he | hr
          · subst he; exact flatline_sane ind k (.pyInt n)
          · exact yamlMapLines_sane ind kvs l hr
      | pyStr s =>
          simp only [yamlMapLines, isFlatVal, if_true, List.singleton_append,
            List.mem_cons] at h
          rcases h with he | hr
          · subst he; exact flatline_sane ind k (.pyStr s)
          · exact yamlMapLines_sane ind kvs l hr
      | pyList xs =>
          cases xs with
          | nil =>
              simp only [yamlMapLines, isFlatVal, List.isEmpty_nil, if_true,
                List.singleton_append, List.mem_cons] at h
              rcases h with he | hr
              · subst he; exact flatline_sane ind k (.pyList [])
              · exact yamlMapLines_sane ind kvs l hr
          | cons y ys =>
              simp only [yamlMapLines, isFlatVal, List.isEmpty_cons, if_false,
                Bool.false_eq_true, List.cons_append, List.mem_cons,
                List.mem_append] at h
              rcases h with he | hch | hr
              · subst he; exact keyline_sane ind k
              · exact yamlSeqLines_sane ind (y :: ys) l hch
              · exact yamlMapLines_sane ind kvs l hr
      | pyDict kvs2 =>
          cases kvs2 with
          | nil =>
              simp only [yamlMapLines, isFlatVal, List.isEmpty_nil, if_true,
                List.singleton_append, List.mem_cons] at h
              rcases h with he | hr
              · subst he; exact flatline_sane ind k (.pyDict [])
              · exact yamlMapLines_sane ind kvs l hr
          | cons p rest2 =>
              simp only [yamlMapLines, isFlatVal, List.isEmpty_cons, if_false,
                Bool.false_eq_true, List.cons_append, List.mem_cons,
                List.mem_append] at h
              rcases h with he | hch | hr
              · subst he; exact keyline_sane ind k
              · exact yamlMapLines_sane (ind + 4) (p :: rest2) l hch
              · exact yamlMapLines_sane ind kvs l hr

theorem yamlSeqLines_sane : ∀ (ind : Nat) (xs : List PyVal) (l : String),
    l ∈ yamlSeqLines ind xs → l.data ≠ [] ∧ '\n' ∉ l.data
  | ind, [], l, h => by simp [yamlSeqLines] at h
  | ind, x :: xs, l, h => by
      cases x with
      | pyNone =>
          simp only [yamlSeqLines, isFlatVal, if_true, List.singleton_append,
            List.mem_cons] at h
          rcases h with he | hr
          · subst he; exact dashline_sane ind .pyNone
          · exact yamlSeqLines_sane ind xs l hr
      | pyBool b =>
          simp only [yamlSeqLines, isFlatVal, if_true, List.singleton_append,
            List.mem_cons] at h
          rcases h with he | hr
          · subst he; exact dashline_sane ind (.pyBool b)
          · exact yamlSeqLines_sane ind xs l hr
      | pyInt n =>
          simp only [yamlSeqLines, isFlatVal, if_true, List.singleton_append,
            List.mem_cons] at h
          rcases h with he | hr
          · subst he; exact dashline_sane ind (.pyInt n)
          · exact yamlSeqLines_sane ind xs l hr
      | pyStr s =>
          simp only [yamlSeqLines, isFlatVal, if_true, List.singleton_append,
            List.mem_cons] at h
          rcases h with he | hr
          · subst he; exact dashline_sane ind (.pyStr s)
          · exact yamlSeqLines_sane ind xs l hr
      | pyList xs2 =>
          cases xs2 with
          | nil =>
              simp only [yamlSeqLines, isFlatVal, List.isEmpty_nil, if_true,
                List.singleton_append, List.mem_cons] at h
              rcases h with he | hr
              · subst he; exact dashline_sane ind (.pyList [])
              · exact yamlSeqLines_sane ind xs l hr
          | cons y ys =>
              simp only [yamlSeqLines, isFlatVal, List.isEmpty_cons, if_false,
                Bool.false_eq_true, List.mem_append] at h
              rcases h with hch | hr
              · exact dashFuse_sane ind (yamlSeqLines (ind + 4) (y :: ys))
                  (fun l2 h2 => yamlSeqLines_sane (ind + 4) (y :: ys) l2 h2) l hch
              · exact yamlSeqLines_sane ind xs l hr
      | pyDict kvs =>
          cases kvs with
          | nil =>
              simp only [yamlSeqLines, isFlatVal, List.isEmpty_nil, if_true,
                List.singleton_append, List.mem_cons] at h
              rcases h with he | hr
              · subst he; exact dashline_sane ind (.pyDict [])
              · exact yamlSeqLines_sane ind xs l hr
          | cons p rest2 =>
              simp only [yamlSeqLines, isFlatVal, List.isEmpty_cons, if_false,
                Bool.false_eq_true, List.mem_append] at h
              rcases h with hch | hr
              · exact dashFuse_sane ind (yamlMapLines (ind + 4) (p :: rest2))
                  (fun l2 h2 => yamlMapLines_sane (ind + 4) (p :: rest2) l2 h2) l hch
              · exact yamlSeqLines_sane ind xs l hr

end

/-! ### Parser one-step unfoldings -/

theorem yParseMap_cons (fuel ind : Nat) (l : String) (rest : List String) :
    yParseMap (fuel + 1) ind (l :: rest) =
      (match stripInd l ind with
       | none => some ([], l :: rest)
       | some cs =>
           if cs.head? == some '-' then some ([], l :: rest)
           else
             match splitKey cs with
             | none => some ([], l :: rest)
             | some (k, some vtxt) =>
                 (match parseFlatToken vtxt with
                  | none => none
                  | some v =>
                      match yParseMap fuel ind rest with
                      | some (kvs, rem) => some ((k, v) :: kvs, rem)
                      | none => none)
             | some (k, none) =>
                 match rest with
                 | [] => none
                 | l2 :: _ =>
                     if lineIndent l2 == ind then
                       (match yParseSeq fuel ind rest with
                        | some (x :: xs, rem) =>
                            (match yParseMap fuel ind rem with
                             | some (kvs, rem') =>
                                 some ((k, .pyList (x :: xs)) :: kvs, rem')
                             | none => none)
                        | _ => none)
                     else
                       (match yParseMap fuel (ind + 4) rest with
                        | some (e :: es, rem) =>
                            (match yParseMap fuel ind rem with
                             | some (kvs, rem') =>
                                 some ((k, .pyDict (e :: es)) :: kvs, rem')
                             | none => none)
                        | _ => none)) := rfl

theorem yParseSeq_cons (fuel ind : Nat) (l : String) (rest : List String) :
    yParseSeq (fuel + 1) ind (l :: rest) =
      (match stripInd l ind with
       | none => some ([], l :: rest)
       | some cs =>
           match cs with
           | '-' :: ' ' :: t2 =>
               if t2.head? == some ' ' then
                 match t2 with
                 | ' ' :: ' ' :: content =>
                     (match yParseBlock fuel (ind + 4)
                         ((⟨spaces (ind + 4) ++ content⟩ : String) :: rest) with
                      | some (v, rem) =>
                          (match yParseSeq fuel ind rem with
                           | some (xs, rem') => some (v :: xs, rem')
                           | none => none)
                      | none => none)
                 | _ => none
               else
                 (match parseFlatToken t2 with
                  | some v =>
                      (match yParseSeq fuel ind rest with
                       | some (xs, rem) => some (v :: xs, rem)
                       | none => none)
                  | none => none)
           | _ => some ([], l :: rest)) := rfl

theorem yParseBlock_cons (fuel ind : Nat) (l : String) (rest : List String) :
    yParseBlock (fuel + 1) ind (l :: rest) =
      (match stripInd l ind with
       | none => none
       | some cs =>
           if cs.head? == some '-' then
             match yParseSeq fuel ind (l :: rest) with
             | some (x :: xs, rem) => some (.pyList (x :: xs), rem)
             | _ => none
           else
             match yParseMap fuel ind (l :: rest) with
             | some (e :: es, rem) => some (.pyDict (e :: es), rem)
             | _ => none) := rfl

/-! ### Parser stop lemmas -/

theorem yParseMap_stop (fuel ind : Nat) (rem : List String)
    (h : mapStop ind rem = true) :
    yParseMap (fuel + 1) ind rem = some ([], rem) := by
  cases rem with
  | nil => rfl
  | cons l rest =>
      have hlt : lineIndent l < ind := by simpa [mapStop] using h
      have hs : stripInd l ind = none := stripInd_dedent l ind (by omega)
      rw [yParseMap_cons, hs]

theorem yParseSeq_stop (fuel ind : Nat) (rem : List String)
    (h : seqStop ind rem = true) :
    yParseSeq (fuel + 1) ind rem = some ([], rem) := by
  cases rem with
  | nil => rfl
  | cons l rest =>
      by_cases hlt : lineIndent l < ind
      · have hs : stripInd l ind = none := stripInd_dedent l ind (by omega)
        rw [yParseSeq_cons, hs]
      · simp only [seqStop] at h
        rw [decide_eq_false hlt] at h
        simp only [Bool.false_or, Bool.and_eq_true] at h
        obtain ⟨hind, hbody⟩ := h
        cases hstrip : stripInd l ind with
        | none => rw [hstrip] at hbody; cases hbody
        | some cs =>
            rw [hstrip] at hbody
            cases cs with
            | nil => cases hbody
            | cons c t =>
                have hcd : ¬ c = '-' := by
                  intro he
                  rw [he] at hbody
                  simp at hbody
                rw [yParseSeq_cons, hstrip]
                split
                · rfl
                · rename_i cs2 heq
                  injection heq with heq2
                  subst heq2
                  split
                  · rename_i t2 heq3
                    injection heq3 with h1 _
                    exact absurd h1 hcd
                  · rfl

theorem seqStop_of_mapStop (ind : Nat) (rem : List String)
    (h : mapStop ind rem = true) : seqStop ind rem = true := by
  cases rem with
  | nil => rfl
  | cons l rest =>
      have hlt : lineIndent l < ind := by simpa [mapStop] using h
      simp [seqStop, hlt]

theorem mapStop_mono (ind ind2 : Nat) (h : ind < ind2) (rem : List String)
    (hs : mapStop ind rem = true) : mapStop ind2 rem = true := by
  cases rem with
  | nil => rfl
  | cons l rest =>
      have hlt : lineIndent l < ind := by simpa [mapStop] using hs
      simp only [mapStop, decide_eq_true_eq]
      omega

theorem mapStop_of_seqStop (ind ind2 : Nat) (h : ind < ind2) (rem : List String)
    (hs : seqStop ind rem = true) : mapStop ind2 rem = true := by
  cases rem with
  | nil => rfl
  | cons l rest =>
      simp only [seqStop, Bool.or_eq_true, Bool.and_eq_true, decide_eq_true_eq] at hs
      simp only [mapStop, decide_eq_true_eq]
      rcases hs with hs | ⟨hs, _⟩
      · omega
      · have : lineIndent l = ind := by simpa using hs
        omega

theorem mapStop_line (ind ind2 : Nat) (h : ind < ind2) (c : Char) (t : List Char)
    (tail : List String) (hc : ¬ c = ' ') :
    mapStop ind2 ((⟨spaces ind ++ c :: t⟩ : String) :: tail) = true := by
  simp only [mapStop, decide_eq_true_eq]
  rw [lineIndent_spaces ind c t hc]
  omega


theorem seqStop_keyline (ind : Nat) (c3 : Char) (t3 : List Char) (tail3 : List String)
    (hsp3 : ¬ c3 = ' ') (hdash3 : ¬ c3 = '-') :
    seqStop ind ((⟨spaces ind ++ c3 :: t3⟩ : String) :: tail3) = true := by
  simp only [seqStop]
  rw [lineIndent_spaces ind c3 t3 hsp3, stripInd_spaces ind c3 t3 hsp3]
  simp only [beq_self_eq_true, Bool.true_and, Bool.or_eq_true, decide_eq_true_eq]
  exact Or.inr trivial

mutual

theorem yParseMap_render : ∀ (fuel ind : Nat) (kvs : List (String × PyVal))
    (rem : List String), ysizeM kvs < fuel → mapStop ind rem = true →
    yParseMap fuel ind (yamlMapLines ind kvs ++ rem) = some (kvs, rem)
  | 0, _, kvs, _, hsz, _ => by omega
  | fuel + 1, ind, [], rem, _, hstop => by
      rw [show yamlMapLines ind [] = [] from by simp [yamlMapLines], List.nil_append]
      exact yParseMap_stop fuel ind rem hstop
  | fuel + 1, ind, (k, v) :: kvs, rem, hsz, hstop => by
      obtain ⟨kc, kt, hkm, hksp, hkdash⟩ := yamlStrToken_shape k
      have hrec : yParseMap fuel ind (yamlMapLines ind kvs ++ rem) =
          some (kvs, rem) := by
        apply yParseMap_render fuel ind kvs rem ?_ hstop
        simp only [ysizeM] at hsz
        omega
      have hflatstep : ∀ (w : PyVal), isFlatVal w = true →
          yamlMapLines ind ((k, w) :: kvs) =
            (⟨spaces ind ++ kc :: (kt ++ ':' :: ' ' :: yamlScalarToken w)⟩ : String) ::
              yamlMapLines ind kvs →
          yParseMap (fuel + 1) ind (yamlMapLines ind ((k, w) :: kvs) ++ rem) =
            some ((k, w) :: kvs, rem) := by
        intro w hf hlines
        rw [hlines, List.cons_append, yParseMap_cons,
          stripInd_spaces ind kc (kt ++ ':' :: ' ' :: yamlScalarToken w) hksp]
        have hdash2 : ((kc :: (kt ++ ':' :: ' ' :: yamlScalarToken w)).head? ==
            some '-') = false := by
          simp [hkdash]
        have hsplit : splitKey (kc :: (kt ++ ':' :: ' ' :: yamlScalarToken w)) =
            some (k, some (yamlScalarToken w)) := by
          have h0 := (splitKey_token k).1 (yamlScalarToken w)
          rw [hkm] at h0
          simpa using h0
        have htok := parseFlatToken_scalar w hf
        simp [hdash2, hsplit, htok, hrec, hkdash]
      cases v with
      | pyNone =>
          exact hflatstep .pyNone rfl (by simp [yamlMapLines, isFlatVal, hkm])
      | pyBool b =>
          exact hflatstep (.pyBool b) (by cases b <;> rfl)
            (by simp [yamlMapLines, isFlatVal, hkm])
      | pyInt n =>
          exact hflatstep (.pyInt n) rfl (by simp [yamlMapLines, isFlatVal, hkm])
      | pyStr s =>
          exact hflatstep (.pyStr s) rfl (by simp [yamlMapLines, isFlatVal, hkm])
      | pyList xs =>
          cases xs with
          | nil =>
              exact hflatstep (.pyList []) rfl
                (by simp [yamlMapLines, isFlatVal, hkm])
          | cons y ys =>
              rw [show yamlMapLines ind ((k, .pyList (y :: ys)) :: kvs) =
                  (⟨spaces ind ++ kc :: (kt ++ [':'])⟩ : String) ::
                    (yamlSeqLines ind (y :: ys) ++ yamlMapLines ind kvs) from by
                simp [yamlMapLines, isFlatVal, hkm]]
              rw [List.cons_append, List.append_assoc, yParseMap_cons,
                stripInd_spaces ind kc (kt ++ [':']) hksp]
              have hdash2 : ((kc :: (kt ++ [':'])).head? == some '-') = false := by
                simp [hkdash]
              have hsplit : splitKey (kc :: (kt ++ [':'])) = some (k, none) := by
                have h0 := (splitKey_token k).2
                rw [hkm] at h0
                simpa using h0
              obtain ⟨t2, tail2, hm2⟩ := yamlSeqLines_shape ind y ys
              have hind2 : (lineIndent
                  (⟨spaces ind ++ '-' :: ' ' :: t2⟩ : String) == ind) = true := by
                rw [lineIndent_spaces ind '-' (' ' :: t2) (by decide)]
                simp
              have hseq : yParseSeq fuel ind
                  (yamlSeqLines ind (y :: ys) ++ (yamlMapLines ind kvs ++ rem)) =
                  some (y :: ys, yamlMapLines ind kvs ++ rem) := by
                apply yParseSeq_render fuel ind (y :: ys)
                  (yamlMapLines ind kvs ++ rem) ?_ ?_
                · simp only [ysizeM, ysizeC] at hsz
                  omega
                · cases kvs with
                  | nil =>
                      rw [show yamlMapLines ind [] = [] from by simp [yamlMapLines], List.nil_append]
                      exact seqStop_of_mapStop ind rem hstop
                  | cons q kvs2 =>
                      obtain ⟨k3, v3⟩ := q
                      obtain ⟨c3, t3, tail3, hm3, hsp3, hdash3⟩ :=
                        yamlMapLines_shape ind k3 v3 kvs2
                      rw [hm3, List.cons_append]
                      exact seqStop_keyline ind c3 t3 _ hsp3 hdash3
              rw [hm2, List.cons_append] at hseq
              rw [hm2, List.cons_append]
              simp [hdash2, hsplit, hind2, hseq, hrec, hkdash]
      | pyDict kvs2 =>
          cases kvs2 with
          | nil =>
              exact hflatstep (.pyDict []) rfl
                (by simp [yamlMapLines, isFlatVal, hkm])
          | cons p rest2 =>
              obtain ⟨k2, v2⟩ := p
              rw [show yamlMapLines ind ((k, .pyDict ((k2, v2) :: rest2)) :: kvs) =
                  (⟨spaces ind ++ kc :: (kt ++ [':'])⟩ : String) ::
                    (yamlMapLines (ind + 4) ((k2, v2) :: rest2) ++
                      yamlMapLines ind kvs) from by
                simp [yamlMapLines, isFlatVal, hkm]]
              rw [List.cons_append, List.append_assoc, yParseMap_cons,
                stripInd_spaces ind kc (kt ++ [':']) hksp]
              have hdash2 : ((kc :: (kt ++ [':'])).head? == some '-') = false := by
                simp [hkdash]
              have hsplit : splitKey (kc :: (kt ++ [':'])) = some (k, none) := by
                have h0 := (splitKey_token k).2
                rw [hkm] at h0
                simpa using h0
              obtain ⟨c2, t2, tail2, hm2, hsp2, _⟩ :=
                yamlMapLines_shape (ind + 4) k2 v2 rest2
              have hind2 : (lineIndent
                  (⟨spaces (ind + 4) ++ c2 :: t2⟩ : String) == ind) = false := by
                rw [lineIndent_spaces (ind + 4) c2 t2 hsp2]
                simp only [beq_eq_false_iff_ne, ne_eq]
                omega
              have hchild : yParseMap fuel (ind + 4)
                  (yamlMapLines (ind + 4) ((k2, v2) :: rest2) ++
                    (yamlMapLines ind kvs ++ rem)) =
                  some ((k2, v2) :: rest2, yamlMapLines ind kvs ++ rem) := by
                apply yParseMap_render fuel (ind + 4) ((k2, v2) :: rest2)
                  (yamlMapLines ind kvs ++ rem) ?_ ?_
                · simp only [ysizeM, ysizeC] at hsz ⊢
                  omega
                · cases kvs with
                  | nil =>
                      rw [show yamlMapLines ind [] = [] from by simp [yamlMapLines], List.nil_append]
                      exact mapStop_mono ind (ind + 4) (by omega) rem hstop
                  | cons q kvs2 =>
                      obtain ⟨k3, v3⟩ := q
                      obtain ⟨c3, t3, tail3, hm3, hsp3, _⟩ :=
                        yamlMapLines_shape ind k3 v3 kvs2
                      rw [hm3, List.cons_append]
                      exact mapStop_line ind (ind + 4) (by omega) c3 t3 _ hsp3
              rw [hm2, List.cons_append] at hchild
              rw [hm2, List.cons_append]
              simp [hdash2, hsplit, hind2, hchild, hrec, hkdash]

theorem yParseSeq_render : ∀ (fuel ind : Nat) (xs : List PyVal)
    (rem : List String), ysizeS xs < fuel → seqStop ind rem = true →
    yParseSeq fuel ind (yamlSeqLines ind xs ++ rem) = some (xs, rem)
  | 0, _, xs, _, hsz, _ => by omega
  | fuel + 1, ind, [], rem, _, hstop => by
      rw [show yamlSeqLines ind [] = [] from by simp [yamlSeqLines], List.nil_append]
      exact yParseSeq_stop fuel ind rem hstop
  | fuel + 1, ind, x :: xs, rem, hsz, hstop => by
      have hrec : yParseSeq fuel ind (yamlSeqLines ind xs ++ rem) =
          some (xs, rem) := by
        apply yParseSeq_render fuel ind xs rem ?_ hstop
        simp only [ysizeS] at hsz
        omega
      have hstopxs : mapStop (ind + 4) (yamlSeqLines ind xs ++ rem) = true := by
        cases xs with
        | nil =>
            rw [show yamlSeqLines ind [] = [] from by simp [yamlSeqLines], List.nil_append]
            exact mapStop_of_seqStop ind (ind + 4) (by omega) rem hstop
        | cons y2 ys2 =>
            obtain ⟨t3, tail3, hm3⟩ := yamlSeqLines_shape ind y2 ys2
            rw [hm3, List.cons_append]
            exact mapStop_line ind (ind + 4) (by omega) '-' (' ' :: t3) _ (by decide)
      have hflatstep : ∀ (w : PyVal), isFlatVal w = true →
          yamlSeqLines ind (w :: xs) =
            (⟨spaces ind ++ '-' :: ' ' :: yamlScalarToken w⟩ : String) ::
              yamlSeqLines ind xs →
          yParseSeq (fuel + 1) ind (yamlSeqLines ind (w :: xs) ++ rem) =
            some (w :: xs, rem) := by
        intro w hf hlines
        rw [hlines, List.cons_append, yParseSeq_cons,
          stripInd_spaces ind '-' (' ' :: yamlScalarToken w) (by decide)]
        obtain ⟨c, t, hm, hc⟩ := yamlScalarToken_head w
        have hsp : ((yamlScalarToken w).head? == some ' ') = false := by
          rw [hm]
          simp [hc]
        have htok := parseFlatToken_scalar w hf
        simp [hsp, htok, hrec]
      cases x with
      | pyNone =>
          exact hflatstep .pyNone rfl (by simp [yamlSeqLines, isFlatVal])
      | pyBool b =>
          exact hflatstep (.pyBool b) (by cases b <;> rfl)
            (by simp [yamlSeqLines, isFlatVal])
      | pyInt n =>
          exact hflatstep (.pyInt n) rfl (by simp [yamlSeqLines, isFlatVal])
      | pyStr s =>
          exact hflatstep (.pyStr s) rfl (by simp [yamlSeqLines, isFlatVal])
      | pyList xs2 =>
          cases xs2 with
          | nil =>
              exact hflatstep (.pyList []) rfl (by simp [yamlSeqLines, isFlatVal])
          | cons y2 ys2 =>
              obtain ⟨t2, tail2, hm2⟩ := yamlSeqLines_shape (ind + 4) y2 ys2
              rw [show yamlSeqLines ind (.pyList (y2 :: ys2) :: xs) =
                  yamlDashFuse ind (yamlSeqLines (ind + 4) (y2 :: ys2)) ++
                    yamlSeqLines ind xs from by
                simp [yamlSeqLines, isFlatVal]]
              rw [hm2, dashFuse_first ind ('-' :: ' ' :: t2) tail2,
                List.append_assoc, List.cons_append, yParseSeq_cons,
                stripInd_spaces ind '-'
                  (' ' :: ' ' :: ' ' :: '-' :: ' ' :: t2) (by decide)]
              have hblock : yParseBlock fuel (ind + 4)
                  ((⟨spaces (ind + 4) ++ '-' :: ' ' :: t2⟩ : String) ::
                    (tail2 ++ (yamlSeqLines ind xs ++ rem))) =
                  some (.pyList (y2 :: ys2), yamlSeqLines ind xs ++ rem) := by
                have hb := yParseBlock_render fuel (ind + 4)
                  (.pyList (y2 :: ys2)) (yamlSeqLines ind xs ++ rem)
                  (by simp only [ysizeS] at hsz; omega) rfl hstopxs
                rw [show yBlockLines (ind + 4) (.pyList (y2 :: ys2)) =
                  yamlSeqLines (ind + 4) (y2 :: ys2) from rfl] at hb
                rw [hm2, List.cons_append] at hb
                exact hb
              simp [hblock, hrec]
      | pyDict kvs2 =>
          cases kvs2 with
          | nil =>
              exact hflatstep (.pyDict []) rfl (by simp [yamlSeqLines, isFlatVal])
          | cons p rest2 =>
              obtain ⟨k2, v2⟩ := p
              obtain ⟨c2, t2, tail2, hm2, hsp2, _⟩ :=
                yamlMapLines_shape (ind + 4) k2 v2 rest2
              rw [show yamlSeqLines ind (.pyDict ((k2, v2) :: rest2) :: xs) =
                  yamlDashFuse ind (yamlMapLines (ind + 4) ((k2, v2) :: rest2)) ++
                    yamlSeqLines ind xs from by
                simp [yamlSeqLines, isFlatVal]]
              rw [hm2, dashFuse_first ind (c2 :: t2) tail2,
                List.append_assoc, List.cons_append, yParseSeq_cons,
                stripInd_spaces ind '-'
                  (' ' :: ' ' :: ' ' :: c2 :: t2) (by decide)]
              have hblock : yParseBlock fuel (ind + 4)
                  ((⟨spaces (ind + 4) ++ c2 :: t2⟩ : String) ::
                    (tail2 ++ (yamlSeqLines ind xs ++ rem))) =
                  some (.pyDict ((k2, v2) :: rest2), yamlSeqLines ind xs ++ rem) := by
                have hb := yParseBlock_render fuel (ind + 4)
                  (.pyDict ((k2, v2) :: rest2)) (yamlSeqLines ind xs ++ rem)
                  (by simp only [ysizeS] at hsz; omega) rfl hstopxs
                rw [show yBlockLines (ind + 4) (.pyDict ((k2, v2) :: rest2)) =
                  yamlMapLines (ind + 4) ((k2, v2) :: rest2) from rfl] at hb
                rw [hm2, List.cons_append] at hb
                exact hb
              simp [hblock, hrec]

theorem yParseBlock_render : ∀ (fuel ind : Nat) (v : PyVal) (rem : List String),
    ysizeB v < fuel → isFlatVal v = false → mapStop ind rem = true →
    yParseBlock fuel ind (yBlockLines ind v ++ rem) = some (v, rem)
  | 0, _, v, _, hsz, _, _ => by omega
  | fuel + 1, ind, v, rem, hsz, hnf, hstop => by
      cases v with
      | pyNone => simp [isFlatVal] at hnf
      | pyBool b => simp [isFlatVal] at hnf
      | pyInt n => simp [isFlatVal] at hnf
      | pyStr s => simp [isFlatVal] at hnf
      | pyList xs =>
          cases xs with
          | nil => simp [isFlatVal] at hnf
          | cons y ys =>
              rw [show yBlockLines ind (.pyList (y :: ys)) =
                yamlSeqLines ind (y :: ys) from rfl]
              obtain ⟨t2, tail2, hm2⟩ := yamlSeqLines_shape ind y ys
              have hseq : yParseSeq fuel ind (yamlSeqLines ind (y :: ys) ++ rem) =
                  some (y :: ys, rem) := by
                apply yParseSeq_render fuel ind (y :: ys) rem ?_
                  (seqStop_of_mapStop ind rem hstop)
                simp only [ysizeB] at hsz
                omega
              rw [hm2, List.cons_append] at hseq
              rw [hm2, List.cons_append, yParseBlock_cons,
                stripInd_spaces ind '-' (' ' :: t2) (by decide)]
              simp [hseq]
      | pyDict kvs =>
          cases kvs with
          | nil => simp [isFlatVal] at hnf
          | cons p rest2 =>
              obtain ⟨k2, v2⟩ := p
              rw [show yBlockLines ind (.pyDict ((k2, v2) :: rest2)) =
                yamlMapLines ind ((k2, v2) :: rest2) from rfl]
              obtain ⟨c2, t2, tail2, hm2, hsp2, hd2⟩ :=
                yamlMapLines_shape ind k2 v2 rest2
              have hmap : yParseMap fuel ind
                  (yamlMapLines ind ((k2, v2) :: rest2) ++ rem) =
                  some ((k2, v2) :: rest2, rem) := by
                apply yParseMap_render fuel ind ((k2, v2) :: rest2) rem ?_ hstop
                simp only [ysizeB] at hsz
                omega
              rw [hm2, List.cons_append] at hmap
              rw [hm2, List.cons_append, yParseBlock_cons,
                stripInd_spaces ind c2 t2 hsp2]
              have hd2f : ((c2 :: t2).head? == some '-') = false := by
                simp [hd2]
              simp [hd2f, hmap, hd2]

end

/-! ### Character-count bounds giving the parse fuel -/

theorem ccLines_cons (l : String) (ls : List String) :
    ccLines (l :: ls) = l.data.length + 1 + ccLines ls := by
  simp [ccLines]

theorem ccLines_append (a b : List String) :
    ccLines (a ++ b) = ccLines a + ccLines b := by
  simp [ccLines]

theorem joinLines_length (ls : List String) :
    (joinLines ls).data.length = ccLines ls := by
  induction ls with
  | nil => rfl
  | cons l ls ih =>
      have hstep : (joinLines (l :: ls)).data =
          (l.data ++ ['\n']) ++ (joinLines ls).data := by
        simp [joinLines]
      rw [hstep, List.length_append, List.length_append, ih, ccLines_cons,
        List.length_singleton]

theorem spaces_length (ind : Nat) : (spaces ind).length = ind := by
  simp [spaces]

mutual

theorem ccM_bound : ∀ (kvs : List (String × PyVal)) (ind : Nat), kvs ≠ [] →
    ysizeM kvs + ind + 2 ≤ ccLines (yamlMapLines ind kvs)
  | [], _, h => absurd rfl h
  | (k, v) :: kvs, ind, _ => by
      have hkl := yamlStrToken_len_pos k
      have hE : 1 + ysizeC v + ind + 2 ≤
          ccLines (yamlMapLines ind ((k, v) :: [])) ∧
          ccLines (yamlMapLines ind ((k, v) :: [])) + ccLines (yamlMapLines ind kvs) =
            ccLines (yamlMapLines ind ((k, v) :: kvs)) := by
        cases v with
        | pyNone =>
            constructor
            · have hvl := yamlScalarToken_len_pos .pyNone
              simp only [yamlMapLines, isFlatVal, if_true, ysizeC]
              rw [List.singleton_append, ccLines_cons]
              simp only [List.length_append, List.length_cons, spaces_length]
              simp [ccLines]
              omega
            · simp only [yamlMapLines, isFlatVal, if_true]
              rw [List.singleton_append, List.singleton_append, ccLines_cons,
                ccLines_cons]
              simp [ccLines]
        | pyBool b =>
            constructor
            · have hvl := yamlScalarToken_len_pos (.pyBool b)
              have hfv : isFlatVal (.pyBool b) = true := by cases b <;> rfl
              simp only [yamlMapLines, hfv, if_true, ysizeC]
              rw [List.singleton_append, ccLines_cons]
              simp only [List.length_append, List.length_cons, spaces_length]
              simp [ccLines]
              omega
            · have hfv : isFlatVal (.pyBool b) = true := by cases b <;> rfl
              simp only [yamlMapLines, hfv, if_true]
              rw [List.singleton_append, List.singleton_append, ccLines_cons,
                ccLines_cons]
              simp [ccLines]
        | pyInt n =>
            constructor
            · have hvl := yamlScalarToken_len_pos (.pyInt n)
              simp only [yamlMapLines, isFlatVal, if_true, ysizeC]
              rw [List.singleton_append, ccLines_cons]
              simp only [List.length_append, List.length_cons, spaces_length]
              simp [ccLines]
              omega
            · simp only [yamlMapLines, isFlatVal, if_true]
              rw [List.singleton_append, List.singleton_append, ccLines_cons,
                ccLines_cons]
              simp [ccLines]
        | pyStr s =>
            constructor
            · have hvl := yamlScalarToken_len_pos (.pyStr s)
              simp only [yamlMapLines, isFlatVal, if_true, ysizeC]
              rw [List.singleton_append, ccLines_cons]
              simp only [List.length_append, List.length_cons, spaces_length]
              simp [ccLines]
              omega
            · simp only [yamlMapLines, isFlatVal, if_true]
              rw [List.singleton_append, List.singleton_append, ccLines_cons,
                ccLines_cons]
              simp [ccLines]
        | pyList xs =>
            cases xs with
            | nil =>
                constructor
                · have hvl := yamlScalarToken_len_pos (.pyList [])
                  simp only [yamlMapLines, isFlatVal, List.isEmpty_nil, if_true,
                    ysizeC, ysizeS]
                  rw [List.singleton_append, ccLines_cons]
                  simp only [List.length_append, List.length_cons, spaces_length]
                  simp [ccLines]
                  omega
                · simp only [yamlMapLines, isFlatVal, List.isEmpty_nil, if_true]
                  rw [List.singleton_append, List.singleton_append, ccLines_cons,
                    ccLines_cons]
                  simp [ccLines]
            | cons y ys =>
                have hch := ccS_bound (y :: ys) ind (by simp)
                constructor
                · simp only [yamlMapLines, isFlatVal, List.isEmpty_cons,
                    Bool.false_eq_true, if_false, ysizeC]
                  rw [List.append_nil, ccLines_cons]
                  simp only [List.length_append, List.length_cons,
                    List.length_nil, spaces_length]
                  omega
                · simp only [yamlMapLines, isFlatVal, List.isEmpty_cons,
                    Bool.false_eq_true, if_false]
                  rw [List.append_nil, ccLines_cons, ccLines_append,
                    ccLines_cons]
        | pyDict kvs2 =>
            cases kvs2 with
            | nil =>
                constructor
                · have hvl := yamlScalarToken_len_pos (.pyDict [])
                  simp only [yamlMapLines, isFlatVal, List.isEmpty_nil, if_true,
                    ysizeC, ysizeM]
                  rw [List.singleton_append, ccLines_cons]
                  simp only [List.length_append, List.length_cons, spaces_length]
                  simp [ccLines]
                  omega
                · simp only [yamlMapLines, isFlatVal, List.isEmpty_nil, if_true]
                  rw [List.singleton_append, List.singleton_append, ccLines_cons,
                    ccLines_cons]
                  simp [ccLines]
            | cons p rest2 =>
                have hch := ccM_bound (p :: rest2) (ind + 4) (by simp)
                constructor
                · simp only [yamlMapLines, isFlatVal, List.isEmpty_cons,
                    Bool.false_eq_true, if_false, ysizeC]
                  rw [List.append_nil, ccLines_cons]
                  simp only [List.length_append, List.length_cons,
                    List.length_nil, spaces_length]
                  omega
                · simp only [yamlMapLines, isFlatVal, List.isEmpty_cons,
                    Bool.false_eq_true, if_false]
                  rw [List.append_nil, ccLines_cons, ccLines_append,
                    ccLines_cons]
      obtain ⟨hE1, hE2⟩ := hE
      cases kvs with
      | nil =>
          simp only [ysizeM]
          simp only [ysizeM] at hE1
          omega
      | cons q kvs2 =>
          have hrest := ccM_bound (q :: kvs2) ind (by simp)
          have hgoal : ysizeM ((k, v) :: q :: kvs2) =
              1 + ysizeC v + ysizeM (q :: kvs2) := by
            simp only [ysizeM]
          rw [hgoal, ← hE2]
          omega

theorem ccS_bound : ∀ (xs : List PyVal) (ind : Nat), xs ≠ [] →
    ysizeS xs + ind + 2 ≤ ccLines (yamlSeqLines ind xs)
  | [], _, h => absurd rfl h
  | x :: xs, ind, _ => by
      have hE : 1 + ysizeB x + ind + 2 ≤
          ccLines (yamlSeqLines ind (x :: [])) ∧
          ccLines (yamlSeqLines ind (x :: [])) + ccLines (yamlSeqLines ind xs) =
            ccLines (yamlSeqLines ind (x :: xs)) := by
        cases x with
        | pyNone =>
            constructor
            · have hvl := yamlScalarToken_len_pos .pyNone
              simp only [yamlSeqLines, isFlatVal, if_true, ysizeB]
              rw [List.singleton_append, ccLines_cons]
              simp only [List.length_append, List.length_cons, spaces_length]
              simp [ccLines]
              omega
            · simp only [yamlSeqLines, isFlatVal, if_true]
              rw [List.singleton_append, List.singleton_append, ccLines_cons,
                ccLines_cons]
              simp [ccLines]
        | pyBool b =>
            have hfv : isFlatVal (.pyBool b) = true := by cases b <;> rfl
            constructor
            · have hvl := yamlScalarToken_len_pos (.pyBool b)
              simp only [yamlSeqLines, hfv, if_true, ysizeB]
              rw [List.singleton_append, ccLines_cons]
              simp only [List.length_append, List.length_cons, spaces_length]
              simp [ccLines]
              omega
            · simp only [yamlSeqLines, hfv, if_true]
              rw [List.singleton_append, List.singleton_append, ccLines_cons,
                ccLines_cons]
              simp [ccLines]
        | pyInt n =>
            constructor
            · have hvl := yamlScalarToken_len_pos (.pyInt n)
              simp only [yamlSeqLines, isFlatVal, if_true, ysizeB]
              rw [List.singleton_append, ccLines_cons]
              simp only [List.length_append, List.length_cons, spaces_length]
              simp [ccLines]
              omega
            · simp only [yamlSeqLines, isFlatVal, if_true]
              rw [List.singleton_append, List.singleton_append, ccLines_cons,
                ccLines_cons]
              simp [ccLines]
        | pyStr s =>
            constructor
            · have hvl := yamlScalarToken_len_pos (.pyStr s)
              simp only [yamlSeqLines, isFlatVal, if_true, ysizeB]
              rw [List.singleton_append, ccLines_cons]
              simp only [List.length_append, List.length_cons, spaces_length]
              simp [ccLines]
              omega
            · simp only [yamlSeqLines, isFlatVal, if_true]
              rw [List.singleton_append, List.singleton_append, ccLines_cons,
                ccLines_cons]
              simp [ccLines]
        | pyList xs2 =>
            cases xs2 with
            | nil =>
                constructor
                · have hvl := yamlScalarToken_len_pos (.pyList [])
                  simp only [yamlSeqLines, isFlatVal, List.isEmpty_nil, if_true,
                    ysizeB, ysizeS]
                  rw [List.singleton_append, ccLines_cons]
                  simp only [List.length_append, List.length_cons, spaces_length]
                  simp [ccLines]
                  omega
                · simp only [yamlSeqLines, isFlatVal, List.isEmpty_nil, if_true]
                  rw [List.singleton_append, List.singleton_append, ccLines_cons,
                    ccLines_cons]
                  simp [ccLines]
            | cons y ys =>
                have hch := ccS_bound (y :: ys) (ind + 4) (by simp)
                obtain ⟨t2, tail2, hm2⟩ := yamlSeqLines_shape (ind + 4) y ys
                constructor
                · simp only [yamlSeqLines, isFlatVal, List.isEmpty_cons,
                    Bool.false_eq_true, if_false, ysizeB]
                  rw [List.append_nil, hm2,
                    dashFuse_first ind ('-' :: ' ' :: t2) tail2]
                  rw [hm2, ccLines_cons] at hch
                  rw [ccLines_cons]
                  simp only [List.length_append, List.length_cons, spaces_length] at hch ⊢
                  omega
                · simp only [yamlSeqLines, isFlatVal, List.isEmpty_cons,
                    Bool.false_eq_true, if_false]
                  rw [List.append_nil, ccLines_append]
        | pyDict kvs2 =>
            cases kvs2 with
            | nil =>
                constructor
                · have hvl := yamlScalarToken_len_pos (.pyDict [])
                  simp only [yamlSeqLines, isFlatVal, List.isEmpty_nil, if_true,
                    ysizeB, ysizeM]
                  rw [List.singleton_append, ccLines_cons]
                  simp only [List.length_append, List.length_cons, spaces_length]
                  simp [ccLines]
                  omega
                · simp only [yamlSeqLines, isFlatVal, List.isEmpty_nil, if_true]
                  rw [List.singleton_append, List.singleton_append, ccLines_cons,
                    ccLines_cons]
                  simp [ccLines]
            | cons p rest2 =>
                have hch := ccM_bound (p :: rest2) (ind + 4) (by simp)
                obtain ⟨k2, v2⟩ := p
                obtain ⟨c2, t2, tail2, hm2, _, _⟩ :=
                  yamlMapLines_shape (ind + 4) k2 v2 rest2
                constructor
                · simp only [yamlSeqLines, isFlatVal, List.isEmpty_cons,
                    Bool.false_eq_true, if_false, ysizeB]
                  rw [List.append_nil, hm2, dashFuse_first ind (c2 :: t2) tail2]
                  rw [hm2, ccLines_cons] at hch
                  rw [ccLines_cons]
                  simp only [List.length_append, List.length_cons, spaces_length] at hch ⊢
                  omega
                · simp only [yamlSeqLines, isFlatVal, List.isEmpty_cons,
                    Bool.false_eq_true, if_false]
                  rw [List.append_nil, ccLines_append]
      obtain ⟨hE1, hE2⟩ := hE
      cases xs with
      | nil =>
          simp only [ysizeS]
          simp only [ysizeS] at hE1
          omega
      | cons q xs2 =>
          have hrest := ccS_bound (q :: xs2) ind (by simp)
          have hgoal : ysizeS (x :: q :: xs2) =
              1 + ysizeB x + ysizeS (q :: xs2) := by
            simp only [ysizeS]
          rw [hgoal, ← hE2]
          omega

end

/-! ### The flat top-level document -/

theorem noColonSpace_nocolon : ∀ (cs : List Char),
    (∀ c ∈ cs, ¬ c = ':') → noColonSpace cs = true
  | [], _ => rfl
  | [c], h => by simpa [noColonSpace] using h c (by simp)
  | c :: d :: r, h => by
      simp only [noColonSpace, Bool.and_eq_true]
      refine ⟨?_, noColonSpace_nocolon (d :: r)
        (fun x hx => h x (List.mem_cons_of_mem _ hx))⟩
      have hc := h c (by simp)
      simp [hc]

theorem plainKeySplit_none : ∀ (cs : List Char), noColonSpace cs = true →
    ∀ acc, plainKeySplit acc cs = none
  | [], _, acc => rfl
  | [c], h, acc => by
      have hc : ¬ c = ':' := by simpa [noColonSpace] using h
      rw [show plainKeySplit acc [c] = plainKeySplit (c :: acc) [] from by
        simp [plainKeySplit, hc]]
      rfl
  | c :: d :: r, h, acc => by
      simp only [noColonSpace, Bool.and_eq_true] at h
      obtain ⟨h1, h2⟩ := h
      by_cases hc : c = ':'
      · subst hc
        have hd : ¬ d = ' ' := by simpa using h1
        rw [show plainKeySplit acc (':' :: d :: r) =
          plainKeySplit (':' :: acc) (d :: r) from by simp [plainKeySplit, hd]]
        exact plainKeySplit_none (d :: r) h2 _
      · rw [show plainKeySplit acc (c :: d :: r) =
          plainKeySplit (c :: acc) (d :: r) from by simp [plainKeySplit, hc]]
        exact plainKeySplit_none (d :: r) h2 _

theorem lineIndent_zero (c : Char) (t : List Char) (hc : ¬ c = ' ') :
    lineIndent ⟨c :: t⟩ = 0 := by
  have h := lineIndent_spaces 0 c t hc
  rwa [show (⟨spaces 0 ++ c :: t⟩ : String) = ⟨c :: t⟩ from rfl] at h

theorem stripInd_zero (c : Char) (t : List Char) (hc : ¬ c = ' ') :
    stripInd ⟨c :: t⟩ 0 = some (c :: t) := by
  have h := stripInd_spaces 0 c t hc
  rwa [show (⟨spaces 0 ++ c :: t⟩ : String) = ⟨c :: t⟩ from rfl] at h

theorem yamlScalarToken_not_dashsp (w : PyVal) (hf : isFlatVal w = true)
    (t' : List Char) : ¬ yamlScalarToken w = '-' :: ' ' :: t' := by
  intro he
  cases w with
  | pyNone => simp [yamlScalarToken] at he
  | pyBool b => cases b <;> simp [yamlScalarToken] at he
  | pyInt n =>
      obtain ⟨c0, t0, hm0, hcase⟩ := intChars_shape n
      rcases hcase with ⟨_, _, hdig⟩ | ⟨_, hneg⟩
      · rw [show yamlScalarToken (.pyInt n) = intChars n from rfl, hm0] at he
        injection he with h1 _
        rw [h1] at hdig
        exact absurd hdig (by decide)
      · rw [show yamlScalarToken (.pyInt n) = intChars n from rfl, hneg] at he
        injection he with _ h2
        obtain ⟨cd, td, hD, hdd⟩ := natDigs_head n.natAbs
        rw [hD] at h2
        injection h2 with h3 _
        rw [h3] at hdd
        exact absurd hdd (by decide)
  | pyStr s =>
      obtain ⟨c2, t2, hm2, _, hd2⟩ := yamlStrToken_shape s
      rw [show yamlScalarToken (.pyStr s) = yamlStrToken s from rfl, hm2] at he
      injection he with h1 _
      exact absurd h1 hd2
  | pyList xs =>
      cases xs with
      | nil => simp [yamlScalarToken] at he
      | cons y ys => simp [isFlatVal] at hf
  | pyDict kvs =>
      cases kvs with
      | nil => simp [yamlScalarToken] at he
      | cons p rest => simp [isFlatVal] at hf

theorem yParseMap_flatTok (f : Nat) (hf1 : 1 ≤ f) (w : PyVal)
    (hf : isFlatVal w = true) (rest : List String) :
    yParseMap f 0 ((⟨yamlScalarToken w⟩ : String) :: rest) =
      some ([], (⟨yamlScalarToken w⟩ : String) :: rest) := by
  obtain ⟨g, rfl⟩ : ∃ g, f = g + 1 := ⟨f - 1, by omega⟩
  obtain ⟨c, t, hm, hc⟩ := yamlScalarToken_head w
  have hstrip : stripInd (⟨yamlScalarToken w⟩ : String) 0 =
      some (yamlScalarToken w) := by
    rw [hm]
    exact stripInd_zero c t hc
  rw [yParseMap_cons, hstrip]
  cases w with
  | pyNone => rfl
  | pyBool b => cases b <;> rfl
  | pyInt n =>
      obtain ⟨c0, t0, hm0, hcase⟩ := intChars_shape n
      rcases hcase with ⟨hpos, heq, hdig⟩ | ⟨hneg2, heq⟩
      · have hndash : ¬ c0 = '-' := by
          intro he
          rw [he] at hdig
          exact absurd hdig (by decide)
        have hdash : ((c0 :: t0).head? == some '-') = false := by
          simp [hndash]
        have hq := digit_flat_facts c0 hdig
        have hnocolon : ∀ x ∈ c0 :: t0, ¬ x = ':' := by
          rw [← hm0, heq]
          intro x hx
          have hxd := natDigs_digits n.natAbs x hx
          intro he
          rw [he] at hxd
          exact absurd hxd (by decide)
        have hsplit : splitKey (c0 :: t0) = none := by
          rw [splitKey_plain c0 t0 hq.1 hq.2.1]
          rw [plainKeySplit_none (c0 :: t0) (noColonSpace_nocolon _ hnocolon) []]
        rw [show yamlScalarToken (.pyInt n) = intChars n from rfl, hm0]
        simp [hdash, hsplit]
      · rw [show yamlScalarToken (.pyInt n) = intChars n from rfl, heq]
        simp
  | pyStr s =>
      rw [show yamlScalarToken (.pyStr s) = yamlStrToken s from rfl]
      unfold yamlStrToken
      by_cases hp : plainOk s = true
      · rw [if_pos hp]
        obtain ⟨c2, t2, hd, hind, _, _, hncs, _, _⟩ := plainOk_facts s hp
        obtain ⟨hq1, hq2, _, _, hdash2, _⟩ := indicator_facts c2 hind
        have hsplit : splitKey s.data = none := by
          rw [hd, splitKey_plain c2 t2 hq1 hq2, ← hd]
          rw [plainKeySplit_none s.data hncs []]
        have hdashf : (s.data.head? == some '-') = false := by
          rw [hd]
          simp [hdash2]
        simp [hdashf, hsplit]
      · rw [if_neg hp]
        by_cases hall : s.data.all plainChOk = true
        · rw [if_pos hall]
          have hsplit : splitKey ('\'' :: (sqEscBody s.data ++ ['\''])) = none := by
            rw [splitKey_sq]
            rw [show sqEscBody s.data ++ ['\''] =
              sqEscBody s.data ++ '\'' :: [] from rfl]
            rw [sqScan_esc s.data [] [] (by simp)]
            rfl
          simp [hsplit]
        · rw [if_neg hall]
          have hsplit : splitKey ('"' :: (s.data.flatMap yamlDqEscChar ++ ['"'])) =
              none := by
            rw [splitKey_dq]
            rw [show s.data.flatMap yamlDqEscChar ++ ['"'] =
              s.data.flatMap yamlDqEscChar ++ '"' :: [] from rfl]
            rw [dqScan_strChars s []]
            rfl
          simp [hsplit]
  | pyList xs =>
      cases xs with
      | nil => rfl
      | cons y ys => simp [isFlatVal] at hf
  | pyDict kvs =>
      cases kvs with
      | nil => rfl
      | cons p r2 => simp [isFlatVal] at hf

theorem docLines_flatDoc (tok : List Char) (hnl : '\n' ∉ tok) :
    docLines ((⟨tok⟩ : String) ++ "\n...\n") =
      [(⟨tok⟩ : String), (⟨['.', '.', '.']⟩ : String)] := by
  show ((splitNl [] ((⟨tok⟩ : String) ++ "\n...\n").data).reverse.dropWhile
      (fun l => l == "")).reverse = _
  rw [show ((⟨tok⟩ : String) ++ "\n...\n").data =
    tok ++ '\n' :: (['.', '.', '.'] ++ '\n' :: []) from by simp]
  rw [splitNl_line tok hnl [] (['.', '.', '.'] ++ '\n' :: []),
    splitNl_line ['.', '.', '.'] (by decide) [] []]
  simp only [List.reverse_nil, List.nil_append]
  rw [show splitNl ([] : List Char) ([] : List Char) = [(⟨[]⟩ : String)] from rfl]
  rw [show ([(⟨tok⟩ : String), (⟨['.', '.', '.']⟩ : String),
      (⟨[]⟩ : String)]).reverse =
    [(⟨[]⟩ : String), (⟨['.', '.', '.']⟩ : String), (⟨tok⟩ : String)] from by
      simp]
  rw [List.dropWhile_cons_of_pos (by decide), List.dropWhile_cons_of_neg (by decide)]
  simp

theorem docLines_flatDoc1 (c : Char) (t : List Char) (hnl : '\n' ∉ c :: t) :
    docLines ((⟨c :: t⟩ : String) ++ "\n") = [(⟨c :: t⟩ : String)] := by
  show ((splitNl [] ((⟨c :: t⟩ : String) ++ "\n").data).reverse.dropWhile
      (fun l => l == "")).reverse = _
  rw [show ((⟨c :: t⟩ : String) ++ "\n").data = (c :: t) ++ '\n' :: [] from by
    simp]
  rw [splitNl_line (c :: t) hnl [] []]
  simp only [List.reverse_nil, List.nil_append]
  rw [show splitNl ([] : List Char) ([] : List Char) = [(⟨[]⟩ : String)] from rfl]
  rw [show ([(⟨c :: t⟩ : String), (⟨[]⟩ : String)]).reverse =
    [(⟨[]⟩ : String), (⟨c :: t⟩ : String)] from by simp]
  have hne : ((⟨c :: t⟩ : String) == "") = false := by
    rw [beq_eq_false_iff_ne]
    intro h
    have h2 := congrArg String.data h
    have h4 : c :: t = [] := h2
    exact (List.cons_ne_nil c t) h4
  rw [List.dropWhile_cons_of_pos (by decide), List.dropWhile_cons_of_neg (by
    rw [hne]
    simp)]
  simp

theorem yamlLoads_flat (w : PyVal) (hf : isFlatVal w = true) :
    yamlLoads ((⟨yamlScalarToken w⟩ : String) ++
      (if topOpenEnded w then "\n...\n" else "\n")) = some w := by
  obtain ⟨c, t, hm, hc⟩ := yamlScalarToken_head w
  have hnl : '\n' ∉ yamlScalarToken w := yamlScalarToken_no_nl w
  have hind : lineIndent (⟨yamlScalarToken w⟩ : String) = 0 := by
    rw [hm]
    exact lineIndent_zero c t hc
  by_cases htop : topOpenEnded w = true
  · rw [if_pos htop]
    simp only [yamlLoads]
    rw [docLines_flatDoc (yamlScalarToken w) hnl]
    simp only [hind, beq_self_eq_true, if_true]
    split
    · rename_i t' heq
      exact absurd heq (yamlScalarToken_not_dashsp w hf t')
    · rw [yParseMap_flatTok _ (by omega) w hf _]
      simp only [show ((⟨['.', '.', '.']⟩ : String) == "...") = true from by
        decide, if_true, parseFlatToken_scalar w hf]
  · rw [if_neg htop]
    simp only [yamlLoads]
    rw [hm, docLines_flatDoc1 c t (hm ▸ hnl), ← hm]
    simp only [hind, beq_self_eq_true, if_true]
    split
    · rename_i t' heq
      exact absurd heq (yamlScalarToken_not_dashsp w hf t')
    · rw [yParseMap_flatTok _ (by omega) w hf _]
      simp only [parseFlatToken_scalar w hf]

theorem yamlLoads_mapDoc (k0 : String) (v0 : PyVal)
    (kvs : List (String × PyVal)) :
    yamlLoads (joinLines (yamlMapLines 0 ((k0, v0) :: kvs))) =
      some (.pyDict ((k0, v0) :: kvs)) := by
  obtain ⟨c2, t2, tail2, hm2, hsp2, hd2⟩ := yamlMapLines_shape 0 k0 v0 kvs
  have hsane := yamlMapLines_sane 0 ((k0, v0) :: kvs)
  have hdoc : docLines (joinLines (yamlMapLines 0 ((k0, v0) :: kvs))) =
      yamlMapLines 0 ((k0, v0) :: kvs) := by
    apply docLines_joinLines
    · intro l hl
      exact (hsane l hl).2
    · intro l hl he
      have h1 := (hsane l hl).1
      rw [he] at h1
      exact h1 rfl
  have hlen := joinLines_length (yamlMapLines 0 ((k0, v0) :: kvs))
  have hcc := ccM_bound ((k0, v0) :: kvs) 0 (by simp)
  have hr := yParseMap_render
    (4 * (joinLines (yamlMapLines 0 ((k0, v0) :: kvs))).data.length + 8) 0
    ((k0, v0) :: kvs) [] (by rw [hlen]; omega) rfl
  rw [List.append_nil] at hr
  simp only [yamlLoads]
  rw [hdoc]
  rw [hm2] at hr ⊢
  simp only [lineIndent_spaces 0 c2 t2 hsp2, beq_self_eq_true, if_true]
  rw [show spaces 0 ++ c2 :: t2 = c2 :: t2 from rfl] at hr ⊢
  split
  · rename_i t' heq
    injection heq with h1 _
    exact absurd h1 hd2
  · rw [hr]

theorem yamlLoads_seqDoc (x0 : PyVal) (xs : List PyVal) :
    yamlLoads (joinLines (yamlSeqLines 0 (x0 :: xs))) =
      some (.pyList (x0 :: xs)) := by
  obtain ⟨t2, tail2, hm2⟩ := yamlSeqLines_shape 0 x0 xs
  have hsane := yamlSeqLines_sane 0 (x0 :: xs)
  have hdoc : docLines (joinLines (yamlSeqLines 0 (x0 :: xs))) =
      yamlSeqLines 0 (x0 :: xs) := by
    apply docLines_joinLines
    · intro l hl
      exact (hsane l hl).2
    · intro l hl he
      have h1 := (hsane l hl).1
      rw [he] at h1
      exact h1 rfl
  have hlen := joinLines_length (yamlSeqLines 0 (x0 :: xs))
  have hcc := ccS_bound (x0 :: xs) 0 (by simp)
  have hr := yParseSeq_render
    (4 * (joinLines (yamlSeqLines 0 (x0 :: xs))).data.length + 8) 0
    (x0 :: xs) [] (by rw [hlen]; omega) rfl
  rw [List.append_nil] at hr
  simp only [yamlLoads]
  rw [hdoc]
  rw [hm2] at hr ⊢
  simp only [lineIndent_spaces 0 '-' (' ' :: t2) (by decide), beq_self_eq_true,
    if_true]
  rw [show spaces 0 ++ '-' :: ' ' :: t2 = '-' :: ' ' :: t2 from rfl] at hr ⊢
  rw [hr]
  rfl

theorem yamlLoads_yamlDumps (v : PyVal) :
    yamlLoads (yamlDumps v) = some (canonVal v) := by
  simp only [yamlDumps]
  by_cases hfw : isFlatVal (canonVal v) = true
  · rw [if_pos hfw]
    exact yamlLoads_flat (canonVal v) hfw
  · rw [if_neg hfw]
    cases hcv : canonVal v with
    | pyNone => rw [hcv] at hfw; exact absurd rfl hfw
    | pyBool b => rw [hcv] at hfw; exact absurd rfl hfw
    | pyInt n => rw [hcv] at hfw; exact absurd rfl hfw
    | pyStr s => rw [hcv] at hfw; exact absurd rfl hfw
    | pyList xs =>
        cases xs with
        | nil => rw [hcv] at hfw; exact absurd rfl hfw
        | cons y ys => exact yamlLoads_seqDoc y ys
    | pyDict kvs =>
        cases kvs with
        | nil => rw [hcv] at hfw; exact absurd rfl hfw
        | cons p rest =>
            obtain ⟨k2, v2⟩ := p
            exact yamlLoads_mapDoc k2 v2 rest

/-! ### Python equality of the canonical form -/

theorem insPair_length : ∀ (l : List (String × PyVal)) (p : String × PyVal),
    (insPair p l).length = l.length + 1
  | [], p => rfl
  | q :: r, p => by
      simp only [insPair]
      split
      · simp [insPair_length r p]
      · simp

theorem sortPairs_length : ∀ (kvs : List (String × PyVal)),
    (sortPairs kvs).length = kvs.length
  | [] => rfl
  | p :: r => by
      rw [show sortPairs (p :: r) = insPair p (sortPairs r) from rfl,
        insPair_length, sortPairs_length r]
      simp

theorem canonPairs_length : ∀ (kvs : List (String × PyVal)),
    (canonPairs kvs).length = kvs.length
  | [] => by simp [canonPairs]
  | (k, v) :: kvs => by simp [canonPairs, canonPairs_length kvs]

theorem insPair_mem : ∀ (l : List (String × PyVal)) (p q : String × PyVal),
    q ∈ insPair p l → q = p ∨ q ∈ l
  | [], p, q, h => by
      simp only [insPair, List.mem_singleton] at h
      exact Or.inl h
  | r0 :: r, p, q, h => by
      simp only [insPair] at h
      split at h
      · rcases List.mem_cons.mp h with he | hr
        · exact Or.inr (List.mem_cons.mpr (Or.inl he))
        · rcases insPair_mem r p q hr with h1 | h2
          · exact Or.inl h1
          · exact Or.inr (List.mem_cons.mpr (Or.inr h2))
      · rcases List.mem_cons.mp h with he | hr
        · exact Or.inl he
        · exact Or.inr hr

theorem sortPairs_mem : ∀ (kvs : List (String × PyVal)) (p : String × PyVal),
    p ∈ sortPairs kvs → p ∈ kvs
  | [], p, h => by
      simp [sortPairs] at h
  | q :: r, p, h => by
      rw [show sortPairs (q :: r) = insPair q (sortPairs r) from rfl] at h
      rcases insPair_mem _ q p h with he | hr
      · exact List.mem_cons.mpr (Or.inl he)
      · exact List.mem_cons.mpr (Or.inr (sortPairs_mem r p hr))

theorem dictGet_of_mem_nodup : ∀ (kvs : List (String × PyVal)) (k : String)
    (v : PyVal), (kvs.map Prod.fst).Nodup → (k, v) ∈ kvs →
    dictGet kvs k = some v
  | [], _, _, _, hm => by simp at hm
  | (k', v') :: rest, k, v, hnd, hm => by
      simp only [List.map_cons, List.nodup_cons] at hnd
      obtain ⟨hnotin, hnd2⟩ := hnd
      rcases List.mem_cons.mp hm with he | hr
      · injection he with h1 h2
        subst h1
        subst h2
        simp [dictGet]
      · have hkne : ¬ k' = k := by
          intro he2
          subst he2
          exact hnotin (List.mem_map_of_mem Prod.fst hr)
        simp only [dictGet]
        rw [if_neg (by simp [hkne])]
        exact dictGet_of_mem_nodup rest k v hnd2 hr

theorem pyEqEntries_of_forall : ∀ (a b : List (String × PyVal)),
    (∀ p ∈ a, ∃ w, dictGet b p.1 = some w ∧ pyEq p.2 w = true) →
    pyEqEntries a b = true
  | [], b, _ => by simp [pyEqEntries]
  | (k, v) :: xs, b, h => by
      obtain ⟨w, hg, he⟩ := h (k, v) (by simp)
      simp only [pyEqEntries, Bool.and_eq_true]
      constructor
      · rw [hg]
        exact he
      · exact pyEqEntries_of_forall xs b
          (fun p hp => h p (List.mem_cons_of_mem _ hp))

mutual

theorem pyEq_canonVal : ∀ (v : PyVal), nodupKeys v = true →
    pyEq (canonVal v) v = true
  | .pyNone, _ => by simp [canonVal, pyEq]
  | .pyBool b, _ => by simp [canonVal, pyEq]
  | .pyInt n, _ => by simp [canonVal, pyEq]
  | .pyStr s, _ => by simp [canonVal, pyEq]
  | .pyList xs, h => by
      have hh : nodupKeysItems xs = true := by simpa [nodupKeys] using h
      simp only [canonVal, pyEq]
      exact pyEqItems_canonItems xs hh
  | .pyDict kvs, h => by
      simp only [nodupKeys, Bool.and_eq_true] at h
      obtain ⟨hnd, hrec⟩ := h
      simp only [canonVal, pyEq, Bool.and_eq_true]
      constructor
      · rw [sortPairs_length, canonPairs_length]
        simp
      · apply pyEqEntries_of_forall
        intro p hp
        have hp2 := sortPairs_mem _ p hp
        obtain ⟨v0, hmem, he⟩ := canonPairs_fact kvs hrec p hp2
        exact ⟨v0, dictGet_of_mem_nodup kvs p.1 v0 (by simpa using hnd) hmem, he⟩

theorem pyEqItems_canonItems : ∀ (xs : List PyVal), nodupKeysItems xs = true →
    pyEqItems (canonItems xs) xs = true
  | [], _ => by simp [canonItems, pyEqItems]
  | x :: xs, h => by
      simp only [nodupKeysItems, Bool.and_eq_true] at h
      simp only [canonItems, pyEqItems, Bool.and_eq_true]
      exact ⟨pyEq_canonVal x h.1, pyEqItems_canonItems xs h.2⟩

theorem canonPairs_fact : ∀ (kvs : List (String × PyVal)),
    nodupKeysPairs kvs = true → ∀ p ∈ canonPairs kvs,
      ∃ v0, (p.1, v0) ∈ kvs ∧ pyEq p.2 v0 = true
  | [], _, p, hp => by simp [canonPairs] at hp
  | (k, v) :: kvs, h, p, hp => by
      simp only [nodupKeysPairs, Bool.and_eq_true] at h
      simp only [canonPairs, List.mem_cons] at hp
      rcases hp with he | hr
      · subst he
        exact ⟨v, by simp, pyEq_canonVal v h.1⟩
      · obtain ⟨v0, hm0, he0⟩ := canonPairs_fact kvs h.2 p hr
        exact ⟨v0, List.mem_cons_of_mem _ hm0, he0⟩

end

/-! ### The C4 claim: codec round-trips -/

/-- C4: for every model record `r` whose dictionaries are free of duplicate
keys (as Python dicts are by construction), `_deserialize_json` applied to
the `_serialize_json` encoding of `r` succeeds and returns `r` itself, and
`_deserialize_yaml` applied to the `_serialize_yaml` encoding succeeds and
returns a value Python-`==`-equal to `r` (the key-sorted canonical form,
equal to `r` as a key-value map). -/
theorem c4_codec_roundtrip (r : PyVal) (h : nodupKeys r = true) :
    (∀ s, (DataHandler.serialize_json r).2 = some s →
      (DataHandler.deserialize_json s).2 = some r) ∧
    (∀ s, (DataHandler.serialize_yaml r).2 = some s →
      ∃ w, (DataHandler.deserialize_yaml s).2 = some w ∧ pyEq w r = true) := by
  constructor
  · intro s hs
    have hs2 : some (jsonDumps r) = some s := hs
    injection hs2 with hs3
    subst hs3
    simp [DataHandler.deserialize_json, jsonLoads_jsonDumps r]
  · intro s hs
    have hs2 : some (yamlDumps r) = some s := hs
    injection hs2 with hs3
    subst hs3
    refine ⟨canonVal r, ?_, pyEq_canonVal r h⟩
    simp [DataHandler.deserialize_yaml, yamlLoads_yamlDumps r]

/-- Witness for C4 at a concrete record with a nested list and dictionary. -/
theorem c4_codec_roundtrip_witness :
    nodupKeys (.pyDict [("b", .pyList [.pyStr "x", .pyInt (-2)]),
      ("a", .pyDict [("k", .pyNone)])]) = true ∧
    ((∀ s, (DataHandler.serialize_json (.pyDict [("b", .pyList [.pyStr "x",
        .pyInt (-2)]), ("a", .pyDict [("k", .pyNone)])])).2 = some s →
      (DataHandler.deserialize_json s).2 = some (.pyDict [("b",
        .pyList [.pyStr "x", .pyInt (-2)]), ("a", .pyDict [("k", .pyNone)])])) ∧
    (∀ s, (DataHandler.serialize_yaml (.pyDict [("b", .pyList [.pyStr "x",
        .pyInt (-2)]), ("a", .pyDict [("k", .pyNone)])])).2 = some s →
      ∃ w, (DataHandler.deserialize_yaml s).2 = some w ∧
        pyEq w (.pyDict [("b", .pyList [.pyStr "x", .pyInt (-2)]),
          ("a", .pyDict [("k", .pyNone)])]) = true)) :=
  ⟨by decide, c4_codec_roundtrip (.pyDict [("b", .pyList [.pyStr "x",
    .pyInt (-2)]), ("a", .pyDict [("k", .pyNone)])]) (by decide)⟩


/-- C1 counterexample to the original propagation claim: on the concrete
base handler the save pipeline reaches the hook, the hook raises, but
`save()` still returns an ordinary final state to the caller — the file is
written and the `NotImplementedError` is reported as a caught-exception
diagnostic instead of propagating. -/
theorem c1_hook_propagation_counterexample :
    c1h.save_file c1st = { c1st with
      fs := { c1st.fs with
        files := fileSet c1st.fs.files c1h.file_path
          (.text (jsonDumps c1h.class_data)) },
      out := c1st.out ++
        ["Unexpected error saving data: Subclasses must implement on_saved_file()"] } := by
  have hw : pathWritable c1st.fs c1h.file_path = true := by decide
  simp [Handler.save_file, Handler.save_file_body, DataHandler.serialize_json,
    Handler.save_write, DataHandler.write_file, Handler.on_saved_file, c1h, c1st,
    pyExcMsg, show pathWritable ⟨[], [("f.json", FileData.text "3")], []⟩
      "f.json" = true from hw]


end FileHandler
